import Mathlib

/-!
# Object pages of the board store: a shallow embedding

The development embeds `src/store/object/cxo_types.go` (the pages kept under the
root of a board and the change set computed from the `DiffPage`) and the checks
of `src/misc/tag/check.go`.

Conventions of the embedding.

* Go `int` is a 64-bit signed integer.  Counts and indices are `Int`; the one
  subtraction that can leave the range is wrapped explicitly (`wrapInt`).
* A Go result `(*T, error)` is an `Except boo.Error T`: the functions embedded
  here return a nil pointer with every error and a nil error with every value.
* A method that mutates its receiver returns the receiver after the call.
* A run of Go code either returns or stops with a run-time panic (`Run`).
* The mutex argument of the entry points is left out of the functions: every
  function below is the body that runs between acquiring and releasing it.  What
  each entry point does with its mutex is embedded apart (namespace `traced`).
* A Go `string` is its list of bytes.
-/

namespace object

/-! ## Values kept in the Store -/

/-- Digest `cipher.SHA256`, read as a number. -/
abbrev SHA256 := Nat

/-- Key `cipher.PubKey`, read as a number. -/
abbrev PubKey := Nat

/-- Modelled from the spec: the leaf record `Thread`, declared outside the files
embedded here; a plain value, identified by its serialised content. -/
structure Thread where
  content : Nat
deriving DecidableEq, Repr

/-- Modelled from the spec: the leaf record `Post`, declared outside the files
embedded here; a plain value, identified by its serialised content. -/
structure Post where
  content : Nat
deriving DecidableEq, Repr

/-- Modelled from the spec: the leaf record `Vote`, declared outside the files
embedded here; a plain value, identified by its serialised content. -/
structure Vote where
  content : Nat
deriving DecidableEq, Repr

/-- Dynamic value of Go type `interface{}` as the pages see it: the nil interface,
a `*Thread`, a `*Post`, a `*Vote`, or a value of any other dynamic type (named by
a type tag). -/
inductive Val where
  | nil
  | thread (t : Thread)
  | post (p : Post)
  | vote (v : Vote)
  | other (typ : Nat)
deriving DecidableEq, Repr

/-- Errors handed back by the Store primitives. -/
inductive StoreError where
  | indexOutOfRange (i : Int)
  | hashNotFound (h : SHA256)
  | noValue (h : SHA256)
  | appendRejected
  | setRejected
  | noRootValue (i : Nat)
deriving DecidableEq, Repr

/-- Modelled from the spec: a single reference `skyobject.Ref`, "an opaque,
content-addressable pointer"; `Hash` is the content hash it points to and
`target` is what resolving it yields (`none` when the Store cannot produce the
object). -/
structure Ref (α : Type) where
  Hash : SHA256
  target : Option α
deriving DecidableEq, Repr

/-- Modelled from the spec: a reference list `skyobject.Refs`, "an ordered,
append-only sequence of references". -/
abbrev Refs (α : Type) := List (Ref α)

/-- Modelled from the spec: `Reference.Resolve() -> value`. -/
def Ref.Value {α : Type} (r : Ref α) : Except StoreError α :=
  match r.target with
  | some v => .ok v
  | none => .error (.noValue r.Hash)

/-- Modelled from the spec: `ReferenceList.Length() -> int`. -/
def Refs.Len {α : Type} (r : Refs α) : Int := (r.length : Int)

/-- Modelled from the spec: `ReferenceList.ByIndex(i) -> reference`, "lookup by
position (0-based, fails if out of range)". -/
def Refs.RefBiIndex {α : Type} (r : Refs α) (i : Int) : Except StoreError (Ref α) :=
  if i < 0 then .error (.indexOutOfRange i)
  else
    match r.get? i.toNat with
    | some x => .ok x
    | none => .error (.indexOutOfRange i)

/-- First position of `r` at or after `k` holding hash `h`. -/
def Refs.findHash {α : Type} (h : SHA256) : Refs α → Nat → Option (Nat × Ref α)
  | [], _ => none
  | x :: xs, k => if x.Hash = h then some (k, x) else Refs.findHash h xs (k + 1)

/-- Modelled from the spec: `ReferenceList.ByHash(hash) -> reference`, "lookup by
content hash (fails if absent)".  The reference is returned with its position,
which stands for the pointer into the list. -/
def Refs.RefByHash {α : Type} (r : Refs α) (h : SHA256) : Except StoreError (Nat × Ref α) :=
  match Refs.findHash h r 0 with
  | some x => .ok x
  | none => .error (.hashNotFound h)

/-- `UserActivityPage` (lines 431-434). -/
structure UserActivityPage where
  PubKey : PubKey
  VoteActions : Refs Val
deriving DecidableEq, Repr

/-- Dynamic value an entry of `UsersPage.Users` resolves to: a
`*UserActivityPage` or a value of any other dynamic type. -/
inductive PageVal where
  | userActivityPage (u : UserActivityPage)
  | other (typ : Nat)
deriving DecidableEq, Repr

/-- Modelled from the spec: what the pages need of the external Store:
`ContentHash(serializedValue) -> hash`, whether an append is accepted
(`ReferenceList.Append(value) -> ok`) and whether an in-place replace is
(`Reference.SetValue(value) -> ok`). -/
structure Store where
  hash : Val → SHA256
  accepts : Refs Val → Val → Bool
  hashPage : PageVal → SHA256
  setAccepts : PageVal → Bool

/-- Modelled from the spec: `ReferenceList.Append(value) -> ok`, "append (grows
length by exactly one)": an accepted value becomes the last entry, addressed by
its content hash; a rejected one leaves the list as it was. -/
def Refs.Append (st : Store) (r : Refs Val) (v : Val) : Except StoreError (Refs Val) :=
  if st.accepts r v then .ok (r ++ [{ Hash := st.hash v, target := some v }])
  else .error .appendRejected

/-- Modelled from the spec: `Reference.SetValue(value) -> ok`, "in-place
replace": an accepted value becomes what the reference points to. -/
def Ref.SetValue (st : Store) (_r : Ref PageVal) (v : PageVal) : Except StoreError (Ref PageVal) :=
  if st.setAccepts v then .ok { Hash := st.hashPage v, target := some v }
  else .error .setRejected

end object

/-! ## Errors of package `boo` -/

namespace boo

/-- Modelled from the spec: the error kinds of package `boo` (section 7). -/
inductive Kind where
  | InvalidInput
  | NotFound
  | AlreadyExists
  | InvalidRead
  | NotAllowed
  | Internal
deriving DecidableEq, Repr

/-- Message of an error: the format used at the call site with its arguments. -/
inductive Msg where
  | postExists (h : object.SHA256)
  | appendPost (p : object.Post)
  | appendDiff (list : String) (v : object.Val)
  | addType (v : object.Val)
  | refByIndex (list : String) (i : Int)
  | refByHash (h : object.SHA256) (list : String)
  | value (ref : object.SHA256)
  | ext (ref : object.SHA256)
  | appendTo (v : object.Val) (list : String)
  | invalidType (v : object.Val)
  | failedToSave
  | getRootChild (name : String) (i : Nat)
  | extRootChild (name : String) (i : Nat)
  | saveRootChild (name : String) (i : Nat)
  | addressInvalid (address : List Nat)
  | portInvalid (address : List Nat)
  | invalidMode (mode : Int)
  | appendThread
  | saveThreadPage
  | appendUser (upk : object.PubKey) (list : String)
deriving DecidableEq, Repr

/-- Modelled from the spec: an error of package `boo`: its kind, its message and
the error it wraps, if any. -/
structure Error where
  kind : Kind
  msg : Msg
  cause : Option object.StoreError
deriving DecidableEq, Repr

/-- Modelled from the spec: `boo.Newf(kind, format, args...)`. -/
def Newf (k : Kind) (m : Msg) : Error := { kind := k, msg := m, cause := none }

/-- Modelled from the spec: `boo.WrapTypef(e, kind, format, args...)`. -/
def WrapTypef (e : object.StoreError) (k : Kind) (m : Msg) : Error :=
  { kind := k, msg := m, cause := some e }

/-- Modelled from the spec: `boo.WrapType(e, kind, message)`. -/
def WrapType (e : object.StoreError) (k : Kind) (m : Msg) : Error :=
  { kind := k, msg := m, cause := some e }

/-- Modelled from the spec: `boo.Wrap(e, message)`, by which a failure "is
reported as an internal append failure". -/
def Wrap (e : object.StoreError) (m : Msg) : Error :=
  { kind := Kind.Internal, msg := m, cause := some e }

end boo

namespace object

/-! ## Helper functions (`cxo_types.go`, lines 504-531) -/

def valueErr {α : Type} (e : StoreError) (ref : Ref α) : boo.Error :=
  boo.WrapTypef e boo.Kind.InvalidRead (boo.Msg.value ref.Hash)

def extErr {α : Type} (ref : Ref α) : boo.Error :=
  boo.Newf boo.Kind.InvalidRead (boo.Msg.ext ref.Hash)

def refByHashErr (e : StoreError) (hash : SHA256) (what : String) : boo.Error :=
  boo.WrapTypef e boo.Kind.NotFound (boo.Msg.refByHash hash what)

def refByIndexErr (e : StoreError) (i : Int) (what : String) : boo.Error :=
  boo.WrapTypef e boo.Kind.NotFound (boo.Msg.refByIndex what i)

def appendErr (e : StoreError) (v : Val) (what : String) : boo.Error :=
  boo.WrapTypef e boo.Kind.NotAllowed (boo.Msg.appendTo v what)

/-! ## DiffPage -/

structure DiffPage where
  Threads : Refs Val
  Posts : Refs Val
  Votes : Refs Val
deriving DecidableEq, Repr

/-- `DiffPage.Add` (lines 229-251): the error, if any, and the page after the
call. -/
def DiffPage.Add (st : Store) (dp : DiffPage) (v : Val) : Option boo.Error × DiffPage :=
  match v with
  | .thread _ =>
    match Refs.Append st dp.Threads v with
    | .error _ => (some (boo.Newf boo.Kind.Internal (boo.Msg.appendDiff "DiffPage.Threads" v)), dp)
    | .ok l => (none, { dp with Threads := l })
  | .post _ =>
    match Refs.Append st dp.Posts v with
    | .error _ => (some (boo.Newf boo.Kind.Internal (boo.Msg.appendDiff "DiffPage.Posts" v)), dp)
    | .ok l => (none, { dp with Posts := l })
  | .vote _ =>
    match Refs.Append st dp.Votes v with
    | .error _ => (some (boo.Newf boo.Kind.Internal (boo.Msg.appendDiff "DiffPage.Votes" v)), dp)
    | .ok l => (none, { dp with Votes := l })
  | _ => (some (boo.Newf boo.Kind.Internal (boo.Msg.addType v)), dp)

/-- `DiffPage.GetThreadOfIndex` (lines 253-268). -/
def DiffPage.GetThreadOfIndex (dp : DiffPage) (i : Int) : Except boo.Error Thread :=
  match dp.Threads.RefBiIndex i with
  | .error e => .error (refByIndexErr e i "DiffPage.Threads")
  | .ok tRef =>
    match tRef.Value with
    | .error e => .error (valueErr e tRef)
    | .ok tVal =>
      match tVal with
      | .thread t => .ok t
      | _ => .error (extErr tRef)

/-- `DiffPage.GetPostOfIndex` (lines 270-285). -/
def DiffPage.GetPostOfIndex (dp : DiffPage) (i : Int) : Except boo.Error Post :=
  match dp.Posts.RefBiIndex i with
  | .error e => .error (refByIndexErr e i "DiffPage.Posts")
  | .ok pRef =>
    match pRef.Value with
    | .error e => .error (valueErr e pRef)
    | .ok pVal =>
      match pVal with
      | .post p => .ok p
      | _ => .error (extErr pRef)

/-- `DiffPage.GetVoteOfIndex` (lines 287-302). -/
def DiffPage.GetVoteOfIndex (dp : DiffPage) (i : Int) : Except boo.Error Vote :=
  match dp.Votes.RefBiIndex i with
  | .error e => .error (refByIndexErr e i "DiffPage.Votes")
  | .ok vRef =>
    match vRef.Value with
    | .error e => .error (valueErr e vRef)
    | .ok vVal =>
      match vVal with
      | .vote v => .ok v
      | _ => .error (extErr vRef)

/-- Equality of results is decidable when it is for errors and values. -/
instance instDecidableEqExcept {ε α : Type} [DecidableEq ε] [DecidableEq α] :
    DecidableEq (Except ε α) := fun a b =>
  match a, b with
  | .ok x, .ok y => if h : x = y then isTrue (by rw [h]) else isFalse (fun c => h (by cases c; rfl))
  | .error x, .error y =>
    if h : x = y then isTrue (by rw [h]) else isFalse (fun c => h (by cases c; rfl))
  | .ok _, .error _ => isFalse (fun c => by cases c)
  | .error _, .ok _ => isFalse (fun c => by cases c)

/-- The `Changes` value (lines 304-312); a slice of pointers is a list of
optional values, the nil slice being the empty list. -/
structure Changes where
  ThreadCount : Int
  PostCount : Int
  VoteCount : Int
  NewThreads : List (Option Thread)
  NewPosts : List (Option Post)
  NewVotes : List (Option Vote)
deriving DecidableEq, Repr

/-- A 64-bit signed Go `int` obtained from the mathematical value `x`. -/
def wrapInt (x : Int) : Int := (x + 2 ^ 63) % 2 ^ 64 - 2 ^ 63

/-- Run-time panics a run can stop with. -/
inductive Panic where
  | indexOutOfRange (i : Int) (len : Nat)
  | makeLenOutOfRange (n : Int)
  | nilDereference
deriving DecidableEq, Repr

/-- Outcome of running a Go function: it returns, or it panics. -/
inductive Run (α : Type) where
  | returned (a : α)
  | panicked (p : Panic)
deriving DecidableEq, Repr

/-- One call of `GetThreadOfIndex`, `GetPostOfIndex` or `GetVoteOfIndex` made by
`GetChanges`, with its index. -/
inductive Probe where
  | thread (i : Int)
  | post (i : Int)
  | vote (i : Int)
deriving DecidableEq, Repr

/-- How one of the three loops of `GetChanges` ends: it runs to completion with
the filled slice, it returns an error, or it panics. -/
inductive Fill (α : Type) where
  | done (arr : List (Option α))
  | failed (e : boo.Error)
  | panicked (p : Panic)
deriving DecidableEq, Repr

/-- The pointer a getter hands back: the value, or nil next to an error. -/
def ptrOf {α : Type} : Except boo.Error α → Option α
  | .ok a => some a
  | .error _ => none

/-- The loop `for i := old; i < new; i++ { arr[i], e = get(i); if e != nil {
return nil, e } }` with `n` iterations left and `i` the current index.  Go
evaluates the call first, then stores into `arr[i]` (a store outside the slice
panics), then looks at `e`; on an error the slice is dropped with the rest of
`newC`.  The calls made are logged in order. -/
def fillLoop {α : Type} (get : Int → Except boo.Error α) (mk : Int → Probe) :
    Nat → Int → List (Option α) → List Probe → List Probe × Fill α
  | 0, _, arr, log => (log, .done arr)
  | n + 1, i, arr, log =>
    let r := get i
    if 0 ≤ i ∧ i < (arr.length : Int) then
      match r with
      | .error e => (log ++ [mk i], .failed e)
      | .ok _ => fillLoop get mk n (i + 1) (arr.set i.toNat (ptrOf r)) (log ++ [mk i])
    else (log ++ [mk i], .panicked (.indexOutOfRange i arr.length))

/-- When `make([]*T, len)` panics instead of allocating: the length is negative,
or the slice of 8-byte pointers would pass the largest allocation of the runtime
on a 64-bit platform, `1 << 48` bytes. -/
def makeFails (len : Int) : Prop := len < 0 ∨ 2 ^ 48 < 8 * len

instance instDecidableMakeFails (len : Int) : Decidable (makeFails len) := by
  unfold makeFails
  exact inferInstance

/-- One of the three blocks of `GetChanges` (lines 329-338, 339-348, 349-358):
`if old < new { arr = make([]*T, new-old); for i := old; i < new; i++ ... }`. -/
def newItems {α : Type} (get : Int → Except boo.Error α) (mk : Int → Probe)
    (oldCount newCount : Int) : List Probe × Fill α :=
  if oldCount < newCount then
    let len := wrapInt (newCount - oldCount)
    if makeFails len then ([], .panicked (.makeLenOutOfRange len))
    else
      fillLoop get mk (newCount - oldCount).toNat oldCount (List.replicate len.toNat none) []
  else ([], .done [])

/-- What a call of `GetChanges` did: the entries it asked for, in order, and how
it ended. -/
structure Exec where
  probes : List Probe
  result : Run (Except boo.Error Changes)
deriving DecidableEq, Repr

/-- `DiffPage.GetChanges` (lines 314-361). -/
def DiffPage.GetChanges (dp : DiffPage) (oldC : Option Changes) : Exec :=
  let newC : Changes :=
    { ThreadCount := dp.Threads.Len, PostCount := dp.Posts.Len, VoteCount := dp.Votes.Len,
      NewThreads := [], NewPosts := [], NewVotes := [] }
  match oldC with
  | none => { probes := [], result := .returned (.ok newC) }
  | some oldC =>
    match newItems dp.GetThreadOfIndex Probe.thread oldC.ThreadCount newC.ThreadCount with
    | (l1, .panicked p) => { probes := l1, result := .panicked p }
    | (l1, .failed e) => { probes := l1, result := .returned (.error e) }
    | (l1, .done ts) =>
      match newItems dp.GetPostOfIndex Probe.post oldC.PostCount newC.PostCount with
      | (l2, .panicked p) => { probes := l1 ++ l2, result := .panicked p }
      | (l2, .failed e) => { probes := l1 ++ l2, result := .returned (.error e) }
      | (l2, .done ps) =>
        match newItems dp.GetVoteOfIndex Probe.vote oldC.VoteCount newC.VoteCount with
        | (l3, .panicked p) => { probes := l1 ++ l2 ++ l3, result := .panicked p }
        | (l3, .failed e) => { probes := l1 ++ l2 ++ l3, result := .returned (.error e) }
        | (l3, .done vs) =>
          { probes := l1 ++ l2 ++ l3,
            result := .returned
              (.ok { newC with NewThreads := ts, NewPosts := ps, NewVotes := vs }) }

/-! ## ThreadPage -/

/-- `ThreadPage` (lines 148-151). -/
structure ThreadPage where
  Thread : Ref Val
  Posts : Refs Val
deriving DecidableEq, Repr

/-- `ThreadPage.AddPost` (lines 179-189): the error, if any, and the page after
the call. -/
def ThreadPage.AddPost (st : Store) (tp : ThreadPage) (postHash : SHA256) (post : Post) :
    Option boo.Error × ThreadPage :=
  match tp.Posts.RefByHash postHash with
  | .ok _ => (some (boo.Newf boo.Kind.AlreadyExists (boo.Msg.postExists postHash)), tp)
  | .error _ =>
    match Refs.Append st tp.Posts (Val.post post) with
    | .error e => (some (boo.WrapTypef e boo.Kind.Internal (boo.Msg.appendPost post)), tp)
    | .ok l => (none, { tp with Posts := l })

/-! ## UsersPage and UserActivityPage -/

/-- `UsersPage` (lines 367-369). -/
structure UsersPage where
  Users : Refs PageVal
deriving DecidableEq, Repr

/-- `GetUserActivityPage` (lines 436-447). -/
def GetUserActivityPage (uapRef : Ref PageVal) : Except boo.Error UserActivityPage :=
  match uapRef.Value with
  | .error e => .error (valueErr e uapRef)
  | .ok uapVal =>
    match uapVal with
    | .userActivityPage uap => .ok uap
    | _ => .error (extErr uapRef)

/-- `UsersPage.AddUserActivity` (lines 400-425): the error, if any, and the page
after the call.  `uapRef` points into `up.Users`, so a successful `SetValue`
replaces the entry at its position. -/
def UsersPage.AddUserActivity (st : Store) (up : UsersPage) (uapHash : SHA256) (v : Val) :
    Option boo.Error × UsersPage :=
  match up.Users.RefByHash uapHash with
  | .error e => (some (refByHashErr e uapHash "Users"), up)
  | .ok (k, uapRef) =>
    match GetUserActivityPage uapRef with
    | .error e => (some e, up)
    | .ok uap =>
      match v with
      | .vote _ =>
        match Refs.Append st uap.VoteActions v with
        | .error e => (some (appendErr e v "UsersPage.VoteActions"), up)
        | .ok l =>
          match Ref.SetValue st uapRef (.userActivityPage { uap with VoteActions := l }) with
          | .error _ => (some (boo.Newf boo.Kind.NotAllowed boo.Msg.failedToSave), up)
          | .ok r => (none, { up with Users := up.Users.set k r })
      | _ => (some (boo.Newf boo.Kind.NotAllowed (boo.Msg.invalidType v)), up)

/-! ## Root children -/

def IndexBoardPage : Nat := 0

def IndexDiffPage : Nat := 1

def IndexUsersPage : Nat := 2

def RootChildrenCount : Nat := 3

/-- The table `indexString` (lines 18-22); it is only read at the three indices
it defines. -/
def indexString (i : Nat) : String :=
  match i with
  | 0 => "BoardPage"
  | 1 => "DiffPage"
  | 2 => "UsersPage"
  | _ => ""

/-- Modelled from the spec: the leaf record `Board`, declared outside the files
embedded here; a plain value, identified by its serialised content. -/
structure Board where
  content : Nat
deriving DecidableEq, Repr

/-- Dynamic value the `Board` reference of a board page resolves to. -/
inductive BoardVal where
  | board (b : Board)
  | other (typ : Nat)
deriving DecidableEq, Repr

/-- Dynamic value an entry of `BoardPage.Threads` resolves to. -/
inductive ThreadPageVal where
  | threadPage (tp : ThreadPage)
  | other (typ : Nat)
deriving DecidableEq, Repr

/-- `BoardPage` (lines 80-83). -/
structure BoardPage where
  Board : Ref BoardVal
  Threads : Refs ThreadPageVal
deriving DecidableEq, Repr

/-- `Pages` (lines 28-32); a nil pointer is `none`. -/
structure Pages where
  BoardPage : Option BoardPage
  DiffPage : Option DiffPage
  UsersPage : Option UsersPage
deriving DecidableEq, Repr

/-- Dynamic value a root child resolves to: a `*BoardPage`, a `*DiffPage`, a
`*UsersPage`, or a value of any other dynamic type. -/
inductive RootVal where
  | boardPage (bp : BoardPage)
  | diffPage (dp : DiffPage)
  | usersPage (up : UsersPage)
  | other (typ : Nat)
deriving DecidableEq, Repr

/-- Modelled from the spec: the root object `skyobject.Pack` as the pages use it,
"fixed-slot root child access": `roots` is what each root slot resolves to
(`none` when the Store cannot produce the child), `writable` says which writes
the Store accepts, and `writes` records the slots `SetRefByIndex` was asked to
write, in order. -/
structure Pack where
  roots : List (Option RootVal)
  writable : Nat → RootVal → Bool
  writes : List Nat

/-- Modelled from the spec: `ResolveByIndex(rootIndex) -> value`. -/
def Pack.RefByIndex (p : Pack) (i : Nat) : Except StoreError RootVal :=
  match p.roots.get? i with
  | some (some v) => .ok v
  | some none => .error (.noRootValue i)
  | none => .error (.indexOutOfRange i)

/-- Whether the Store takes the write of `v` into root slot `i`: the slot exists
and the write is accepted. -/
def Pack.canWrite (p : Pack) (i : Nat) (v : RootVal) : Bool :=
  decide (i < p.roots.length) && p.writable i v

/-- Modelled from the spec: `SetByIndex(rootIndex, value) -> ok`: a write that is
taken makes the slot resolve to the value; one that is not leaves every slot as
it was. -/
def Pack.SetRefByIndex (p : Pack) (i : Nat) (v : RootVal) : Option StoreError × Pack :=
  if p.canWrite i v then
    (none, { p with roots := p.roots.set i (some v), writes := p.writes ++ [i] })
  else (some .setRejected, { p with writes := p.writes ++ [i] })

/-- `getRootChildErr` (lines 486-490). -/
def getRootChildErr (e : StoreError) (i : Nat) : boo.Error :=
  boo.WrapTypef e boo.Kind.InvalidRead (boo.Msg.getRootChild (indexString i) i)

/-- `extRootChildErr` (lines 492-496). -/
def extRootChildErr (i : Nat) : boo.Error :=
  boo.Newf boo.Kind.InvalidRead (boo.Msg.extRootChild (indexString i) i)

/-- `saveRootChildErr` (lines 498-502). -/
def saveRootChildErr (e : StoreError) (i : Nat) : boo.Error :=
  boo.WrapTypef e boo.Kind.NotAllowed (boo.Msg.saveRootChild (indexString i) i)

/-- `GetBoardPage` (lines 85-96). -/
def GetBoardPage (p : Pack) : Except boo.Error BoardPage :=
  match p.RefByIndex IndexBoardPage with
  | .error e => .error (getRootChildErr e IndexBoardPage)
  | .ok bpVal =>
    match bpVal with
    | .boardPage bp => .ok bp
    | _ => .error (extRootChildErr IndexBoardPage)

/-- `GetDiffPage` (lines 208-219). -/
def GetDiffPage (p : Pack) : Except boo.Error DiffPage :=
  match p.RefByIndex IndexDiffPage with
  | .error e => .error (getRootChildErr e IndexDiffPage)
  | .ok dpVal =>
    match dpVal with
    | .diffPage dp => .ok dp
    | _ => .error (extRootChildErr IndexDiffPage)

/-- `GetUsersPage` (lines 371-382). -/
def GetUsersPage (p : Pack) : Except boo.Error UsersPage :=
  match p.RefByIndex IndexUsersPage with
  | .error e => .error (getRootChildErr e IndexUsersPage)
  | .ok upVal =>
    match upVal with
    | .usersPage up => .ok up
    | _ => .error (extRootChildErr IndexUsersPage)

/-- The test `len(get) > i && get[i]` on the variadic flags of `GetPages`. -/
def wanted (get : List Bool) (i : Nat) : Bool :=
  decide (get.length > i) && get.getD i false

/-- What a call of `GetPages` hands back: both named results, `out` and `e`, and
the root indices it asked the Store for, in order. -/
structure Loaded where
  loads : List Nat
  out : Pages
  e : Option boo.Error
deriving DecidableEq, Repr

/-- `GetPages` (lines 34-54).  The results are named, so a bare `return` hands
back the container filled so far next to the error. -/
def GetPages (p : Pack) (get : List Bool) : Loaded :=
  let step1 : List Nat × Option BoardPage × Option boo.Error :=
    if wanted get IndexBoardPage then
      match GetBoardPage p with
      | .ok bp => ([IndexBoardPage], some bp, none)
      | .error e => ([IndexBoardPage], none, some e)
    else ([], none, none)
  match step1 with
  | (l1, b, some e) =>
    { loads := l1, out := { BoardPage := b, DiffPage := none, UsersPage := none }, e := some e }
  | (l1, b, none) =>
    let step2 : List Nat × Option DiffPage × Option boo.Error :=
      if wanted get IndexDiffPage then
        match GetDiffPage p with
        | .ok dp => ([IndexDiffPage], some dp, none)
        | .error e => ([IndexDiffPage], none, some e)
      else ([], none, none)
    match step2 with
    | (l2, d, some e) =>
      { loads := l1 ++ l2, out := { BoardPage := b, DiffPage := d, UsersPage := none },
        e := some e }
    | (l2, d, none) =>
      let step3 : List Nat × Option UsersPage × Option boo.Error :=
        if wanted get IndexUsersPage then
          match GetUsersPage p with
          | .ok up => ([IndexUsersPage], some up, none)
          | .error e => ([IndexUsersPage], none, some e)
        else ([], none, none)
      match step3 with
      | (l3, u, e) =>
        { loads := l1 ++ l2 ++ l3, out := { BoardPage := b, DiffPage := d, UsersPage := u },
          e := e }

/-- `BoardPage.Save` (lines 98-104): the error, if any, and the root after the
call. -/
def BoardPage.Save (bp : BoardPage) (p : Pack) : Option boo.Error × Pack :=
  match p.SetRefByIndex IndexBoardPage (.boardPage bp) with
  | (some e, p1) => (some (saveRootChildErr e IndexBoardPage), p1)
  | (none, p1) => (none, p1)

/-- `DiffPage.Save` (lines 221-227). -/
def DiffPage.Save (dp : DiffPage) (p : Pack) : Option boo.Error × Pack :=
  match p.SetRefByIndex IndexDiffPage (.diffPage dp) with
  | (some e, p1) => (some (saveRootChildErr e IndexDiffPage), p1)
  | (none, p1) => (none, p1)

/-- `UsersPage.Save` (lines 384-390). -/
def UsersPage.Save (up : UsersPage) (p : Pack) : Option boo.Error × Pack :=
  match p.SetRefByIndex IndexUsersPage (.usersPage up) with
  | (some e, p1) => (some (saveRootChildErr e IndexUsersPage), p1)
  | (none, p1) => (none, p1)

/-- `Pages.Save` (lines 56-74): the error, if any, and the root after the call. -/
def Pages.Save (pg : Pages) (pack : Pack) : Option boo.Error × Pack :=
  let r1 : Option boo.Error × Pack :=
    match pg.BoardPage with
    | some bp => bp.Save pack
    | none => (none, pack)
  match r1 with
  | (some e, p1) => (some e, p1)
  | (none, p1) =>
    let r2 : Option boo.Error × Pack :=
      match pg.DiffPage with
      | some dp => dp.Save p1
      | none => (none, p1)
    match r2 with
    | (some e, p2) => (some e, p2)
    | (none, p2) =>
      match pg.UsersPage with
      | some up => up.Save p2
      | none => (none, p2)

/-- The children of a container that are present, in index order, each with its
root index and the value `Save` writes for it. -/
def Pages.children (pg : Pages) : List (Nat × RootVal) :=
  (match pg.BoardPage with
    | some bp => [(IndexBoardPage, RootVal.boardPage bp)]
    | none => []) ++
  (match pg.DiffPage with
    | some dp => [(IndexDiffPage, RootVal.diffPage dp)]
    | none => []) ++
  (match pg.UsersPage with
    | some up => [(IndexUsersPage, RootVal.usersPage up)]
    | none => [])

/-- Writing a list of root children in order and stopping at the first write the
Store does not take, as the spec words `Save`. -/
def saveInOrder : List (Nat × RootVal) → Pack → Option boo.Error × Pack
  | [], p => (none, p)
  | (i, v) :: rest, p =>
    match p.SetRefByIndex i v with
    | (some e, p1) => (some (saveRootChildErr e i), p1)
    | (none, p1) => saveInOrder rest p1

/-- The writes `Save` gets to: the children in order up to and including the
first one whose write the Store does not take. -/
def attempted (p : Pack) : List (Nat × RootVal) → List (Nat × RootVal)
  | [] => []
  | c :: rest => if p.canWrite c.1 c.2 then c :: attempted p rest else [c]

/-! ## Locking helper -/

/-- A mutex, named by a number. -/
abbrev Mutex := Nat

/-- A call of `mux.Lock()` or `mux.Unlock()`. -/
inductive LockOp where
  | Lock (m : Mutex)
  | Unlock (m : Mutex)
deriving DecidableEq, Repr

/-- `dynamicLock` (lines 474-480): the lock operations the call performs, and the
lock operations the function it returns performs when it is run. -/
def dynamicLock (mux : Option Mutex) : List LockOp × List LockOp :=
  match mux with
  | some m => ([.Lock m], [.Unlock m])
  | none => ([], [])

/-- The entry points of the package. -/
inductive EntryPoint where
  | GetPages
  | PagesSave
  | GetBoardPage
  | BoardPageSave
  | GetBoard
  | BoardPageGetThreadPage
  | AddThread
  | GetThreadPage
  | GetThread
  | AddPost
  | ThreadPageSave
  | GetDiffPage
  | DiffPageSave
  | DiffPageAdd
  | GetThreadOfIndex
  | GetPostOfIndex
  | GetVoteOfIndex
  | GetChanges
  | GetUsersPage
  | UsersPageSave
  | NewUserActivityPage
  | AddUserActivity
  | GetUserActivityPage
deriving DecidableEq, Repr

/-- The entry points whose body opens with `defer dynamicLock(mux)()`. -/
def lockingEntryPoints : List EntryPoint :=
  [.GetPages, .PagesSave, .GetBoardPage, .BoardPageSave, .BoardPageGetThreadPage, .AddThread,
    .GetThreadPage, .GetThread, .GetDiffPage, .DiffPageSave, .GetThreadOfIndex, .GetPostOfIndex,
    .GetVoteOfIndex, .GetChanges, .GetUsersPage, .UsersPageSave, .GetUserActivityPage]

/-- The entry points without a mutex parameter. -/
def muxlessEntryPoints : List EntryPoint :=
  [.ThreadPageSave, .DiffPageAdd, .NewUserActivityPage, .AddUserActivity]

/-! ## The other entry points -/

/-- `BoardPage.GetBoard` (lines 106-116). -/
def BoardPage.GetBoard (bp : BoardPage) : Except boo.Error object.Board :=
  match bp.Board.Value with
  | .error e => .error (valueErr e bp.Board)
  | .ok bVal =>
    match bVal with
    | .board b => .ok b
    | _ => .error (extErr bp.Board)

/-- `BoardPage.GetThreadPage` (lines 118-133). -/
def BoardPage.GetThreadPage (bp : BoardPage) (tpHash : SHA256) :
    Except boo.Error (Ref ThreadPageVal × ThreadPage) :=
  match bp.Threads.RefByHash tpHash with
  | .error e => .error (refByHashErr e tpHash "BoardPage.Threads")
  | .ok (_, tpRef) =>
    match tpRef.Value with
    | .error e => .error (valueErr e tpRef)
    | .ok tpVal =>
      match tpVal with
      | .threadPage tp => .ok (tpRef, tp)
      | _ => .error (extErr tpRef)

/-- `BoardPage.AddThread` (lines 135-142); `appended` is the outcome of the call
`bp.Threads.Append(ThreadPage{Thread: tRef})` of the Store. -/
def BoardPage.AddThread (bp : BoardPage) (_tRef : Ref Val)
    (appended : Except StoreError (Refs ThreadPageVal)) : Option boo.Error × BoardPage :=
  match appended with
  | .error e => (some (boo.Wrap e boo.Msg.appendThread), bp)
  | .ok l => (none, { bp with Threads := l })

/-- `GetThreadPage` (lines 153-164). -/
def GetThreadPage (tpRef : Ref ThreadPageVal) : Except boo.Error ThreadPage :=
  match tpRef.Value with
  | .error e => .error (valueErr e tpRef)
  | .ok tpVal =>
    match tpVal with
    | .threadPage tp => .ok tp
    | _ => .error (extErr tpRef)

/-- `ThreadPage.GetThread` (lines 166-177). -/
def ThreadPage.GetThread (tp : ThreadPage) : Except boo.Error object.Thread :=
  match tp.Thread.Value with
  | .error e => .error (valueErr e tp.Thread)
  | .ok tVal =>
    match tVal with
    | .thread t => .ok t
    | _ => .error (extErr tp.Thread)

/-- `ThreadPage.Save` (lines 191-196); `set` is the outcome of the call
`tpRef.SetValue(tp)` of the Store: the error, or the reference after it. -/
def ThreadPage.Save (_tp : ThreadPage) (tpRef : Ref ThreadPageVal)
    (set : Except StoreError (Ref ThreadPageVal)) : Option boo.Error × Ref ThreadPageVal :=
  match set with
  | .error e => (some (boo.WrapType e boo.Kind.Internal boo.Msg.saveThreadPage), tpRef)
  | .ok r => (none, r)

/-- `UsersPage.NewUserActivityPage` (lines 392-398); `appended` is the outcome of
the call `up.Users.Append(ua)` of the Store. -/
def UsersPage.NewUserActivityPage (st : Store) (up : UsersPage) (upk : PubKey)
    (appended : Except StoreError (Refs PageVal)) : Except boo.Error SHA256 × UsersPage :=
  match appended with
  | .error e =>
    (.error (boo.WrapTypef e boo.Kind.NotAllowed (boo.Msg.appendUser upk "UsersPage.Users")), up)
  | .ok l =>
    (.ok (st.hashPage (.userActivityPage { PubKey := upk, VoteActions := [] })),
      { up with Users := l })

/-! ## The entry points with their mutex -/

/-- A primitive of the Store. -/
inductive Prim where
  | PackRefByIndex
  | PackSetRefByIndex
  | RefValue
  | RefSetValue
  | RefsLen
  | RefsRefBiIndex
  | RefsRefByHash
  | RefsAppend
deriving DecidableEq, Repr

/-- An event of a run: a lock operation, or a call of a primitive of the Store. -/
inductive Ev where
  | lock (op : LockOp)
  | store (prim : Prim)
deriving DecidableEq, Repr

/-- A run with its events, in order, and its result. -/
abbrev Traced (α : Type) := List Ev × α

/-- A body that opens with `defer dynamicLock(mux)()`: the call of `dynamicLock`
performs its lock operations at once, the function it returns is deferred, so it
runs when the body has returned. -/
def withDynamicLock {α : Type} (mux : Option Mutex) (body : Traced α) : Traced α :=
  ((dynamicLock mux).1.map Ev.lock ++ body.1 ++ (dynamicLock mux).2.map Ev.lock, body.2)

namespace traced

/-- `GetBoardPage` (lines 85-96) with its mutex. -/
def GetBoardPage (p : Pack) (mux : Option Mutex) : Traced (Except boo.Error BoardPage) :=
  withDynamicLock mux ([.store .PackRefByIndex], object.GetBoardPage p)

/-- `GetDiffPage` (lines 208-219) with its mutex. -/
def GetDiffPage (p : Pack) (mux : Option Mutex) : Traced (Except boo.Error DiffPage) :=
  withDynamicLock mux ([.store .PackRefByIndex], object.GetDiffPage p)

/-- `GetUsersPage` (lines 371-382) with its mutex. -/
def GetUsersPage (p : Pack) (mux : Option Mutex) : Traced (Except boo.Error UsersPage) :=
  withDynamicLock mux ([.store .PackRefByIndex], object.GetUsersPage p)

/-- The events of the inner call `GetBoardPage(p, nil)`, `GetDiffPage(p, nil)` or
`GetUsersPage(p, nil)` that loads root child `i`. -/
def loadEvents (p : Pack) (i : Nat) : List Ev :=
  if i = IndexBoardPage then (GetBoardPage p none).1
  else if i = IndexDiffPage then (GetDiffPage p none).1
  else (GetUsersPage p none).1

/-- `GetPages` (lines 34-54) with its mutex: the body makes the inner calls, each
with a nil mutex, for the children it loads. -/
def GetPages (p : Pack) (mux : Option Mutex) (get : List Bool) : Traced Loaded :=
  withDynamicLock mux
    (((object.GetPages p get).loads.map (loadEvents p)).flatten, object.GetPages p get)

/-- `BoardPage.Save` (lines 98-104) with its mutex. -/
def BoardPage.Save (bp : BoardPage) (p : Pack) (mux : Option Mutex) :
    Traced (Option boo.Error × Pack) :=
  withDynamicLock mux ([.store .PackSetRefByIndex], object.BoardPage.Save bp p)

/-- `DiffPage.Save` (lines 221-227) with its mutex. -/
def DiffPage.Save (dp : DiffPage) (p : Pack) (mux : Option Mutex) :
    Traced (Option boo.Error × Pack) :=
  withDynamicLock mux ([.store .PackSetRefByIndex], object.DiffPage.Save dp p)

/-- `UsersPage.Save` (lines 384-390) with its mutex. -/
def UsersPage.Save (up : UsersPage) (p : Pack) (mux : Option Mutex) :
    Traced (Option boo.Error × Pack) :=
  withDynamicLock mux ([.store .PackSetRefByIndex], object.UsersPage.Save up p)

/-- The events of the inner call `Save(pack, nil)` of a child; they are the same
on every root. -/
def saveEvents (pack : Pack) (c : Nat × RootVal) : List Ev :=
  match c.2 with
  | .boardPage bp => (BoardPage.Save bp pack none).1
  | .diffPage dp => (DiffPage.Save dp pack none).1
  | .usersPage up => (UsersPage.Save up pack none).1
  | .other _ => []

/-- `Pages.Save` (lines 56-74) with its mutex: the body makes the inner calls,
each with a nil mutex, for the children whose write it gets to. -/
def Pages.Save (pg : Pages) (pack : Pack) (mux : Option Mutex) :
    Traced (Option boo.Error × Pack) :=
  withDynamicLock mux
    (((attempted pack pg.children).map (saveEvents pack)).flatten, object.Pages.Save pg pack)

/-- `BoardPage.GetBoard` (lines 106-116): the mutex is a parameter and is never
used. -/
def BoardPage.GetBoard (bp : BoardPage) (_mux : Option Mutex) :
    Traced (Except boo.Error object.Board) :=
  ([.store .RefValue], object.BoardPage.GetBoard bp)

/-- The events of looking a reference up by hash and, when it is found, resolving
it. -/
def findEvents {α : Type} (l : Refs α) (h : SHA256) : List Ev :=
  match l.RefByHash h with
  | .error _ => [.store .RefsRefByHash]
  | .ok _ => [.store .RefsRefByHash, .store .RefValue]

/-- `BoardPage.GetThreadPage` (lines 118-133) with its mutex. -/
def BoardPage.GetThreadPage (bp : BoardPage) (tpHash : SHA256) (mux : Option Mutex) :
    Traced (Except boo.Error (Ref ThreadPageVal × ThreadPage)) :=
  withDynamicLock mux (findEvents bp.Threads tpHash, object.BoardPage.GetThreadPage bp tpHash)

/-- `BoardPage.AddThread` (lines 135-142) with its mutex. -/
def BoardPage.AddThread (bp : BoardPage) (tRef : Ref Val)
    (appended : Except StoreError (Refs ThreadPageVal)) (mux : Option Mutex) :
    Traced (Option boo.Error × BoardPage) :=
  withDynamicLock mux ([.store .RefsAppend], object.BoardPage.AddThread bp tRef appended)

/-- `GetThreadPage` (lines 153-164) with its mutex. -/
def GetThreadPage (tpRef : Ref ThreadPageVal) (mux : Option Mutex) :
    Traced (Except boo.Error ThreadPage) :=
  withDynamicLock mux ([.store .RefValue], object.GetThreadPage tpRef)

/-- `ThreadPage.GetThread` (lines 166-177) with its mutex. -/
def ThreadPage.GetThread (tp : ThreadPage) (mux : Option Mutex) :
    Traced (Except boo.Error object.Thread) :=
  withDynamicLock mux ([.store .RefValue], object.ThreadPage.GetThread tp)

/-- `ThreadPage.AddPost` (lines 179-189): the mutex is a parameter and is never
used; a post that is found is not appended. -/
def ThreadPage.AddPost (st : Store) (tp : ThreadPage) (postHash : SHA256) (post : Post)
    (_mux : Option Mutex) : Traced (Option boo.Error × ThreadPage) :=
  ((match tp.Posts.RefByHash postHash with
      | .ok _ => [.store .RefsRefByHash]
      | .error _ => [.store .RefsRefByHash, .store .RefsAppend]),
    object.ThreadPage.AddPost st tp postHash post)

/-- `ThreadPage.Save` (lines 191-196): there is no mutex parameter. -/
def ThreadPage.Save (tp : ThreadPage) (tpRef : Ref ThreadPageVal)
    (set : Except StoreError (Ref ThreadPageVal)) : Traced (Option boo.Error × Ref ThreadPageVal) :=
  ([.store .RefSetValue], object.ThreadPage.Save tp tpRef set)

/-- `DiffPage.Add` (lines 229-251): there is no mutex parameter; a value of
another type is not appended. -/
def DiffPage.Add (st : Store) (dp : DiffPage) (v : Val) : Traced (Option boo.Error × DiffPage) :=
  ((match v with
      | .thread _ => [.store .RefsAppend]
      | .post _ => [.store .RefsAppend]
      | .vote _ => [.store .RefsAppend]
      | _ => []),
    object.DiffPage.Add st dp v)

/-- The events of looking a reference up by index and, when it is there,
resolving it. -/
def indexEvents {α : Type} (l : Refs α) (i : Int) : List Ev :=
  match l.RefBiIndex i with
  | .error _ => [.store .RefsRefBiIndex]
  | .ok _ => [.store .RefsRefBiIndex, .store .RefValue]

/-- `DiffPage.GetThreadOfIndex` (lines 253-268) with its mutex. -/
def DiffPage.GetThreadOfIndex (dp : DiffPage) (i : Int) (mux : Option Mutex) :
    Traced (Except boo.Error Thread) :=
  withDynamicLock mux (indexEvents dp.Threads i, object.DiffPage.GetThreadOfIndex dp i)

/-- `DiffPage.GetPostOfIndex` (lines 270-285) with its mutex. -/
def DiffPage.GetPostOfIndex (dp : DiffPage) (i : Int) (mux : Option Mutex) :
    Traced (Except boo.Error Post) :=
  withDynamicLock mux (indexEvents dp.Posts i, object.DiffPage.GetPostOfIndex dp i)

/-- `DiffPage.GetVoteOfIndex` (lines 287-302) with its mutex. -/
def DiffPage.GetVoteOfIndex (dp : DiffPage) (i : Int) (mux : Option Mutex) :
    Traced (Except boo.Error Vote) :=
  withDynamicLock mux (indexEvents dp.Votes i, object.DiffPage.GetVoteOfIndex dp i)

/-- The events of one inner call `dp.GetThreadOfIndex(i, nil)`,
`dp.GetPostOfIndex(i, nil)` or `dp.GetVoteOfIndex(i, nil)` of `GetChanges`. -/
def probeEvents (dp : DiffPage) : Probe → List Ev
  | .thread i => (DiffPage.GetThreadOfIndex dp i none).1
  | .post i => (DiffPage.GetPostOfIndex dp i none).1
  | .vote i => (DiffPage.GetVoteOfIndex dp i none).1

/-- `DiffPage.GetChanges` (lines 314-361) with its mutex: the body reads the three
lengths and makes its inner calls, each with a nil mutex; the deferred function
runs also when the body panics. -/
def DiffPage.GetChanges (dp : DiffPage) (oldC : Option Changes) (mux : Option Mutex) :
    Traced (Run (Except boo.Error Changes)) :=
  withDynamicLock mux
    ([.store .RefsLen, .store .RefsLen, .store .RefsLen] ++
        ((object.DiffPage.GetChanges dp oldC).probes.map (probeEvents dp)).flatten,
      (object.DiffPage.GetChanges dp oldC).result)

/-- `GetUserActivityPage` (lines 436-447) with its mutex. -/
def GetUserActivityPage (uapRef : Ref PageVal) (mux : Option Mutex) :
    Traced (Except boo.Error UserActivityPage) :=
  withDynamicLock mux ([.store .RefValue], object.GetUserActivityPage uapRef)

/-- `UsersPage.NewUserActivityPage` (lines 392-398): there is no mutex
parameter. -/
def UsersPage.NewUserActivityPage (st : Store) (up : UsersPage) (upk : PubKey)
    (appended : Except StoreError (Refs PageVal)) : Traced (Except boo.Error SHA256 × UsersPage) :=
  ([.store .RefsAppend], object.UsersPage.NewUserActivityPage st up upk appended)

/-- `UsersPage.AddUserActivity` (lines 400-425): there is no mutex parameter; the
inner call `GetUserActivityPage(uapRef, nil)` is made with a nil mutex. -/
def UsersPage.AddUserActivity (st : Store) (up : UsersPage) (uapHash : SHA256) (v : Val) :
    Traced (Option boo.Error × UsersPage) :=
  ((match up.Users.RefByHash uapHash with
      | .error _ => [.store .RefsRefByHash]
      | .ok (_, uapRef) =>
        [.store .RefsRefByHash] ++ (GetUserActivityPage uapRef none).1 ++
          (match object.GetUserActivityPage uapRef with
            | .error _ => []
            | .ok uap =>
              match v with
              | .vote _ =>
                match Refs.Append st uap.VoteActions v with
                | .error _ => [.store .RefsAppend]
                | .ok _ => [.store .RefsAppend, .store .RefSetValue]
              | _ => [])),
    object.UsersPage.AddUserActivity st up uapHash v)

end traced

/-- A call of an entry point: the entry point with its arguments, the mutex
apart. -/
inductive Call where
  | GetPages (p : Pack) (get : List Bool)
  | PagesSave (pg : Pages) (pack : Pack)
  | GetBoardPage (p : Pack)
  | BoardPageSave (bp : BoardPage) (p : Pack)
  | GetBoard (bp : BoardPage)
  | BoardPageGetThreadPage (bp : BoardPage) (tpHash : SHA256)
  | AddThread (bp : BoardPage) (tRef : Ref Val) (appended : Except StoreError (Refs ThreadPageVal))
  | GetThreadPage (tpRef : Ref ThreadPageVal)
  | GetThread (tp : ThreadPage)
  | AddPost (st : Store) (tp : ThreadPage) (postHash : SHA256) (post : Post)
  | ThreadPageSave (tp : ThreadPage) (tpRef : Ref ThreadPageVal)
      (set : Except StoreError (Ref ThreadPageVal))
  | GetDiffPage (p : Pack)
  | DiffPageSave (dp : DiffPage) (p : Pack)
  | DiffPageAdd (st : Store) (dp : DiffPage) (v : Val)
  | GetThreadOfIndex (dp : DiffPage) (i : Int)
  | GetPostOfIndex (dp : DiffPage) (i : Int)
  | GetVoteOfIndex (dp : DiffPage) (i : Int)
  | GetChanges (dp : DiffPage) (oldC : Option Changes)
  | GetUsersPage (p : Pack)
  | UsersPageSave (up : UsersPage) (p : Pack)
  | NewUserActivityPage (st : Store) (up : UsersPage) (upk : PubKey)
      (appended : Except StoreError (Refs PageVal))
  | AddUserActivity (st : Store) (up : UsersPage) (uapHash : SHA256) (v : Val)
  | GetUserActivityPage (uapRef : Ref PageVal)

/-- The entry point a call is a call of. -/
def Call.entry : Call → EntryPoint
  | .GetPages _ _ => .GetPages
  | .PagesSave _ _ => .PagesSave
  | .GetBoardPage _ => .GetBoardPage
  | .BoardPageSave _ _ => .BoardPageSave
  | .GetBoard _ => .GetBoard
  | .BoardPageGetThreadPage _ _ => .BoardPageGetThreadPage
  | .AddThread _ _ _ => .AddThread
  | .GetThreadPage _ => .GetThreadPage
  | .GetThread _ => .GetThread
  | .AddPost _ _ _ _ => .AddPost
  | .ThreadPageSave _ _ _ => .ThreadPageSave
  | .GetDiffPage _ => .GetDiffPage
  | .DiffPageSave _ _ => .DiffPageSave
  | .DiffPageAdd _ _ _ => .DiffPageAdd
  | .GetThreadOfIndex _ _ => .GetThreadOfIndex
  | .GetPostOfIndex _ _ => .GetPostOfIndex
  | .GetVoteOfIndex _ _ => .GetVoteOfIndex
  | .GetChanges _ _ => .GetChanges
  | .GetUsersPage _ => .GetUsersPage
  | .UsersPageSave _ _ => .UsersPageSave
  | .NewUserActivityPage _ _ _ _ => .NewUserActivityPage
  | .AddUserActivity _ _ _ _ => .AddUserActivity
  | .GetUserActivityPage _ => .GetUserActivityPage

/-- The events of a call when the caller holds the mutex `mux` (or none) and
passes it wherever the signature of the entry point has a mutex parameter. -/
def Call.events (c : Call) (mux : Option Mutex) : List Ev :=
  match c with
  | .GetPages p get => (traced.GetPages p mux get).1
  | .PagesSave pg pack => (traced.Pages.Save pg pack mux).1
  | .GetBoardPage p => (traced.GetBoardPage p mux).1
  | .BoardPageSave bp p => (traced.BoardPage.Save bp p mux).1
  | .GetBoard bp => (traced.BoardPage.GetBoard bp mux).1
  | .BoardPageGetThreadPage bp h => (traced.BoardPage.GetThreadPage bp h mux).1
  | .AddThread bp tRef appended => (traced.BoardPage.AddThread bp tRef appended mux).1
  | .GetThreadPage tpRef => (traced.GetThreadPage tpRef mux).1
  | .GetThread tp => (traced.ThreadPage.GetThread tp mux).1
  | .AddPost st tp h post => (traced.ThreadPage.AddPost st tp h post mux).1
  | .ThreadPageSave tp tpRef set => (traced.ThreadPage.Save tp tpRef set).1
  | .GetDiffPage p => (traced.GetDiffPage p mux).1
  | .DiffPageSave dp p => (traced.DiffPage.Save dp p mux).1
  | .DiffPageAdd st dp v => (traced.DiffPage.Add st dp v).1
  | .GetThreadOfIndex dp i => (traced.DiffPage.GetThreadOfIndex dp i mux).1
  | .GetPostOfIndex dp i => (traced.DiffPage.GetPostOfIndex dp i mux).1
  | .GetVoteOfIndex dp i => (traced.DiffPage.GetVoteOfIndex dp i mux).1
  | .GetChanges dp oldC => (traced.DiffPage.GetChanges dp oldC mux).1
  | .GetUsersPage p => (traced.GetUsersPage p mux).1
  | .UsersPageSave up p => (traced.UsersPage.Save up p mux).1
  | .NewUserActivityPage st up upk appended =>
    (traced.UsersPage.NewUserActivityPage st up upk appended).1
  | .AddUserActivity st up h v => (traced.UsersPage.AddUserActivity st up h v).1
  | .GetUserActivityPage uapRef => (traced.GetUserActivityPage uapRef mux).1

/-- Whether an event is a lock operation. -/
def Ev.isLock : Ev → Bool
  | .lock _ => true
  | .store _ => false

/-! ## `GetChanges` statement by statement -/

/-- What the body of `GetChanges` can reach: the page behind the receiver `dp`,
the `Changes` behind the argument `oldC` (`none` for nil) and the `Changes`
behind the fresh `newC`. -/
structure Frame where
  dp : DiffPage
  oldC : Option Changes
  newC : Changes
deriving DecidableEq, Repr

/-- One of the three item slices of a `Changes`: how it is read and how it is
assigned. -/
structure Slice (α : Type) where
  read : Changes → List (Option α)
  assign : Changes → List (Option α) → Changes

/-- The field `NewThreads`. -/
def Slice.NewThreads : Slice Thread :=
  { read := fun c => c.NewThreads, assign := fun c a => { c with NewThreads := a } }

/-- The field `NewPosts`. -/
def Slice.NewPosts : Slice Post :=
  { read := fun c => c.NewPosts, assign := fun c a => { c with NewPosts := a } }

/-- The field `NewVotes`. -/
def Slice.NewVotes : Slice Vote :=
  { read := fun c => c.NewVotes, assign := fun c a => { c with NewVotes := a } }

/-- The loop `for i := old; i < new; i++ { var e error; newC.New[i], e =
dp.Get(i, nil); if e != nil { return nil, e } }` as a step on the frame, with `n`
iterations left: the getter reads the page of the frame and the store goes into
the slice of `newC` in the frame.  The second component is `none` when the loop
runs to its end and the way the function ends otherwise. -/
def storeLoop {α : Type} (sl : Slice α) (getter : DiffPage → Int → Except boo.Error α) :
    Nat → Int → Frame → Frame × Option (Run (Except boo.Error Changes))
  | 0, _, f => (f, none)
  | n + 1, i, f =>
    let r := getter f.dp i
    if 0 ≤ i ∧ i < ((sl.read f.newC).length : Int) then
      let f1 : Frame :=
        { f with newC := sl.assign f.newC ((sl.read f.newC).set i.toNat (ptrOf r)) }
      match r with
      | .error e => (f1, some (.returned (.error e)))
      | .ok _ => storeLoop sl getter n (i + 1) f1
    else (f, some (.panicked (.indexOutOfRange i (sl.read f.newC).length)))

/-- One of the three blocks of `GetChanges` as a step on the frame: `if
oldC.Count < newC.Count { newC.New = make([]*T, newC.Count-oldC.Count); for ...
}`; `oldC` and `newC` are read from the frame. -/
def storeBlock {α : Type} (sl : Slice α) (getter : DiffPage → Int → Except boo.Error α)
    (count : Changes → Int) (f : Frame) : Frame × Option (Run (Except boo.Error Changes)) :=
  match f.oldC with
  | none => (f, some (.panicked .nilDereference))
  | some oldC =>
    if count oldC < count f.newC then
      let len := wrapInt (count f.newC - count oldC)
      if makeFails len then (f, some (.panicked (.makeLenOutOfRange len)))
      else
        storeLoop sl getter (count f.newC - count oldC).toNat (count oldC)
          { f with newC := sl.assign f.newC (List.replicate len.toNat none) }
    else (f, none)

/-- `DiffPage.GetChanges` (lines 314-361) statement by statement on the frame:
the frame the function leaves behind and how it ends. -/
def DiffPage.GetChangesRun (dp : DiffPage) (oldC : Option Changes) :
    Frame × Run (Except boo.Error Changes) :=
  let f0 : Frame :=
    { dp := dp, oldC := oldC,
      newC := { ThreadCount := 0, PostCount := 0, VoteCount := 0, NewThreads := [],
                NewPosts := [], NewVotes := [] } }
  let f1 : Frame := { f0 with newC := { f0.newC with ThreadCount := f0.dp.Threads.Len } }
  let f2 : Frame := { f1 with newC := { f1.newC with PostCount := f1.dp.Posts.Len } }
  let f3 : Frame := { f2 with newC := { f2.newC with VoteCount := f2.dp.Votes.Len } }
  match f3.oldC with
  | none => (f3, .returned (.ok f3.newC))
  | some _ =>
    match storeBlock Slice.NewThreads DiffPage.GetThreadOfIndex Changes.ThreadCount f3 with
    | (f4, some r) => (f4, r)
    | (f4, none) =>
      match storeBlock Slice.NewPosts DiffPage.GetPostOfIndex Changes.PostCount f4 with
      | (f5, some r) => (f5, r)
      | (f5, none) =>
        match storeBlock Slice.NewVotes DiffPage.GetVoteOfIndex Changes.VoteCount f5 with
        | (f6, some r) => (f6, r)
        | (f6, none) => (f6, .returned (.ok f6.newC))

/-- The three counts of the `Changes` passed, if one is. -/
def countsOf (c : Option Changes) : Option (Int × Int × Int) :=
  c.map (fun c => (c.ThreadCount, c.PostCount, c.VoteCount))

/-! ## Stores and pages used in the examples -/

/-- A Store that accepts every append and every replace; the content hash of a
value is read off its content, distinct kinds of value getting distinct hashes. -/
def openStore : Store where
  hash := fun v =>
    match v with
    | .nil => 0
    | .thread t => 4 * t.content + 1
    | .post p => 4 * p.content + 2
    | .vote w => 4 * w.content + 3
    | .other n => 4 * n + 4
  accepts := fun _ _ => true
  hashPage := fun v =>
    match v with
    | .userActivityPage u => 2 * u.PubKey
    | .other n => 2 * n + 1
  setAccepts := fun _ => true

/-- A Store with the hashes of `openStore` that rejects every append and every
replace. -/
def closedStore : Store :=
  { openStore with accepts := fun _ _ => false, setAccepts := fun _ => false }

/-- The empty `DiffPage`. -/
def emptyDiffPage : DiffPage := { Threads := [], Posts := [], Votes := [] }

/-- The page of the scenario after `Add(T1)` and `Add(T2)`. -/
def scenarioPage2 : DiffPage :=
  (DiffPage.Add openStore (DiffPage.Add openStore emptyDiffPage (.thread ⟨1⟩)).2 (.thread ⟨2⟩)).2

/-- The page of the scenario after the further `Add(T3)`. -/
def scenarioPage3 : DiffPage := (DiffPage.Add openStore scenarioPage2 (.thread ⟨3⟩)).2

/-- The counts a consumer remembers after its first look at `scenarioPage2`. -/
def scenarioPrev : Changes :=
  { ThreadCount := 2, PostCount := 0, VoteCount := 0, NewThreads := [], NewPosts := [],
    NewVotes := [] }

/-- A page whose second thread entry cannot be dereferenced. -/
def danglingPage : DiffPage :=
  { Threads := [{ Hash := 5, target := some (.thread ⟨1⟩) }, { Hash := 9, target := none }],
    Posts := [], Votes := [] }

/-- The counts remembered when `danglingPage` held one thread. -/
def danglingPrev : Changes :=
  { ThreadCount := 1, PostCount := 0, VoteCount := 0, NewThreads := [], NewPosts := [],
    NewVotes := [] }

/-- A thread count at or above the current length, with nothing new elsewhere
either. -/
def staleCounts : Changes :=
  { ThreadCount := 5, PostCount := 0, VoteCount := 0, NewThreads := [], NewPosts := [],
    NewVotes := [] }

/-- A thread page with no posts yet. -/
def emptyThreadPage : ThreadPage :=
  { Thread := { Hash := 1, target := some (.thread ⟨0⟩) }, Posts := [] }

/-- A thread page holding the one post `⟨7⟩` under its content hash in
`openStore`. -/
def onePostPage : ThreadPage := (ThreadPage.AddPost openStore emptyThreadPage 30 ⟨7⟩).2

/-- The posts of `ps` added in order, each under the content hash the Store
gives it. -/
def ThreadPage.addPosts (st : Store) (tp : ThreadPage) (ps : List Post) : ThreadPage :=
  ps.foldl (fun t p => (ThreadPage.AddPost st t (st.hash (.post p)) p).2) tp

/-- The content hashes of the posts of a thread page, in order. -/
def ThreadPage.postHashes (tp : ThreadPage) : List SHA256 := tp.Posts.map Ref.Hash

/-- A users page with no user. -/
def emptyUsersPage : UsersPage := { Users := [] }

/-- A users page with one user, of key 6, addressed by hash 12. -/
def oneUserPage : UsersPage :=
  { Users := [{ Hash := 12, target := some (.userActivityPage { PubKey := 6, VoteActions := [] }) }] }

/-- A page whose first post entry resolves to a thread. -/
def mixedPage : DiffPage :=
  { Threads := [], Posts := [{ Hash := 5, target := some (.thread ⟨1⟩) }], Votes := [] }

/-- A board page with no thread. -/
def boardPage0 : BoardPage :=
  { Board := { Hash := 2, target := some (.board ⟨0⟩) }, Threads := [] }

/-- A root whose three slots hold a board page, a diff page and a users page and
that takes every write. -/
def fullPack : Pack :=
  { roots := [some (.boardPage boardPage0), some (.diffPage scenarioPage3),
      some (.usersPage oneUserPage)],
    writable := fun _ _ => true, writes := [] }

/-- A root with three slots that resolve to nothing yet and that takes every
write. -/
def freshPack : Pack :=
  { roots := [none, none, none], writable := fun _ _ => true, writes := [] }

/-- A root like `fullPack` whose slot 1 holds a users page and that takes no
write into slot 1. -/
def crossedPack : Pack :=
  { roots := [some (.boardPage boardPage0), some (.usersPage oneUserPage),
      some (.usersPage oneUserPage)],
    writable := fun i _ => decide (i ≠ 1), writes := [] }

/-- A container with all three children. -/
def fullPages : Pages :=
  { BoardPage := some boardPage0, DiffPage := some scenarioPage2, UsersPage := some emptyUsersPage }

/-- A container with no child. -/
def noPages : Pages := { BoardPage := none, DiffPage := none, UsersPage := none }

/-- A container with a board page only. -/
def boardOnlyPages : Pages := { BoardPage := some boardPage0, DiffPage := none, UsersPage := none }

/-- A container with a diff page only. -/
def diffOnlyPages : Pages := { BoardPage := none, DiffPage := some scenarioPage2, UsersPage := none }

/-- A page with two posts and nothing else. -/
def twoPostsPage : DiffPage :=
  (DiffPage.Add openStore (DiffPage.Add openStore emptyDiffPage (.post ⟨1⟩)).2 (.post ⟨2⟩)).2

/-- The counts remembered when `twoPostsPage` held its first post only. -/
def onePostSeen : Changes :=
  { ThreadCount := 0, PostCount := 1, VoteCount := 0, NewThreads := [], NewPosts := [],
    NewVotes := [] }

/-- Counts of a consumer that has seen nothing yet. -/
def zeroCounts : Changes :=
  { ThreadCount := 0, PostCount := 0, VoteCount := 0, NewThreads := [], NewPosts := [],
    NewVotes := [] }

/-- The same counts with item slices left in the `Changes`. -/
def zeroCountsWithItems : Changes :=
  { zeroCounts with NewThreads := [some ⟨9⟩], NewVotes := [none] }

end object

/-! ## Checks of package `tag` (`check.go`) -/

namespace tag

/-- The library function `strings.Split(s, ":")` on the bytes of `s`: the pieces
between the colons, one more than there are colons. -/
def Split : List Nat → List (List Nat)
  | [] => [[]]
  | c :: cs =>
    if c = 58 then [] :: Split cs
    else
      match Split cs with
      | [] => [[c]]
      | seg :: rest => (c :: seg) :: rest

/-- The two errors of the library package `strconv`. -/
inductive NumError where
  | ErrSyntax
  | ErrRange
deriving DecidableEq, Repr

/-- The library helper `lower(c)`: `c | ('x' - 'X')`. -/
def lower (c : Nat) : Nat := c ||| 32

/-- The digit a byte stands for in `strconv.ParseUint`: `c - '0'` for `'0'..'9'`,
`lower(c) - 'a' + 10` for a letter, none for any other byte. -/
def digitOf (c : Nat) : Option Nat :=
  if 48 ≤ c ∧ c ≤ 57 then some (c - 48)
  else if 97 ≤ lower c ∧ lower c ≤ 122 then some (lower c - 97 + 10)
  else none

/-- The digit loop of `strconv.ParseUint` on `uint64`: a byte that is no digit of
the base is a syntax error; `n >= cutoff` (so `n*base` overflows) and
`n1 < n || n1 > maxVal` are range errors. -/
def parseLoop (base cutoff maxVal : Nat) : List Nat → Nat → Except NumError Nat
  | [], n => .ok n
  | c :: cs, n =>
    match digitOf c with
    | none => .error .ErrSyntax
    | some d =>
      if d ≥ base then .error .ErrSyntax
      else if n ≥ cutoff then .error .ErrRange
      else
        let m := (n * base) % 2 ^ 64
        let n1 := (m + d) % 2 ^ 64
        if n1 < m ∨ n1 > maxVal then .error .ErrRange
        else parseLoop base cutoff maxVal cs n1

/-- The library call `strconv.ParseUint(s, 10, 16)`: the empty string is a syntax
error; base 10 is given, so no prefix and no underscore is read; the cutoff is
`maxUint64/10 + 1` and the largest value `1<<16 - 1`. -/
def ParseUint (s : List Nat) : Except NumError Nat :=
  if s = [] then .error .ErrSyntax
  else parseLoop 10 ((2 ^ 64 - 1) / 10 + 1) (2 ^ 16 - 1) s 0

/-- `CheckAddress` (lines 29-41): `pts[len(pts)-1]` panics when the index is out
of range; `port` is a `uint64`. -/
def CheckAddress (address : List Nat) : object.Run (Option boo.Error) :=
  let pts := Split address
  let i : Int := (pts.length : Int) - 1
  match (if 0 ≤ i then pts.get? i.toNat else none) with
  | none => .panicked (.indexOutOfRange i pts.length)
  | some last =>
    match ParseUint last with
    | .error _ => .returned (some (boo.Newf boo.Kind.InvalidInput (boo.Msg.addressInvalid address)))
    | .ok port =>
      if port < 0 ∨ port > 65535 then
        .returned (some (boo.Newf boo.Kind.InvalidInput (boo.Msg.portInvalid address)))
      else .returned none

/-- `CheckMode` (lines 44-52); `mode` is an `int8`. -/
def CheckMode (mode : Int) : Option boo.Error :=
  if mode = -1 ∨ mode = 0 ∨ mode = 1 then none
  else some (boo.Newf boo.Kind.InvalidInput (boo.Msg.invalidMode mode))

/-- The text after the last `':'` of an address, the whole of it when it has no
`':'`, as the claim words it. -/
def afterLastColon (address : List Nat) : List Nat :=
  (address.reverse.takeWhile (fun c => c ≠ 58)).reverse

/-- The value of a sequence of decimal digits. -/
def decimalValue (s : List Nat) : Nat :=
  s.foldl (fun n c => 10 * n + (c - 48)) 0

/-- The bytes of a literal made of ASCII characters. -/
def bytes (s : String) : List Nat := s.toList.map Char.toNat

/-- The 256 values of an `int8`. -/
def int8Values : List Int := (List.range 256).map (fun k => (k : Int) - 128)

end tag

/-! # Properties -/

namespace object

/-! ## The three blocks of `GetChanges` -/

theorem newItems_of_le {α : Type} (get : Int → Except boo.Error α) (mk : Int → Probe)
    (o n : Int) (h : n ≤ o) : newItems get mk o n = ([], .done []) := by
  simp [newItems, not_lt.mpr h]

theorem fillLoop_log {α : Type} (get : Int → Except boo.Error α) (mk : Int → Probe) :
    ∀ (n : Nat) (i : Int) (arr : List (Option α)) (log : List Probe),
      ∃ js : List Int, (fillLoop get mk n i arr log).1 = log ++ js.map mk := by
  intro n
  induction n with
  | zero => intro i arr log; exact ⟨[], by simp [fillLoop]⟩
  | succ n ih =>
    intro i arr log
    unfold fillLoop
    by_cases hb : 0 ≤ i ∧ i < (arr.length : Int)
    · cases hg : get i with
      | error e => exact ⟨[i], by simp [hb]⟩
      | ok a =>
        obtain ⟨js, hjs⟩ := ih (i + 1) (arr.set i.toNat (ptrOf (Except.ok a))) (log ++ [mk i])
        exact ⟨i :: js, by simp [hb, hjs]⟩
    · exact ⟨[i], by simp [hb]⟩

theorem newItems_log {α : Type} (get : Int → Except boo.Error α) (mk : Int → Probe)
    (o n : Int) : ∃ js : List Int, (newItems get mk o n).1 = js.map mk := by
  unfold newItems
  by_cases h : o < n
  · by_cases hl : makeFails (wrapInt (n - o))
    · exact ⟨[], by simp [h, hl]⟩
    · obtain ⟨js, hjs⟩ := fillLoop_log get mk (n - o).toNat o
        (List.replicate (wrapInt (n - o)).toNat none) []
      exact ⟨js, by simpa [h, hl] using hjs⟩
  · exact ⟨[], by simp [h]⟩

/-- The shape of every run of `GetChanges` on a present `old`, in terms of its
three blocks. -/
theorem GetChanges_some (dp : DiffPage) (oldC : Changes) :
    dp.GetChanges (some oldC) =
      match newItems dp.GetThreadOfIndex Probe.thread oldC.ThreadCount dp.Threads.Len with
      | (l1, .panicked p) => { probes := l1, result := .panicked p }
      | (l1, .failed e) => { probes := l1, result := .returned (.error e) }
      | (l1, .done ts) =>
        match newItems dp.GetPostOfIndex Probe.post oldC.PostCount dp.Posts.Len with
        | (l2, .panicked p) => { probes := l1 ++ l2, result := .panicked p }
        | (l2, .failed e) => { probes := l1 ++ l2, result := .returned (.error e) }
        | (l2, .done ps) =>
          match newItems dp.GetVoteOfIndex Probe.vote oldC.VoteCount dp.Votes.Len with
          | (l3, .panicked p) => { probes := l1 ++ l2 ++ l3, result := .panicked p }
          | (l3, .failed e) => { probes := l1 ++ l2 ++ l3, result := .returned (.error e) }
          | (l3, .done vs) =>
            { probes := l1 ++ l2 ++ l3,
              result := .returned
                (.ok { ThreadCount := dp.Threads.Len, PostCount := dp.Posts.Len,
                       VoteCount := dp.Votes.Len, NewThreads := ts, NewPosts := ps,
                       NewVotes := vs }) } := by
  rfl

theorem GetChanges_probes_sub (dp : DiffPage) (oldC : Changes) (p : Probe)
    (hp : p ∈ (dp.GetChanges (some oldC)).probes) :
    p ∈ (newItems dp.GetThreadOfIndex Probe.thread oldC.ThreadCount dp.Threads.Len).1 ∨
    p ∈ (newItems dp.GetPostOfIndex Probe.post oldC.PostCount dp.Posts.Len).1 ∨
    p ∈ (newItems dp.GetVoteOfIndex Probe.vote oldC.VoteCount dp.Votes.Len).1 := by
  rw [GetChanges_some] at hp
  rcases h1 : newItems dp.GetThreadOfIndex Probe.thread oldC.ThreadCount dp.Threads.Len
    with ⟨l1, f1⟩
  rcases h2 : newItems dp.GetPostOfIndex Probe.post oldC.PostCount dp.Posts.Len with ⟨l2, f2⟩
  rcases h3 : newItems dp.GetVoteOfIndex Probe.vote oldC.VoteCount dp.Votes.Len with ⟨l3, f3⟩
  rw [h1] at hp
  cases f1 <;> simp only at hp
  · rw [h2] at hp
    cases f2 <;> simp only at hp
    · rw [h3] at hp
      cases f3 <;> simp only [List.mem_append] at hp <;> tauto
    all_goals (simp only [List.mem_append] at hp; tauto)
  all_goals tauto

theorem GetChanges_ok_iff (dp : DiffPage) (oldC c : Changes) :
    (dp.GetChanges (some oldC)).result = .returned (.ok c) ↔
      ∃ ts ps vs,
        (newItems dp.GetThreadOfIndex Probe.thread oldC.ThreadCount dp.Threads.Len).2 = .done ts ∧
        (newItems dp.GetPostOfIndex Probe.post oldC.PostCount dp.Posts.Len).2 = .done ps ∧
        (newItems dp.GetVoteOfIndex Probe.vote oldC.VoteCount dp.Votes.Len).2 = .done vs ∧
        c = { ThreadCount := dp.Threads.Len, PostCount := dp.Posts.Len,
              VoteCount := dp.Votes.Len, NewThreads := ts, NewPosts := ps, NewVotes := vs } := by
  rw [GetChanges_some]
  rcases h1 : newItems dp.GetThreadOfIndex Probe.thread oldC.ThreadCount dp.Threads.Len
    with ⟨l1, f1⟩
  rcases h2 : newItems dp.GetPostOfIndex Probe.post oldC.PostCount dp.Posts.Len with ⟨l2, f2⟩
  rcases h3 : newItems dp.GetVoteOfIndex Probe.vote oldC.VoteCount dp.Votes.Len with ⟨l3, f3⟩
  cases f1 <;> cases f2 <;> cases f3 <;> simp [eq_comm]

theorem fillLoop_done_bound {α : Type} (get : Int → Except boo.Error α) (mk : Int → Probe) :
    ∀ (n : Nat) (i : Int) (arr : List (Option α)) (log : List Probe) (log1 : List Probe)
      (out : List (Option α)),
      fillLoop get mk n i arr log = (log1, .done out) →
        n = 0 ∨ i + (n : Int) - 1 < (arr.length : Int) := by
  intro n
  induction n with
  | zero => intros; left; rfl
  | succ n ih =>
    intro i arr log log1 out h
    right
    unfold fillLoop at h
    by_cases hb : 0 ≤ i ∧ i < (arr.length : Int)
    · cases hg : get i with
      | error e => simp [hb, hg] at h
      | ok a =>
        simp only [hb, hg, and_self, if_true] at h
        rcases ih _ _ _ _ _ h with h0 | h1
        · subst h0; simpa using hb.2
        · simp only [List.length_set] at h1
          push_cast
          omega
    · simp [hb] at h

theorem wrapInt_le (x : Int) (hx : 0 ≤ x) : wrapInt x ≤ x := by
  unfold wrapInt
  omega

theorem newItems_done_old_le {α : Type} (get : Int → Except boo.Error α) (mk : Int → Probe)
    (o n : Int) (out : List (Option α)) (h : (newItems get mk o n).2 = .done out)
    (hlt : o < n) : o ≤ 0 := by
  unfold newItems at h
  by_cases hl : makeFails (wrapInt (n - o))
  · simp [hlt, hl] at h
  · simp only [hlt, hl, if_true, if_false] at h
    have hw := wrapInt_le (n - o) (by omega)
    rcases hf : fillLoop get mk (n - o).toNat o (List.replicate (wrapInt (n - o)).toNat none) []
      with ⟨l, f⟩
    rw [hf] at h
    simp only at h
    subst h
    rcases fillLoop_done_bound get mk _ _ _ _ _ _ hf with h0 | h1
    · omega
    · simp only [List.length_replicate] at h1
      omega

/-- Whenever `GetChanges` returns a `Changes`, each remembered count that is below
the current length is zero or negative: with a positive remembered count and a
longer list the call never returns a result. -/
theorem GetChanges_ok_old_counts (dp : DiffPage) (oldC c : Changes)
    (h : (dp.GetChanges (some oldC)).result = .returned (.ok c)) :
    (oldC.ThreadCount < dp.Threads.Len → oldC.ThreadCount ≤ 0) ∧
    (oldC.PostCount < dp.Posts.Len → oldC.PostCount ≤ 0) ∧
    (oldC.VoteCount < dp.Votes.Len → oldC.VoteCount ≤ 0) := by
  obtain ⟨ts, ps, vs, h1, h2, h3, -⟩ := (GetChanges_ok_iff dp oldC c).1 h
  exact ⟨newItems_done_old_le _ _ _ _ _ h1, newItems_done_old_le _ _ _ _ _ h2,
    newItems_done_old_le _ _ _ _ _ h3⟩

/-- C1 (scenario of the claim, evaluated on the code): after `Add(T1)`, `Add(T2)`
the call `GetChanges(nil)` returns the counts with `ThreadCount = 2`; after
`Add(T3)` the call `GetChanges(prev)` does not return `NewThreads = [T3]`: it
allocates one slot and stores at index 2, which panics. -/
theorem GetChanges_scenario_panics :
    (scenarioPage2.GetChanges none).result = .returned (.ok scenarioPrev) ∧
    scenarioPage3.Threads.map Ref.target =
      [some (.thread ⟨1⟩), some (.thread ⟨2⟩), some (.thread ⟨3⟩)] ∧
    (scenarioPage3.GetChanges (some scenarioPrev)).result =
      .panicked (.indexOutOfRange 2 1) := by
  decide

/-- C2: with an absent `old`, `GetChanges` asks for no entry and returns, without
error, the three current lengths as counts and three empty item slices. -/
theorem GetChanges_absent (dp : DiffPage) :
    dp.GetChanges none =
      { probes := [],
        result := .returned (.ok
          { ThreadCount := (dp.Threads.length : Int), PostCount := (dp.Posts.length : Int),
            VoteCount := (dp.Votes.length : Int), NewThreads := [], NewPosts := [],
            NewVotes := [] }) } := by
  rfl

/-- C3 (evaluated on the code): on a page whose entry 1 of `Threads` cannot be
dereferenced, `GetThreadOfIndex(1)` fails with an InvalidRead error, yet
`GetChanges` with a remembered thread count of 1 does not return that error: the
store into the one-slot slice at index 1 panics first. -/
theorem GetChanges_dangling_panics :
    danglingPage.GetThreadOfIndex 1 =
      .error (boo.WrapTypef (.noValue 9) boo.Kind.InvalidRead (boo.Msg.value 9)) ∧
    (danglingPage.GetChanges (some danglingPrev)).result =
      .panicked (.indexOutOfRange 1 1) := by
  decide

/-- C4: for each of the three lists, when the current length is at most the
remembered count, `GetChanges` asks for no entry of that list and every `Changes`
it returns has that list's item slice empty and its count equal to the current
length; when this holds for all three lists the call returns such a `Changes`
without error and without asking for any entry. -/
theorem GetChanges_no_new_items (dp : DiffPage) (oldC : Changes) :
    (dp.Threads.Len ≤ oldC.ThreadCount →
      (∀ i, Probe.thread i ∉ (dp.GetChanges (some oldC)).probes) ∧
      ∀ c, (dp.GetChanges (some oldC)).result = .returned (.ok c) →
        c.NewThreads = [] ∧ c.ThreadCount = dp.Threads.Len) ∧
    (dp.Posts.Len ≤ oldC.PostCount →
      (∀ i, Probe.post i ∉ (dp.GetChanges (some oldC)).probes) ∧
      ∀ c, (dp.GetChanges (some oldC)).result = .returned (.ok c) →
        c.NewPosts = [] ∧ c.PostCount = dp.Posts.Len) ∧
    (dp.Votes.Len ≤ oldC.VoteCount →
      (∀ i, Probe.vote i ∉ (dp.GetChanges (some oldC)).probes) ∧
      ∀ c, (dp.GetChanges (some oldC)).result = .returned (.ok c) →
        c.NewVotes = [] ∧ c.VoteCount = dp.Votes.Len) ∧
    (dp.Threads.Len ≤ oldC.ThreadCount → dp.Posts.Len ≤ oldC.PostCount →
      dp.Votes.Len ≤ oldC.VoteCount →
      dp.GetChanges (some oldC) =
        { probes := [],
          result := .returned (.ok
            { ThreadCount := dp.Threads.Len, PostCount := dp.Posts.Len,
              VoteCount := dp.Votes.Len, NewThreads := [], NewPosts := [],
              NewVotes := [] }) }) := by
  obtain ⟨j1, hj1⟩ := newItems_log dp.GetThreadOfIndex Probe.thread oldC.ThreadCount dp.Threads.Len
  obtain ⟨j2, hj2⟩ := newItems_log dp.GetPostOfIndex Probe.post oldC.PostCount dp.Posts.Len
  obtain ⟨j3, hj3⟩ := newItems_log dp.GetVoteOfIndex Probe.vote oldC.VoteCount dp.Votes.Len
  refine ⟨fun h => ⟨fun i hi => ?_, fun c hc => ?_⟩, fun h => ⟨fun i hi => ?_, fun c hc => ?_⟩,
    fun h => ⟨fun i hi => ?_, fun c hc => ?_⟩, fun h1 h2 h3 => ?_⟩
  · have := GetChanges_probes_sub dp oldC _ hi
    rw [newItems_of_le _ _ _ _ h, hj2, hj3] at this
    simp at this
  · obtain ⟨ts, ps, vs, e1, -, -, rfl⟩ := (GetChanges_ok_iff dp oldC c).1 hc
    rw [newItems_of_le _ _ _ _ h] at e1
    simp only [Fill.done.injEq] at e1
    exact ⟨e1.symm, rfl⟩
  · have := GetChanges_probes_sub dp oldC _ hi
    rw [newItems_of_le _ _ _ _ h, hj1, hj3] at this
    simp at this
  · obtain ⟨ts, ps, vs, -, e2, -, rfl⟩ := (GetChanges_ok_iff dp oldC c).1 hc
    rw [newItems_of_le _ _ _ _ h] at e2
    simp only [Fill.done.injEq] at e2
    exact ⟨e2.symm, rfl⟩
  · have := GetChanges_probes_sub dp oldC _ hi
    rw [newItems_of_le _ _ _ _ h, hj1, hj2] at this
    simp at this
  · obtain ⟨ts, ps, vs, -, -, e3, rfl⟩ := (GetChanges_ok_iff dp oldC c).1 hc
    rw [newItems_of_le _ _ _ _ h] at e3
    simp only [Fill.done.injEq] at e3
    exact ⟨e3.symm, rfl⟩
  · rw [GetChanges_some, newItems_of_le _ _ _ _ h1, newItems_of_le _ _ _ _ h2,
      newItems_of_le _ _ _ _ h3]
    rfl

/-- Witness for C4 on the three-thread page with a remembered thread count of 5. -/
theorem GetChanges_no_new_items_witness :
    scenarioPage3.Threads.Len ≤ staleCounts.ThreadCount ∧
    scenarioPage3.Posts.Len ≤ staleCounts.PostCount ∧
    scenarioPage3.Votes.Len ≤ staleCounts.VoteCount ∧
    scenarioPage3.GetChanges (some staleCounts) =
      { probes := [],
        result := .returned (.ok
          { ThreadCount := 3, PostCount := 0, VoteCount := 0, NewThreads := [],
            NewPosts := [], NewVotes := [] }) } :=
  ⟨by decide, by decide, by decide,
    (GetChanges_no_new_items scenarioPage3 staleCounts).2.2.2 (by decide) (by decide)
      (by decide)⟩

/-! ## Lookup by hash -/

theorem findHash_none_iff {α : Type} (h : SHA256) :
    ∀ (l : Refs α) (k : Nat), Refs.findHash h l k = none ↔ ∀ r ∈ l, r.Hash ≠ h := by
  intro l
  induction l with
  | nil => intro k; simp [Refs.findHash]
  | cons x xs ih =>
    intro k
    by_cases hx : x.Hash = h
    · simp [Refs.findHash, hx]
    · simp [Refs.findHash, hx, ih]

theorem RefByHash_error_iff {α : Type} (l : Refs α) (h : SHA256) :
    l.RefByHash h = .error (.hashNotFound h) ↔ ∀ r ∈ l, r.Hash ≠ h := by
  unfold Refs.RefByHash
  cases hf : Refs.findHash h l 0 with
  | none => simpa using (findHash_none_iff h l 0).1 hf
  | some x =>
    have : ¬ ∀ r ∈ l, r.Hash ≠ h := fun hall => by
      rw [(findHash_none_iff h l 0).2 hall] at hf; cases hf
    simpa using this

theorem RefByHash_cases {α : Type} (l : Refs α) (h : SHA256) :
    (l.RefByHash h = .error (.hashNotFound h) ∧ ∀ r ∈ l, r.Hash ≠ h) ∨
    (∃ x, l.RefByHash h = .ok x ∧ ∃ r ∈ l, r.Hash = h) := by
  by_cases hall : ∀ r ∈ l, r.Hash ≠ h
  · exact Or.inl ⟨(RefByHash_error_iff l h).2 hall, hall⟩
  · right
    have hne : l.RefByHash h ≠ .error (.hashNotFound h) := fun c =>
      hall ((RefByHash_error_iff l h).1 c)
    push_neg at hall
    unfold Refs.RefByHash at hne ⊢
    cases hf : Refs.findHash h l 0 with
    | none => simp [hf] at hne
    | some x => exact ⟨x, rfl, hall⟩

/-! ## ThreadPage.AddPost -/

theorem AddPost_of_found (st : Store) (tp : ThreadPage) (h : SHA256) (p : Post)
    (hin : ∃ r ∈ tp.Posts, r.Hash = h) :
    ThreadPage.AddPost st tp h p =
      (some (boo.Newf boo.Kind.AlreadyExists (boo.Msg.postExists h)), tp) := by
  rcases RefByHash_cases tp.Posts h with ⟨-, hall⟩ | ⟨x, hx, -⟩
  · obtain ⟨r, hr, hh⟩ := hin
    exact absurd hh (hall r hr)
  · simp [ThreadPage.AddPost, hx]

theorem AddPost_of_absent (st : Store) (tp : ThreadPage) (h : SHA256) (p : Post)
    (hall : ∀ r ∈ tp.Posts, r.Hash ≠ h) :
    ThreadPage.AddPost st tp h p =
      if st.accepts tp.Posts (.post p) then
        (none, { tp with Posts := tp.Posts ++ [{ Hash := st.hash (.post p), target := some (.post p) }] })
      else
        (some (boo.WrapTypef .appendRejected boo.Kind.Internal (boo.Msg.appendPost p)), tp) := by
  have he := (RefByHash_error_iff tp.Posts h).2 hall
  by_cases ha : st.accepts tp.Posts (.post p) = true
  · simp [ThreadPage.AddPost, he, Refs.Append, ha]
  · simp [ThreadPage.AddPost, he, Refs.Append, ha]

theorem AddPost_hashes (st : Store) (tp : ThreadPage) (p : Post)
    (hnd : tp.postHashes.Nodup) :
    (ThreadPage.AddPost st tp (st.hash (.post p)) p).2.postHashes.Nodup := by
  rcases RefByHash_cases tp.Posts (st.hash (.post p)) with ⟨-, hall⟩ | ⟨x, -, hin⟩
  · rw [AddPost_of_absent st tp _ p hall]
    by_cases ha : st.accepts tp.Posts (.post p) = true
    · simp only [ha, if_true, ThreadPage.postHashes, List.map_append, List.map_cons, List.map_nil]
      rw [List.nodup_append]
      refine ⟨hnd, List.nodup_singleton _, ?_⟩
      intro a ha1 ha2
      rw [List.mem_singleton] at ha2
      rw [List.mem_map] at ha1
      obtain ⟨r, hr, hh⟩ := ha1
      exact hall r hr (hh.trans ha2)
    · simpa [ha] using hnd
  · rw [AddPost_of_found st tp _ p hin]
    exact hnd

theorem addPosts_hashes (st : Store) (ps : List Post) :
    ∀ tp : ThreadPage, tp.postHashes.Nodup → (tp.addPosts st ps).postHashes.Nodup := by
  induction ps with
  | nil => intro tp h; exact h
  | cons p ps ih =>
    intro tp h
    exact ih _ (AddPost_hashes st tp p h)

/-- C5 (counterexample): the post `⟨7⟩` has content hash 30, which is not in the
posts of the empty thread page, yet on a Store that rejects the append the first
`AddPost(30, ⟨7⟩)` does not succeed: it fails with an Internal error and leaves
the posts as they were. -/
theorem AddPost_first_call_rejected :
    closedStore.hash (.post ⟨7⟩) = 30 ∧
    (∀ r ∈ emptyThreadPage.Posts, r.Hash ≠ 30) ∧
    (ThreadPage.AddPost closedStore emptyThreadPage 30 ⟨7⟩).1 ≠ none ∧
    ThreadPage.AddPost closedStore emptyThreadPage 30 ⟨7⟩ =
      (some (boo.WrapTypef .appendRejected boo.Kind.Internal (boo.Msg.appendPost ⟨7⟩)),
        emptyThreadPage) := by
  decide

/-- C5 (amended): for every thread page and every post `p` whose content hash
`h` is not yet in `Posts`, if the Store accepts the append of `p`, then of two
calls `AddPost(h, p)` in a row the first succeeds, the second fails with an
AlreadyExists error and leaves the page as the first call left it, and `Posts` is
exactly one longer after both calls than before them. -/
theorem AddPost_twice (st : Store) (tp : ThreadPage) (p : Post)
    (hnew : ∀ r ∈ tp.Posts, r.Hash ≠ st.hash (.post p))
    (hacc : st.accepts tp.Posts (.post p) = true) :
    (ThreadPage.AddPost st tp (st.hash (.post p)) p).1 = none ∧
    (∃ e, (ThreadPage.AddPost st (ThreadPage.AddPost st tp (st.hash (.post p)) p).2
        (st.hash (.post p)) p).1 = some e ∧ e.kind = boo.Kind.AlreadyExists) ∧
    (ThreadPage.AddPost st (ThreadPage.AddPost st tp (st.hash (.post p)) p).2
        (st.hash (.post p)) p).2 = (ThreadPage.AddPost st tp (st.hash (.post p)) p).2 ∧
    (ThreadPage.AddPost st (ThreadPage.AddPost st tp (st.hash (.post p)) p).2
        (st.hash (.post p)) p).2.Posts.Len = tp.Posts.Len + 1 := by
  have h1 := AddPost_of_absent st tp (st.hash (.post p)) p hnew
  simp only [hacc, if_true] at h1
  have h2 := AddPost_of_found st (ThreadPage.AddPost st tp (st.hash (.post p)) p).2
    (st.hash (.post p)) p (by rw [h1]; exact ⟨⟨st.hash (.post p), some (.post p)⟩, by simp, rfl⟩)
  refine ⟨by rw [h1], ⟨_, by rw [h2], rfl⟩, by rw [h2], ?_⟩
  rw [h2, h1]
  simp [Refs.Len]

/-- Witness for C5 (amended): the post `⟨7⟩` added twice to the empty thread page
on a Store that accepts appends. -/
theorem AddPost_twice_witness :
    (ThreadPage.AddPost openStore emptyThreadPage (openStore.hash (.post ⟨7⟩)) ⟨7⟩).1 = none ∧
    (∃ e, (ThreadPage.AddPost openStore
        (ThreadPage.AddPost openStore emptyThreadPage (openStore.hash (.post ⟨7⟩)) ⟨7⟩).2
        (openStore.hash (.post ⟨7⟩)) ⟨7⟩).1 = some e ∧ e.kind = boo.Kind.AlreadyExists) ∧
    (ThreadPage.AddPost openStore
        (ThreadPage.AddPost openStore emptyThreadPage (openStore.hash (.post ⟨7⟩)) ⟨7⟩).2
        (openStore.hash (.post ⟨7⟩)) ⟨7⟩).2 =
      (ThreadPage.AddPost openStore emptyThreadPage (openStore.hash (.post ⟨7⟩)) ⟨7⟩).2 ∧
    (ThreadPage.AddPost openStore
        (ThreadPage.AddPost openStore emptyThreadPage (openStore.hash (.post ⟨7⟩)) ⟨7⟩).2
        (openStore.hash (.post ⟨7⟩)) ⟨7⟩).2.Posts.Len = emptyThreadPage.Posts.Len + 1 :=
  AddPost_twice openStore emptyThreadPage ⟨7⟩ (by decide) (by decide)

/-- C6 (counterexample): the page holding the post `⟨7⟩` under hash 30 has no two
posts with the same hash; `AddPost(31, ⟨7⟩)`, whose hash argument is not the
content hash of the post, succeeds and leaves two entries with hash 30. -/
theorem AddPost_wrong_hash_duplicates :
    onePostPage.postHashes.Nodup ∧
    (ThreadPage.AddPost openStore onePostPage 31 ⟨7⟩).1 = none ∧
    (ThreadPage.AddPost openStore onePostPage 31 ⟨7⟩).2.postHashes = [30, 30] ∧
    ¬ (ThreadPage.AddPost openStore onePostPage 31 ⟨7⟩).2.postHashes.Nodup := by
  decide

/-- C6 (amended): for every thread page in which no two entries of `Posts` share
a content hash, and for every call `AddPost(postHash, post)` in which `postHash`
is the content hash the Store gives `post`, the resulting page again has no two
entries of `Posts` with the same content hash; so the invariant holds in every
state reached from a page without posts by such calls. -/
theorem AddPost_keeps_hashes_distinct (st : Store) (tp : ThreadPage) (post : Post)
    (ps : List Post) :
    (tp.postHashes.Nodup →
      (ThreadPage.AddPost st tp (st.hash (.post post)) post).2.postHashes.Nodup) ∧
    (tp.Posts = [] → (tp.addPosts st ps).postHashes.Nodup) := by
  refine ⟨AddPost_hashes st tp post, fun h => addPosts_hashes st ps tp ?_⟩
  simp [ThreadPage.postHashes, h]

/-- Witness for C6 (amended): the post `⟨7⟩` offered again, under its content
hash, to the page that holds it; and three posts, one of them twice, added to the
empty page. -/
theorem AddPost_keeps_hashes_distinct_witness :
    onePostPage.postHashes.Nodup ∧
    (ThreadPage.AddPost openStore onePostPage (openStore.hash (.post ⟨7⟩)) ⟨7⟩).2.postHashes.Nodup ∧
    (emptyThreadPage.addPosts openStore [⟨7⟩, ⟨8⟩, ⟨7⟩]).postHashes.Nodup :=
  ⟨by decide,
    (AddPost_keeps_hashes_distinct openStore onePostPage ⟨7⟩ []).1 (by decide),
    (AddPost_keeps_hashes_distinct openStore emptyThreadPage ⟨7⟩ [⟨7⟩, ⟨8⟩, ⟨7⟩]).2 rfl⟩

/-! ## DiffPage.Add -/

theorem RefBiIndex_append_last {α : Type} (l : Refs α) (x : Ref α) :
    Refs.RefBiIndex (l ++ [x]) (Refs.Len l) = .ok x := by
  simp [Refs.RefBiIndex, Refs.Len]

/-- C7: a successful `Add(v)` of a Thread, Post or Vote makes `v` the last entry
of the matching list (the new entry is addressed by the content hash of `v` and
resolves to `v`, so the indexed getter returns it at the old length), the list
is one longer, every earlier entry keeps its position, and the other two lists
are unchanged. -/
theorem Add_success (st : Store) (dp dp1 : DiffPage) (v : Val)
    (h : DiffPage.Add st dp v = (none, dp1)) :
    (∀ t, v = .thread t →
      dp1.Threads = dp.Threads ++ [{ Hash := st.hash v, target := some v }] ∧
      dp1.Threads.Len = dp.Threads.Len + 1 ∧
      (∀ k, k < dp.Threads.length → dp1.Threads.get? k = dp.Threads.get? k) ∧
      dp1.GetThreadOfIndex dp.Threads.Len = .ok t ∧
      dp1.Posts = dp.Posts ∧ dp1.Votes = dp.Votes) ∧
    (∀ p, v = .post p →
      dp1.Posts = dp.Posts ++ [{ Hash := st.hash v, target := some v }] ∧
      dp1.Posts.Len = dp.Posts.Len + 1 ∧
      (∀ k, k < dp.Posts.length → dp1.Posts.get? k = dp.Posts.get? k) ∧
      dp1.GetPostOfIndex dp.Posts.Len = .ok p ∧
      dp1.Threads = dp.Threads ∧ dp1.Votes = dp.Votes) ∧
    (∀ w, v = .vote w →
      dp1.Votes = dp.Votes ++ [{ Hash := st.hash v, target := some v }] ∧
      dp1.Votes.Len = dp.Votes.Len + 1 ∧
      (∀ k, k < dp.Votes.length → dp1.Votes.get? k = dp.Votes.get? k) ∧
      dp1.GetVoteOfIndex dp.Votes.Len = .ok w ∧
      dp1.Threads = dp.Threads ∧ dp1.Posts = dp.Posts) := by
  refine ⟨fun t hv => ?_, fun p hv => ?_, fun w hv => ?_⟩
  · subst hv
    by_cases ha : st.accepts dp.Threads (.thread t) = true
    · simp only [DiffPage.Add, Refs.Append, ha, if_true, Prod.mk.injEq, true_and] at h
      subst h
      refine ⟨rfl, by simp [Refs.Len], fun k hk => ?_, ?_, rfl, rfl⟩
      · simp [List.getElem?_append_left hk]
      · simp [DiffPage.GetThreadOfIndex, RefBiIndex_append_last, Ref.Value]
    · simp [DiffPage.Add, Refs.Append, ha] at h
  · subst hv
    by_cases ha : st.accepts dp.Posts (.post p) = true
    · simp only [DiffPage.Add, Refs.Append, ha, if_true, Prod.mk.injEq, true_and] at h
      subst h
      refine ⟨rfl, by simp [Refs.Len], fun k hk => ?_, ?_, rfl, rfl⟩
      · simp [List.getElem?_append_left hk]
      · simp [DiffPage.GetPostOfIndex, RefBiIndex_append_last, Ref.Value]
    · simp [DiffPage.Add, Refs.Append, ha] at h
  · subst hv
    by_cases ha : st.accepts dp.Votes (.vote w) = true
    · simp only [DiffPage.Add, Refs.Append, ha, if_true, Prod.mk.injEq, true_and] at h
      subst h
      refine ⟨rfl, by simp [Refs.Len], fun k hk => ?_, ?_, rfl, rfl⟩
      · simp [List.getElem?_append_left hk]
      · simp [DiffPage.GetVoteOfIndex, RefBiIndex_append_last, Ref.Value]
    · simp [DiffPage.Add, Refs.Append, ha] at h

/-- Witness for C7: the thread `T3` added to the page holding `T1` and `T2`. -/
theorem Add_success_witness :
    DiffPage.Add openStore scenarioPage2 (.thread ⟨3⟩) = (none, scenarioPage3) ∧
    scenarioPage3.Threads =
      scenarioPage2.Threads ++ [{ Hash := openStore.hash (.thread ⟨3⟩), target := some (.thread ⟨3⟩) }] ∧
    scenarioPage3.Threads.Len = scenarioPage2.Threads.Len + 1 ∧
    (∀ k, k < scenarioPage2.Threads.length →
      scenarioPage3.Threads.get? k = scenarioPage2.Threads.get? k) ∧
    scenarioPage3.GetThreadOfIndex scenarioPage2.Threads.Len = .ok ⟨3⟩ ∧
    scenarioPage3.Posts = scenarioPage2.Posts ∧ scenarioPage3.Votes = scenarioPage2.Votes :=
  ⟨by decide,
    (Add_success openStore scenarioPage2 scenarioPage3 (.thread ⟨3⟩) (by decide)).1 ⟨3⟩ rfl⟩

/-- C8: `Add(v)` of a value that is no Thread, Post or Vote (the nil value
included) fails with an Internal error and leaves the three lists unchanged; and
when the Store rejects the append of a Thread, Post or Vote, `Add` fails with an
Internal error as well, the lists again unchanged. -/
theorem Add_failure (st : Store) (dp : DiffPage) (v : Val) :
    ((∀ t, v ≠ .thread t) → (∀ p, v ≠ .post p) → (∀ w, v ≠ .vote w) →
      DiffPage.Add st dp v = (some (boo.Newf boo.Kind.Internal (boo.Msg.addType v)), dp) ∧
      (boo.Newf boo.Kind.Internal (boo.Msg.addType v)).kind = boo.Kind.Internal) ∧
    (∀ t, v = .thread t → st.accepts dp.Threads v = false →
      ∃ e, DiffPage.Add st dp v = (some e, dp) ∧ e.kind = boo.Kind.Internal) ∧
    (∀ p, v = .post p → st.accepts dp.Posts v = false →
      ∃ e, DiffPage.Add st dp v = (some e, dp) ∧ e.kind = boo.Kind.Internal) ∧
    (∀ w, v = .vote w → st.accepts dp.Votes v = false →
      ∃ e, DiffPage.Add st dp v = (some e, dp) ∧ e.kind = boo.Kind.Internal) := by
  refine ⟨fun h1 h2 h3 => ?_, fun t hv ha => ?_, fun p hv ha => ?_, fun w hv ha => ?_⟩
  · cases v with
    | nil => exact ⟨rfl, rfl⟩
    | other n => exact ⟨rfl, rfl⟩
    | thread t => exact absurd rfl (h1 t)
    | post p => exact absurd rfl (h2 p)
    | vote w => exact absurd rfl (h3 w)
  · subst hv
    exact ⟨boo.Newf boo.Kind.Internal (boo.Msg.appendDiff "DiffPage.Threads" (.thread t)),
      by simp [DiffPage.Add, Refs.Append, ha], rfl⟩
  · subst hv
    exact ⟨boo.Newf boo.Kind.Internal (boo.Msg.appendDiff "DiffPage.Posts" (.post p)),
      by simp [DiffPage.Add, Refs.Append, ha], rfl⟩
  · subst hv
    exact ⟨boo.Newf boo.Kind.Internal (boo.Msg.appendDiff "DiffPage.Votes" (.vote w)),
      by simp [DiffPage.Add, Refs.Append, ha], rfl⟩

/-- Witness for C8: the nil value offered to the three-thread page, and a thread
offered on a Store that rejects appends. -/
theorem Add_failure_witness :
    (DiffPage.Add openStore scenarioPage3 .nil =
      (some (boo.Newf boo.Kind.Internal (boo.Msg.addType .nil)), scenarioPage3) ∧
      (boo.Newf boo.Kind.Internal (boo.Msg.addType .nil)).kind = boo.Kind.Internal) ∧
    ∃ e, DiffPage.Add closedStore scenarioPage3 (.thread ⟨4⟩) = (some e, scenarioPage3) ∧
      e.kind = boo.Kind.Internal :=
  ⟨(Add_failure openStore scenarioPage3 .nil).1 (fun _ h => Val.noConfusion h)
      (fun _ h => Val.noConfusion h) (fun _ h => Val.noConfusion h),
    (Add_failure closedStore scenarioPage3 (.thread ⟨4⟩)).2.1 ⟨4⟩ rfl rfl⟩

/-! ## Indexed getters of DiffPage -/

theorem RefBiIndex_out {α : Type} (l : Refs α) (i : Int) (h : i < 0 ∨ l.Len ≤ i) :
    l.RefBiIndex i = .error (.indexOutOfRange i) := by
  unfold Refs.RefBiIndex
  by_cases hi : i < 0
  · simp [hi]
  · have hlen : l.length ≤ i.toNat := by
      rcases h with h | h
      · exact absurd h hi
      · unfold Refs.Len at h; omega
    simp [hi, List.getElem?_eq_none hlen]

theorem RefBiIndex_in {α : Type} (l : Refs α) (i : Int) (r : Ref α) (h0 : 0 ≤ i)
    (hr : l.get? i.toNat = some r) : l.RefBiIndex i = .ok r := by
  unfold Refs.RefBiIndex
  rw [hr]
  simp [not_lt.mpr h0]

/-- C9: each of `GetThreadOfIndex(i)`, `GetPostOfIndex(i)`, `GetVoteOfIndex(i)`
fails with a NotFound error when `i` is out of range of its list; fails with an
InvalidRead error when entry `i` resolves to a value of another dynamic type;
returns exactly the value entry `i` resolves to when that is a Thread, Post or
Vote respectively; and (the remaining case) fails with an InvalidRead error when
entry `i` cannot be dereferenced. -/
theorem GetOfIndex_spec (dp : DiffPage) (i : Int) :
    ((i < 0 ∨ dp.Threads.Len ≤ i →
        ∃ e, dp.GetThreadOfIndex i = .error e ∧ e.kind = boo.Kind.NotFound) ∧
      (∀ r x, 0 ≤ i → dp.Threads.get? i.toNat = some r → r.target = some x →
        (∀ t, x ≠ .thread t) →
        ∃ e, dp.GetThreadOfIndex i = .error e ∧ e.kind = boo.Kind.InvalidRead) ∧
      (∀ r t, 0 ≤ i → dp.Threads.get? i.toNat = some r → r.target = some (.thread t) →
        dp.GetThreadOfIndex i = .ok t) ∧
      (∀ r, 0 ≤ i → dp.Threads.get? i.toNat = some r → r.target = none →
        ∃ e, dp.GetThreadOfIndex i = .error e ∧ e.kind = boo.Kind.InvalidRead)) ∧
    ((i < 0 ∨ dp.Posts.Len ≤ i →
        ∃ e, dp.GetPostOfIndex i = .error e ∧ e.kind = boo.Kind.NotFound) ∧
      (∀ r x, 0 ≤ i → dp.Posts.get? i.toNat = some r → r.target = some x →
        (∀ p, x ≠ .post p) →
        ∃ e, dp.GetPostOfIndex i = .error e ∧ e.kind = boo.Kind.InvalidRead) ∧
      (∀ r p, 0 ≤ i → dp.Posts.get? i.toNat = some r → r.target = some (.post p) →
        dp.GetPostOfIndex i = .ok p) ∧
      (∀ r, 0 ≤ i → dp.Posts.get? i.toNat = some r → r.target = none →
        ∃ e, dp.GetPostOfIndex i = .error e ∧ e.kind = boo.Kind.InvalidRead)) ∧
    ((i < 0 ∨ dp.Votes.Len ≤ i →
        ∃ e, dp.GetVoteOfIndex i = .error e ∧ e.kind = boo.Kind.NotFound) ∧
      (∀ r x, 0 ≤ i → dp.Votes.get? i.toNat = some r → r.target = some x →
        (∀ w, x ≠ .vote w) →
        ∃ e, dp.GetVoteOfIndex i = .error e ∧ e.kind = boo.Kind.InvalidRead) ∧
      (∀ r w, 0 ≤ i → dp.Votes.get? i.toNat = some r → r.target = some (.vote w) →
        dp.GetVoteOfIndex i = .ok w) ∧
      (∀ r, 0 ≤ i → dp.Votes.get? i.toNat = some r → r.target = none →
        ∃ e, dp.GetVoteOfIndex i = .error e ∧ e.kind = boo.Kind.InvalidRead)) := by
  refine ⟨⟨fun h => ?_, fun r x h0 hr hx hne => ?_, fun r t h0 hr hx => ?_,
      fun r h0 hr hx => ?_⟩,
    ⟨fun h => ?_, fun r x h0 hr hx hne => ?_, fun r t h0 hr hx => ?_, fun r h0 hr hx => ?_⟩,
    ⟨fun h => ?_, fun r x h0 hr hx hne => ?_, fun r t h0 hr hx => ?_, fun r h0 hr hx => ?_⟩⟩
  · exact ⟨refByIndexErr (.indexOutOfRange i) i "DiffPage.Threads",
      by simp [DiffPage.GetThreadOfIndex, RefBiIndex_out _ _ h], rfl⟩
  · refine ⟨extErr r, ?_, rfl⟩
    cases x with
    | thread t => exact absurd rfl (hne t)
    | _ => simp [DiffPage.GetThreadOfIndex, RefBiIndex_in _ _ _ h0 hr, Ref.Value, hx]
  · simp [DiffPage.GetThreadOfIndex, RefBiIndex_in _ _ _ h0 hr, Ref.Value, hx]
  · exact ⟨valueErr (.noValue r.Hash) r,
      by simp [DiffPage.GetThreadOfIndex, RefBiIndex_in _ _ _ h0 hr, Ref.Value, hx], rfl⟩
  · exact ⟨refByIndexErr (.indexOutOfRange i) i "DiffPage.Posts",
      by simp [DiffPage.GetPostOfIndex, RefBiIndex_out _ _ h], rfl⟩
  · refine ⟨extErr r, ?_, rfl⟩
    cases x with
    | post p => exact absurd rfl (hne p)
    | _ => simp [DiffPage.GetPostOfIndex, RefBiIndex_in _ _ _ h0 hr, Ref.Value, hx]
  · simp [DiffPage.GetPostOfIndex, RefBiIndex_in _ _ _ h0 hr, Ref.Value, hx]
  · exact ⟨valueErr (.noValue r.Hash) r,
      by simp [DiffPage.GetPostOfIndex, RefBiIndex_in _ _ _ h0 hr, Ref.Value, hx], rfl⟩
  · exact ⟨refByIndexErr (.indexOutOfRange i) i "DiffPage.Votes",
      by simp [DiffPage.GetVoteOfIndex, RefBiIndex_out _ _ h], rfl⟩
  · refine ⟨extErr r, ?_, rfl⟩
    cases x with
    | vote w => exact absurd rfl (hne w)
    | _ => simp [DiffPage.GetVoteOfIndex, RefBiIndex_in _ _ _ h0 hr, Ref.Value, hx]
  · simp [DiffPage.GetVoteOfIndex, RefBiIndex_in _ _ _ h0 hr, Ref.Value, hx]
  · exact ⟨valueErr (.noValue r.Hash) r,
      by simp [DiffPage.GetVoteOfIndex, RefBiIndex_in _ _ _ h0 hr, Ref.Value, hx], rfl⟩

/-- Witness for C9 on the pages of the examples: index 3 and index -1 are out of
range of three threads, entry 2 is the thread `T3`, entry 0 of `mixedPage.Posts`
is a thread, and entry 1 of `danglingPage.Threads` cannot be dereferenced. -/
theorem GetOfIndex_spec_witness :
    (∃ e, scenarioPage3.GetThreadOfIndex 3 = .error e ∧ e.kind = boo.Kind.NotFound) ∧
    (∃ e, scenarioPage3.GetThreadOfIndex (-1) = .error e ∧ e.kind = boo.Kind.NotFound) ∧
    scenarioPage3.GetThreadOfIndex 2 = .ok ⟨3⟩ ∧
    (∃ e, mixedPage.GetPostOfIndex 0 = .error e ∧ e.kind = boo.Kind.InvalidRead) ∧
    (∃ e, danglingPage.GetThreadOfIndex 1 = .error e ∧ e.kind = boo.Kind.InvalidRead) :=
  ⟨(GetOfIndex_spec scenarioPage3 3).1.1 (Or.inr (by decide)),
    (GetOfIndex_spec scenarioPage3 (-1)).1.1 (Or.inl (by decide)),
    (GetOfIndex_spec scenarioPage3 2).1.2.2.1 ⟨13, some (.thread ⟨3⟩)⟩ ⟨3⟩ (by decide) (by decide) rfl,
    (GetOfIndex_spec mixedPage 0).2.1.2.1 ⟨5, some (.thread ⟨1⟩)⟩ (.thread ⟨1⟩) (by decide)
      (by decide) rfl (fun _ h => Val.noConfusion h),
    (GetOfIndex_spec danglingPage 1).1.2.2.2 ⟨9, none⟩ (by decide) (by decide) rfl⟩

/-! ## UsersPage.AddUserActivity -/

/-- C10 (counterexample): on a users page with no user, `AddUserActivity(12, v)`
with `v` a thread (not a Vote) fails with a NotFound error, not a NotAllowed
one. -/
theorem AddUserActivity_unknown_hash :
    UsersPage.AddUserActivity openStore emptyUsersPage 12 (.thread ⟨1⟩) =
      (some (boo.WrapTypef (.hashNotFound 12) boo.Kind.NotFound (boo.Msg.refByHash 12 "Users")),
        emptyUsersPage) ∧
    ¬ ∃ e, (UsersPage.AddUserActivity openStore emptyUsersPage 12 (.thread ⟨1⟩)).1 = some e ∧
      e.kind = boo.Kind.NotAllowed := by
  decide

/-- C10 (amended): for every users page, every hash and every value `v` that is
not a Vote, `AddUserActivity(uapHash, v)` fails and leaves the page unchanged;
the error is of kind NotAllowed when `uapHash` is found in `Users` and the entry
found resolves to a UserActivityPage, of kind NotFound when `uapHash` is not in
`Users`, and of kind InvalidRead when the entry found does not resolve to a
UserActivityPage. -/
theorem AddUserActivity_non_vote (st : Store) (up : UsersPage) (uapHash : SHA256) (v : Val)
    (hv : ∀ w, v ≠ .vote w) :
    ∃ e, UsersPage.AddUserActivity st up uapHash v = (some e, up) ∧
      (∀ k r u, up.Users.RefByHash uapHash = .ok (k, r) →
        r.target = some (.userActivityPage u) → e.kind = boo.Kind.NotAllowed) ∧
      ((∀ r ∈ up.Users, r.Hash ≠ uapHash) → e.kind = boo.Kind.NotFound) ∧
      (∀ k r, up.Users.RefByHash uapHash = .ok (k, r) →
        (∀ u, r.target ≠ some (.userActivityPage u)) → e.kind = boo.Kind.InvalidRead) := by
  rcases RefByHash_cases up.Users uapHash with ⟨he, hall⟩ | ⟨⟨k, r⟩, hx, r1, hr1, hh⟩
  · refine ⟨refByHashErr (.hashNotFound uapHash) uapHash "Users", ?_, ?_, fun _ => rfl, ?_⟩
    · simp [UsersPage.AddUserActivity, he]
    · intro k r u hk; rw [he] at hk; cases hk
    · intro k r hk; rw [he] at hk; cases hk
  · have habs : ¬ ∀ r ∈ up.Users, r.Hash ≠ uapHash := fun c => c r1 hr1 hh
    cases ht : r.target with
    | none =>
      refine ⟨valueErr (.noValue r.Hash) r, ?_, ?_, fun c => absurd c habs, fun _ _ _ _ => rfl⟩
      · simp [UsersPage.AddUserActivity, hx, GetUserActivityPage, Ref.Value, ht]
      · intro k1 r2 u hk hu
        rw [hx] at hk
        simp only [Except.ok.injEq, Prod.mk.injEq] at hk
        rw [← hk.2, ht] at hu; cases hu
    | some pv =>
      cases pv with
      | other n =>
        refine ⟨extErr r, ?_, ?_, fun c => absurd c habs, fun _ _ _ _ => rfl⟩
        · simp [UsersPage.AddUserActivity, hx, GetUserActivityPage, Ref.Value, ht]
        · intro k1 r2 u hk hu
          rw [hx] at hk
          simp only [Except.ok.injEq, Prod.mk.injEq] at hk
          rw [← hk.2, ht] at hu; cases hu
      | userActivityPage u =>
        refine ⟨boo.Newf boo.Kind.NotAllowed (boo.Msg.invalidType v), ?_, fun _ _ _ _ _ => rfl,
          fun c => absurd c habs, ?_⟩
        · cases v with
          | vote w => exact absurd rfl (hv w)
          | _ => simp [UsersPage.AddUserActivity, hx, GetUserActivityPage, Ref.Value, ht]
        · intro k1 r2 hk hne
          rw [hx] at hk
          simp only [Except.ok.injEq, Prod.mk.injEq] at hk
          exact absurd (hk.2 ▸ ht) (hne u)

/-- Witness for C10 (amended): a thread offered to the user found under hash 12
is refused as NotAllowed, the page unchanged. -/
theorem AddUserActivity_non_vote_witness :
    ∃ e, UsersPage.AddUserActivity openStore oneUserPage 12 (.thread ⟨1⟩) = (some e, oneUserPage) ∧
      e.kind = boo.Kind.NotAllowed := by
  obtain ⟨e, h1, h2, -, -⟩ := AddUserActivity_non_vote openStore oneUserPage 12 (.thread ⟨1⟩)
    (fun _ h => Val.noConfusion h)
  exact ⟨e, h1, h2 0 ⟨12, some (.userActivityPage { PubKey := 6, VoteActions := [] })⟩
    { PubKey := 6, VoteActions := [] } (by decide) rfl⟩

/-! ## GetPages -/

theorem GetBoardPage_ok (p : Pack) (bp : BoardPage)
    (h : p.RefByIndex IndexBoardPage = .ok (.boardPage bp)) : GetBoardPage p = .ok bp := by
  simp [GetBoardPage, h]

theorem GetDiffPage_ok (p : Pack) (dp : DiffPage)
    (h : p.RefByIndex IndexDiffPage = .ok (.diffPage dp)) : GetDiffPage p = .ok dp := by
  simp [GetDiffPage, h]

theorem GetUsersPage_ok (p : Pack) (up : UsersPage)
    (h : p.RefByIndex IndexUsersPage = .ok (.usersPage up)) : GetUsersPage p = .ok up := by
  simp [GetUsersPage, h]

theorem GetBoardPage_error (p : Pack)
    (h : ∀ bp, p.RefByIndex IndexBoardPage ≠ .ok (.boardPage bp)) :
    ∃ err, GetBoardPage p = .error err ∧ err.kind = boo.Kind.InvalidRead ∧
      (err.msg = boo.Msg.getRootChild "BoardPage" 0 ∨
        err.msg = boo.Msg.extRootChild "BoardPage" 0) := by
  unfold GetBoardPage
  cases hr : p.RefByIndex IndexBoardPage with
  | error e => exact ⟨_, rfl, rfl, Or.inl rfl⟩
  | ok v =>
    cases v with
    | boardPage bp => exact absurd hr (h bp)
    | _ => exact ⟨_, rfl, rfl, Or.inr rfl⟩

theorem GetDiffPage_error (p : Pack)
    (h : ∀ dp, p.RefByIndex IndexDiffPage ≠ .ok (.diffPage dp)) :
    ∃ err, GetDiffPage p = .error err ∧ err.kind = boo.Kind.InvalidRead ∧
      (err.msg = boo.Msg.getRootChild "DiffPage" 1 ∨
        err.msg = boo.Msg.extRootChild "DiffPage" 1) := by
  unfold GetDiffPage
  cases hr : p.RefByIndex IndexDiffPage with
  | error e => exact ⟨_, rfl, rfl, Or.inl rfl⟩
  | ok v =>
    cases v with
    | diffPage dp => exact absurd hr (h dp)
    | _ => exact ⟨_, rfl, rfl, Or.inr rfl⟩

theorem GetUsersPage_error (p : Pack)
    (h : ∀ up, p.RefByIndex IndexUsersPage ≠ .ok (.usersPage up)) :
    ∃ err, GetUsersPage p = .error err ∧ err.kind = boo.Kind.InvalidRead ∧
      (err.msg = boo.Msg.getRootChild "UsersPage" 2 ∨
        err.msg = boo.Msg.extRootChild "UsersPage" 2) := by
  unfold GetUsersPage
  cases hr : p.RefByIndex IndexUsersPage with
  | error e => exact ⟨_, rfl, rfl, Or.inl rfl⟩
  | ok v =>
    cases v with
    | usersPage up => exact absurd hr (h up)
    | _ => exact ⟨_, rfl, rfl, Or.inr rfl⟩

theorem wanted_of_short (get : List Bool) (i : Nat) (h : get.length ≤ i) :
    wanted get i = false := by
  simp [wanted, Nat.not_lt.mpr h]

/-- When each requested child resolves to a page of its type, `GetPages` returns
exactly the requested children and no error. -/
theorem GetPages_of_resolved (p : Pack) (get : List Bool) (b : Option BoardPage)
    (d : Option DiffPage) (u : Option UsersPage)
    (h0 : if wanted get 0 = true then ∃ bp, b = some bp ∧ p.RefByIndex 0 = .ok (.boardPage bp)
      else b = none)
    (h1 : if wanted get 1 = true then ∃ dp, d = some dp ∧ p.RefByIndex 1 = .ok (.diffPage dp)
      else d = none)
    (h2 : if wanted get 2 = true then ∃ up, u = some up ∧ p.RefByIndex 2 = .ok (.usersPage up)
      else u = none) :
    GetPages p get =
      { loads := [0, 1, 2].filter (wanted get),
        out := { BoardPage := b, DiffPage := d, UsersPage := u }, e := none } := by
  unfold GetPages
  by_cases w0 : wanted get 0 = true <;> by_cases w1 : wanted get 1 = true <;>
    by_cases w2 : wanted get 2 = true <;>
    simp only [w0, w1, w2, if_true, if_false] at h0 h1 h2 <;>
    (try obtain ⟨bp, rfl, h0⟩ := h0) <;> (try obtain ⟨dp, rfl, h1⟩ := h1) <;>
    (try obtain ⟨up, rfl, h2⟩ := h2) <;>
    simp_all [IndexBoardPage, IndexDiffPage, IndexUsersPage, List.filter, GetBoardPage,
      GetDiffPage, GetUsersPage]

/-- The runs of `GetPages`, told by the flag test of the code. -/
theorem GetPages_by_wanted (p : Pack) (get : List Bool) (bp : BoardPage) (dp : DiffPage)
    (up : UsersPage) :
    ((wanted get 0 = true → p.RefByIndex 0 = .ok (.boardPage bp)) →
      (wanted get 1 = true → p.RefByIndex 1 = .ok (.diffPage dp)) →
      (wanted get 2 = true → p.RefByIndex 2 = .ok (.usersPage up)) →
      GetPages p get =
        { loads := [0, 1, 2].filter (wanted get),
          out := { BoardPage := if wanted get 0 then some bp else none,
                   DiffPage := if wanted get 1 then some dp else none,
                   UsersPage := if wanted get 2 then some up else none },
          e := none }) ∧
    (wanted get 0 = true → (∀ b, p.RefByIndex 0 ≠ .ok (.boardPage b)) →
      ∃ err, GetPages p get =
          { loads := [0], out := { BoardPage := none, DiffPage := none, UsersPage := none },
            e := some err } ∧
        err.kind = boo.Kind.InvalidRead ∧
        (err.msg = boo.Msg.getRootChild "BoardPage" 0 ∨
          err.msg = boo.Msg.extRootChild "BoardPage" 0)) ∧
    ((wanted get 0 = true → p.RefByIndex 0 = .ok (.boardPage bp)) →
      wanted get 1 = true → (∀ d, p.RefByIndex 1 ≠ .ok (.diffPage d)) →
      ∃ err, GetPages p get =
          { loads := [0].filter (wanted get) ++ [1],
            out := { BoardPage := if wanted get 0 then some bp else none, DiffPage := none,
                     UsersPage := none },
            e := some err } ∧
        err.kind = boo.Kind.InvalidRead ∧
        (err.msg = boo.Msg.getRootChild "DiffPage" 1 ∨
          err.msg = boo.Msg.extRootChild "DiffPage" 1)) ∧
    ((wanted get 0 = true → p.RefByIndex 0 = .ok (.boardPage bp)) →
      (wanted get 1 = true → p.RefByIndex 1 = .ok (.diffPage dp)) →
      wanted get 2 = true → (∀ u, p.RefByIndex 2 ≠ .ok (.usersPage u)) →
      ∃ err, GetPages p get =
          { loads := [0, 1].filter (wanted get) ++ [2],
            out := { BoardPage := if wanted get 0 then some bp else none,
                     DiffPage := if wanted get 1 then some dp else none, UsersPage := none },
            e := some err } ∧
        err.kind = boo.Kind.InvalidRead ∧
        (err.msg = boo.Msg.getRootChild "UsersPage" 2 ∨
          err.msg = boo.Msg.extRootChild "UsersPage" 2)) := by
  refine ⟨fun h0 h1 h2 => ?_, fun w0 f0 => ?_, fun h0 w1 f1 => ?_,
    fun h0 h1 w2 f2 => ?_⟩
  · refine GetPages_of_resolved p get _ _ _ ?_ ?_ ?_
    · by_cases w : wanted get 0 = true
      · simp only [w, if_true]; exact ⟨bp, rfl, h0 w⟩
      · simp [w]
    · by_cases w : wanted get 1 = true
      · simp only [w, if_true]; exact ⟨dp, rfl, h1 w⟩
      · simp [w]
    · by_cases w : wanted get 2 = true
      · simp only [w, if_true]; exact ⟨up, rfl, h2 w⟩
      · simp [w]
  · obtain ⟨err, he, hk, hm⟩ := GetBoardPage_error p f0
    refine ⟨err, ?_, hk, hm⟩
    unfold GetPages
    simp [IndexBoardPage, w0, he]
  · obtain ⟨err, he, hk, hm⟩ := GetDiffPage_error p f1
    refine ⟨err, ?_, hk, hm⟩
    unfold GetPages
    by_cases w0 : wanted get 0 = true <;>
      simp [IndexBoardPage, IndexDiffPage, w0, w1, List.filter, GetBoardPage_ok p bp, h0, he]
  · obtain ⟨err, he, hk, hm⟩ := GetUsersPage_error p f2
    refine ⟨err, ?_, hk, hm⟩
    unfold GetPages
    by_cases w0 : wanted get 0 = true <;> by_cases w1 : wanted get 1 = true <;>
      simp [IndexBoardPage, IndexDiffPage, IndexUsersPage, w0, w1, w2, List.filter,
        GetBoardPage_ok p bp, GetDiffPage_ok p dp, h0, h1, he]

theorem wanted_eq_decide (get : List Bool) (i : Nat) :
    wanted get i = decide (get.get? i = some true) := by
  unfold wanted
  simp only [List.get?_eq_getElem?, List.getD_eq_getElem?_getD]
  by_cases h : i < get.length
  · rw [List.getElem?_eq_getElem h]
    cases get[i] <;> simp [h]
  · rw [List.getElem?_eq_none (Nat.le_of_not_lt h)]
    simp [h]

theorem wanted_iff (get : List Bool) (i : Nat) :
    wanted get i = true ↔ get.get? i = some true := by
  rw [wanted_eq_decide, decide_eq_true_eq]

/-- C11: a root child is requested when its flag is present in `get` and true (a
missing flag counts as not requested).  If every requested root child resolves
to a page of its type, `GetPages` asks for exactly the requested children, in
index order, and returns no error and a container holding exactly them, the
other fields empty.  If a requested child does not resolve, or resolves to a
value of another type, while the requested children of lower index do resolve,
`GetPages` returns an InvalidRead error that names the child and its index, and
no child of higher index is asked for or filled in. -/
theorem GetPages_spec (p : Pack) (get : List Bool) (bp : BoardPage) (dp : DiffPage)
    (up : UsersPage) :
    ((get.get? 0 = some true → p.RefByIndex 0 = .ok (.boardPage bp)) →
      (get.get? 1 = some true → p.RefByIndex 1 = .ok (.diffPage dp)) →
      (get.get? 2 = some true → p.RefByIndex 2 = .ok (.usersPage up)) →
      GetPages p get =
        { loads := [0, 1, 2].filter (fun i => decide (get.get? i = some true)),
          out := { BoardPage := if get.get? 0 = some true then some bp else none,
                   DiffPage := if get.get? 1 = some true then some dp else none,
                   UsersPage := if get.get? 2 = some true then some up else none },
          e := none }) ∧
    (get.get? 0 = some true → (∀ b, p.RefByIndex 0 ≠ .ok (.boardPage b)) →
      ∃ err, GetPages p get =
          { loads := [0], out := { BoardPage := none, DiffPage := none, UsersPage := none },
            e := some err } ∧
        err.kind = boo.Kind.InvalidRead ∧
        (err.msg = boo.Msg.getRootChild "BoardPage" 0 ∨
          err.msg = boo.Msg.extRootChild "BoardPage" 0)) ∧
    ((get.get? 0 = some true → p.RefByIndex 0 = .ok (.boardPage bp)) →
      get.get? 1 = some true → (∀ d, p.RefByIndex 1 ≠ .ok (.diffPage d)) →
      ∃ err, GetPages p get =
          { loads := [0].filter (fun i => decide (get.get? i = some true)) ++ [1],
            out := { BoardPage := if get.get? 0 = some true then some bp else none,
                     DiffPage := none, UsersPage := none },
            e := some err } ∧
        err.kind = boo.Kind.InvalidRead ∧
        (err.msg = boo.Msg.getRootChild "DiffPage" 1 ∨
          err.msg = boo.Msg.extRootChild "DiffPage" 1)) ∧
    ((get.get? 0 = some true → p.RefByIndex 0 = .ok (.boardPage bp)) →
      (get.get? 1 = some true → p.RefByIndex 1 = .ok (.diffPage dp)) →
      get.get? 2 = some true → (∀ u, p.RefByIndex 2 ≠ .ok (.usersPage u)) →
      ∃ err, GetPages p get =
          { loads := [0, 1].filter (fun i => decide (get.get? i = some true)) ++ [2],
            out := { BoardPage := if get.get? 0 = some true then some bp else none,
                     DiffPage := if get.get? 1 = some true then some dp else none,
                     UsersPage := none },
            e := some err } ∧
        err.kind = boo.Kind.InvalidRead ∧
        (err.msg = boo.Msg.getRootChild "UsersPage" 2 ∨
          err.msg = boo.Msg.extRootChild "UsersPage" 2)) := by
  have hf : wanted get = fun i => decide (get.get? i = some true) :=
    funext (wanted_eq_decide get)
  have h := GetPages_by_wanted p get bp dp up
  simp only [wanted_iff] at h
  rw [hf] at h
  exact h

/-- Witness for C11: children 0 and 2 requested of a full root (the flag of
child 1 false), child 0 alone requested by a one-flag list, and all three
requested of a root whose slot 1 holds a users page. -/
theorem GetPages_spec_witness :
    GetPages fullPack [true, false, true] =
      { loads := [0, 2],
        out := { BoardPage := some boardPage0, DiffPage := none, UsersPage := some oneUserPage },
        e := none } ∧
    GetPages fullPack [true] =
      { loads := [0],
        out := { BoardPage := some boardPage0, DiffPage := none, UsersPage := none },
        e := none } ∧
    ∃ err, GetPages crossedPack [true, true, true] =
        { loads := [0, 1],
          out := { BoardPage := some boardPage0, DiffPage := none, UsersPage := none },
          e := some err } ∧
      err.kind = boo.Kind.InvalidRead ∧
      (err.msg = boo.Msg.getRootChild "DiffPage" 1 ∨
        err.msg = boo.Msg.extRootChild "DiffPage" 1) :=
  ⟨(GetPages_spec fullPack [true, false, true] boardPage0 scenarioPage3 oneUserPage).1
      (fun _ => rfl) (fun h => absurd h (by decide)) (fun _ => rfl),
    (GetPages_spec fullPack [true] boardPage0 scenarioPage3 oneUserPage).1
      (fun _ => rfl) (fun h => absurd h (by decide)) (fun h => absurd h (by decide)),
    (GetPages_spec crossedPack [true, true, true] boardPage0 scenarioPage3
      oneUserPage).2.2.1 (fun _ => rfl) rfl (fun d h => by
        have h2 : crossedPack.RefByIndex 1 = .ok (.usersPage oneUserPage) := rfl
        rw [h2] at h
        cases h)⟩

/-! ## Pages.Save -/

theorem Save_eq_saveInOrder (pg : Pages) (pack : Pack) :
    pg.Save pack = saveInOrder pg.children pack := by
  rcases pg with ⟨b, d, u⟩
  cases b <;> cases d <;> cases u <;>
    simp only [Pages.Save, Pages.children, saveInOrder, BoardPage.Save, DiffPage.Save,
      UsersPage.Save, List.append_nil, List.nil_append, List.singleton_append,
      List.cons_append] <;>
    (repeat' split) <;> simp_all

theorem SetRefByIndex_canWrite (p : Pack) (i : Nat) (v : RootVal) (j : Nat) (w : RootVal) :
    (p.SetRefByIndex i v).2.canWrite j w = p.canWrite j w := by
  unfold Pack.SetRefByIndex
  by_cases h : p.canWrite i v = true
  · rw [if_pos h]
    simp [Pack.canWrite]
  · rw [if_neg h]
    simp [Pack.canWrite]

theorem attempted_congr (p q : Pack) (h : ∀ j w, q.canWrite j w = p.canWrite j w) :
    ∀ cs, attempted q cs = attempted p cs := by
  intro cs
  induction cs with
  | nil => rfl
  | cons c rest ih => simp [attempted, h, ih]

theorem saveInOrder_cons (i : Nat) (v : RootVal) (rest : List (Nat × RootVal)) (p : Pack) :
    saveInOrder ((i, v) :: rest) p =
      if p.canWrite i v then
        saveInOrder rest { p with roots := p.roots.set i (some v), writes := p.writes ++ [i] }
      else (some (saveRootChildErr .setRejected i), { p with writes := p.writes ++ [i] }) := by
  by_cases h : p.canWrite i v = true
  · simp [saveInOrder, Pack.SetRefByIndex, h]
  · simp [saveInOrder, Pack.SetRefByIndex, h]

theorem saveInOrder_canWrite (cs : List (Nat × RootVal)) :
    ∀ (p : Pack) (j : Nat) (w : RootVal),
      (saveInOrder cs p).2.canWrite j w = p.canWrite j w := by
  induction cs with
  | nil => intro p j w; rfl
  | cons c rest ih =>
    intro p j w
    rcases c with ⟨i, v⟩
    rw [saveInOrder_cons]
    by_cases h : p.canWrite i v = true
    · simp only [h, if_true]
      rw [ih]
      simp [Pack.canWrite]
    · rw [if_neg h]
      simp [Pack.canWrite]

theorem saveInOrder_writes (cs : List (Nat × RootVal)) :
    ∀ p : Pack, (saveInOrder cs p).2.writes = p.writes ++ (attempted p cs).map Prod.fst := by
  induction cs with
  | nil => intro p; simp [saveInOrder, attempted]
  | cons c rest ih =>
    intro p
    rcases c with ⟨i, v⟩
    rw [saveInOrder_cons]
    by_cases h : p.canWrite i v = true
    · simp only [h, if_true, attempted]
      rw [ih]
      rw [attempted_congr p _ (fun j w => by simp [Pack.canWrite]) rest]
      simp
    · simp [h, attempted]

theorem saveInOrder_ok_iff (cs : List (Nat × RootVal)) :
    ∀ p : Pack, (saveInOrder cs p).1 = none ↔ ∀ c ∈ cs, p.canWrite c.1 c.2 = true := by
  induction cs with
  | nil => intro p; simp [saveInOrder]
  | cons c rest ih =>
    intro p
    rcases c with ⟨i, v⟩
    rw [saveInOrder_cons]
    by_cases h : p.canWrite i v = true
    · simp only [h, if_true, List.mem_cons, forall_eq_or_imp, true_and]
      rw [ih]
      simp [Pack.canWrite]
    · simp [h]

theorem attempted_ok_iff (p : Pack) (cs : List (Nat × RootVal)) :
    (∀ c ∈ attempted p cs, p.canWrite c.1 c.2 = true) ↔ ∀ c ∈ cs, p.canWrite c.1 c.2 = true := by
  induction cs with
  | nil => simp [attempted]
  | cons c rest ih =>
    by_cases h : p.canWrite c.1 c.2 = true
    · simp only [attempted, h, if_true, List.mem_cons, forall_eq_or_imp, true_and]
      exact ih
    · simp [attempted, h]

theorem saveInOrder_first_failure (pre post : List (Nat × RootVal)) (c : Nat × RootVal) :
    ∀ p : Pack, (∀ x ∈ pre, p.canWrite x.1 x.2 = true) → p.canWrite c.1 c.2 = false →
      (saveInOrder (pre ++ c :: post) p).1 = some (saveRootChildErr .setRejected c.1) ∧
      attempted p (pre ++ c :: post) = pre ++ [c] := by
  induction pre with
  | nil =>
    intro p _ hc
    rcases c with ⟨i, v⟩
    simp only [List.nil_append]
    rw [saveInOrder_cons]
    simp at hc
    simp [hc, attempted]
  | cons x pre ih =>
    intro p hpre hc
    rcases x with ⟨i, v⟩
    have hx : p.canWrite i v = true := hpre (i, v) (by simp)
    simp only [List.cons_append]
    rw [saveInOrder_cons]
    simp only [hx, if_true, attempted]
    have hq : ∀ j w, Pack.canWrite
        { p with roots := p.roots.set i (some v), writes := p.writes ++ [i] } j w =
        p.canWrite j w := fun j w => by simp [Pack.canWrite]
    obtain ⟨h1, h2⟩ := ih { p with roots := p.roots.set i (some v), writes := p.writes ++ [i] }
      (fun y hy => by rw [hq]; exact hpre y (by simp [hy])) (by rw [hq]; exact hc)
    refine ⟨h1, ?_⟩
    rw [attempted_congr p _ hq] at h2
    rw [h2]

theorem saveInOrder_roots_other (cs : List (Nat × RootVal)) (i : Nat) :
    ∀ p : Pack, (∀ c ∈ cs, c.1 ≠ i) → (saveInOrder cs p).2.roots.get? i = p.roots.get? i := by
  induction cs with
  | nil => intro p _; rfl
  | cons c rest ih =>
    intro p hne
    rcases c with ⟨j, v⟩
    rw [saveInOrder_cons]
    have hj : j ≠ i := hne (j, v) (by simp)
    by_cases h : p.canWrite j v = true
    · simp only [h, if_true]
      rw [ih _ (fun c hc => hne c (by simp [hc]))]
      simp [List.getElem?_set_ne hj]
    · simp [h]

theorem saveInOrder_roots_written (cs : List (Nat × RootVal)) :
    ∀ p : Pack, (cs.map Prod.fst).Nodup → (saveInOrder cs p).1 = none →
      ∀ c ∈ cs, (saveInOrder cs p).2.roots.get? c.1 = some (some c.2) := by
  induction cs with
  | nil => intro p _ _ c hc; cases hc
  | cons x rest ih =>
    intro p hnd hok c hc
    rcases x with ⟨j, v⟩
    have hall := (saveInOrder_ok_iff _ p).1 hok
    have hx : p.canWrite j v = true := hall (j, v) (by simp)
    rw [saveInOrder_cons] at hok ⊢
    simp only [hx, if_true] at hok ⊢
    simp only [List.map_cons, List.nodup_cons, List.mem_map, not_exists, not_and] at hnd
    rcases List.mem_cons.1 hc with rfl | hc
    · rw [saveInOrder_roots_other rest j _ (fun y hy => hnd.1 y hy)]
      have hlt : j < p.roots.length := by
        simp [Pack.canWrite] at hx
        exact hx.1
      simp [List.getElem?_set_self, hlt]
    · exact ih _ hnd.2 hok c hc

theorem children_nodup (pg : Pages) : (pg.children.map Prod.fst).Nodup := by
  rcases pg with ⟨b, d, u⟩
  cases b <;> cases d <;> cases u <;> simp [Pages.children, IndexBoardPage, IndexDiffPage,
    IndexUsersPage]

theorem attempted_all (p : Pack) (cs : List (Nat × RootVal))
    (h : ∀ c ∈ cs, p.canWrite c.1 c.2 = true) : attempted p cs = cs := by
  induction cs with
  | nil => rfl
  | cons c rest ih =>
    have hc : p.canWrite c.1 c.2 = true := h c (by simp)
    simp [attempted, hc, ih (fun x hx => h x (by simp [hx]))]

theorem saveInOrder_roots_kept (cs : List (Nat × RootVal)) (i : Nat) :
    ∀ p : Pack, (∀ c ∈ attempted p cs, p.canWrite c.1 c.2 = true → c.1 ≠ i) →
      (saveInOrder cs p).2.roots.get? i = p.roots.get? i := by
  induction cs with
  | nil => intro p _; rfl
  | cons c rest ih =>
    intro p hne
    rcases c with ⟨j, v⟩
    rw [saveInOrder_cons]
    by_cases h : p.canWrite j v = true
    · have hq : ∀ k w, Pack.canWrite
          { p with roots := p.roots.set j (some v), writes := p.writes ++ [j] } k w =
          p.canWrite k w := fun k w => by simp [Pack.canWrite]
      have hj : j ≠ i := hne (j, v) (by simp [attempted, h]) h
      simp only [h, if_true]
      rw [ih _ (fun c hc hw => hne c (by
        rw [attempted_congr p _ hq] at hc
        simp [attempted, h, hc]) (by rw [hq] at hw; exact hw))]
      simp [List.getElem?_set_ne hj]
    · rw [if_neg h]

/-- C12: `Pages.Save` attempts the writes of the children that are present in
index order (BoardPage into slot 0, DiffPage into slot 1, UsersPage into
slot 2), up to and including the first write the Store does not take.  It
returns no error iff every attempted write is taken, and then every present
child is in its slot.  At the first write that is not taken it returns a
NotAllowed error naming that child, no write is attempted for a later child and
the slots of the later children are as before.  The slot of an absent child is
left unchanged. -/
theorem Save_spec (pg : Pages) (pack : Pack) :
    (pg.Save pack).2.writes = pack.writes ++ (attempted pack pg.children).map Prod.fst ∧
    ((pg.Save pack).1 = none ↔
      ∀ c ∈ attempted pack pg.children, pack.canWrite c.1 c.2 = true) ∧
    ((pg.Save pack).1 = none →
      (pg.Save pack).2.writes = pack.writes ++ pg.children.map Prod.fst ∧
      ∀ c ∈ pg.children, (pg.Save pack).2.roots.get? c.1 = some (some c.2)) ∧
    (∀ pre c post, pg.children = pre ++ c :: post →
      (∀ x ∈ pre, pack.canWrite x.1 x.2 = true) → pack.canWrite c.1 c.2 = false →
      (pg.Save pack).1 = some (saveRootChildErr .setRejected c.1) ∧
      (saveRootChildErr .setRejected c.1).kind = boo.Kind.NotAllowed ∧
      (saveRootChildErr .setRejected c.1).msg = boo.Msg.saveRootChild (indexString c.1) c.1 ∧
      (pg.Save pack).2.writes = pack.writes ++ (pre ++ [c]).map Prod.fst ∧
      ∀ x ∈ c :: post, (pg.Save pack).2.roots.get? x.1 = pack.roots.get? x.1) ∧
    (∀ i, (∀ c ∈ pg.children, c.1 ≠ i) →
      (pg.Save pack).2.roots.get? i = pack.roots.get? i) := by
  rw [Save_eq_saveInOrder]
  refine ⟨saveInOrder_writes _ _, ?_, fun hok => ?_, fun pre c post hch hpre hc => ?_,
    fun i hi => saveInOrder_roots_other _ i _ hi⟩
  · rw [saveInOrder_ok_iff, attempted_ok_iff]
  · have hall := (saveInOrder_ok_iff _ pack).1 hok
    refine ⟨?_, saveInOrder_roots_written _ pack (children_nodup pg) hok⟩
    rw [saveInOrder_writes, attempted_all pack _ hall]
  · have hnd := children_nodup pg
    rw [hch] at hnd ⊢
    obtain ⟨h1, h2⟩ := saveInOrder_first_failure pre post c pack hpre hc
    refine ⟨h1, rfl, rfl, ?_, fun x hx => ?_⟩
    · rw [saveInOrder_writes, h2]
    · refine saveInOrder_roots_kept _ x.1 pack (fun y hy hw => ?_)
      rw [h2, List.mem_append, List.mem_singleton] at hy
      rcases hy with hy | rfl
      · intro heq
        rw [List.map_append, List.nodup_append] at hnd
        exact hnd.2.2 (List.mem_map.2 ⟨y, hy, heq⟩) (List.mem_map.2 ⟨x, hx, rfl⟩)
      · rw [hc] at hw; cases hw

/-- Witness for C12: all three children saved into a root that takes no write
into slot 1: the board page is written, the diff page is refused with a
NotAllowed error, the users page is not tried. -/
theorem Save_spec_witness :
    (fullPages.Save crossedPack).1 = some (saveRootChildErr .setRejected 1) ∧
    (saveRootChildErr .setRejected 1).kind = boo.Kind.NotAllowed ∧
    (saveRootChildErr .setRejected 1).msg = boo.Msg.saveRootChild (indexString 1) 1 ∧
    (fullPages.Save crossedPack).2.writes = crossedPack.writes ++ [0, 1] ∧
    ∀ x ∈ [(1, RootVal.diffPage scenarioPage2), (2, RootVal.usersPage emptyUsersPage)],
      (fullPages.Save crossedPack).2.roots.get? x.1 = crossedPack.roots.get? x.1 :=
  (Save_spec fullPages crossedPack).2.2.2.1 [(0, .boardPage boardPage0)]
    (1, .diffPage scenarioPage2) [(2, .usersPage emptyUsersPage)] rfl
    (fun x hx => by
      rw [List.mem_singleton] at hx
      subst hx
      rfl)
    rfl

/-- C13 (counterexample): a container with no child at all, and one with the
diff page only, are saved without error; for the first nothing is written. -/
theorem Save_absent_is_no_error :
    (noPages.Save fullPack).1 = none ∧ (noPages.Save fullPack).2.writes = [] ∧
    (noPages.Save fullPack).2.roots = fullPack.roots ∧
    (diffOnlyPages.Save freshPack).1 = none ∧ (diffOnlyPages.Save freshPack).2.writes = [1] := by
  decide

/-- C13 (amended): a child that is absent at save time is skipped, not an
error: `Pages.Save` attempts no write for it and leaves its root slot unchanged;
an error is returned only when the write of a child that is present is not
taken; with all three children absent `Save` returns no error and changes
nothing. -/
theorem Save_skips_absent (pg : Pages) (pack : Pack) :
    (∃ ws, (pg.Save pack).2.writes = pack.writes ++ ws ∧
      (pg.BoardPage = none → 0 ∉ ws) ∧ (pg.DiffPage = none → 1 ∉ ws) ∧
      (pg.UsersPage = none → 2 ∉ ws)) ∧
    (pg.BoardPage = none → (pg.Save pack).2.roots.get? 0 = pack.roots.get? 0) ∧
    (pg.DiffPage = none → (pg.Save pack).2.roots.get? 1 = pack.roots.get? 1) ∧
    (pg.UsersPage = none → (pg.Save pack).2.roots.get? 2 = pack.roots.get? 2) ∧
    (∀ e, (pg.Save pack).1 = some e → ∃ c ∈ pg.children, pack.canWrite c.1 c.2 = false) ∧
    (pg.BoardPage = none → pg.DiffPage = none → pg.UsersPage = none →
      (pg.Save pack).1 = none ∧ (pg.Save pack).2.writes = pack.writes ∧
      (pg.Save pack).2.roots = pack.roots) := by
  have hsub : ∀ c ∈ attempted pack pg.children, c ∈ pg.children := by
    generalize pg.children = cs
    induction cs with
    | nil => intro c hc; cases hc
    | cons x rest ih =>
      intro c hc
      by_cases hx : pack.canWrite x.1 x.2 = true
      · simp only [attempted, hx, if_true, List.mem_cons] at hc ⊢
        rcases hc with rfl | hc
        · exact Or.inl rfl
        · exact Or.inr (ih c hc)
      · simp only [attempted, hx] at hc
        simp only [Bool.false_eq_true, if_false, List.mem_singleton] at hc
        subst hc; simp
  have hb : pg.BoardPage = none → ∀ c ∈ pg.children, c.1 ≠ 0 := by
    intro h c hc
    rcases pg with ⟨b, d, u⟩
    simp only at h
    subst h
    cases d <;> cases u <;> simp [Pages.children, IndexDiffPage, IndexUsersPage] at hc <;>
      (try rcases hc with rfl | rfl) <;> simp
  have hd : pg.DiffPage = none → ∀ c ∈ pg.children, c.1 ≠ 1 := by
    intro h c hc
    rcases pg with ⟨b, d, u⟩
    simp only at h
    subst h
    cases b <;> cases u <;> simp [Pages.children, IndexBoardPage, IndexUsersPage] at hc <;>
      (try rcases hc with rfl | rfl) <;> simp
  have hu : pg.UsersPage = none → ∀ c ∈ pg.children, c.1 ≠ 2 := by
    intro h c hc
    rcases pg with ⟨b, d, u⟩
    simp only at h
    subst h
    cases b <;> cases d <;> simp [Pages.children, IndexBoardPage, IndexDiffPage] at hc <;>
      (try rcases hc with rfl | rfl) <;> simp
  have hmem : ∀ (i : Nat), (∀ c ∈ pg.children, c.1 ≠ i) →
      i ∉ (attempted pack pg.children).map Prod.fst := by
    intro i hi hin
    obtain ⟨c, hc, rfl⟩ := List.mem_map.1 hin
    exact hi c (hsub c hc) rfl
  rw [Save_eq_saveInOrder]
  refine ⟨⟨_, saveInOrder_writes _ _, fun h => hmem 0 (hb h), fun h => hmem 1 (hd h),
      fun h => hmem 2 (hu h)⟩,
    fun h => saveInOrder_roots_other _ 0 _ (hb h), fun h => saveInOrder_roots_other _ 1 _ (hd h),
    fun h => saveInOrder_roots_other _ 2 _ (hu h), fun e he => ?_, fun h0 h1 h2 => ?_⟩
  · by_contra hcon
    push_neg at hcon
    have : (saveInOrder pg.children pack).1 = none :=
      (saveInOrder_ok_iff _ pack).2 (fun c hc => by simpa using hcon c hc)
    rw [this] at he; cases he
  · rcases pg with ⟨b, d, u⟩
    simp only at h0 h1 h2
    subst h0 h1 h2
    exact ⟨rfl, rfl, rfl⟩

/-- Witness for C13 (amended): the diff page alone saved into a fresh root: slots
0 and 2 are not written and stay as they were. -/
theorem Save_skips_absent_witness :
    (diffOnlyPages.Save freshPack).2.roots.get? 0 = freshPack.roots.get? 0 ∧
    (diffOnlyPages.Save freshPack).2.roots.get? 2 = freshPack.roots.get? 2 ∧
    ((noPages.Save fullPack).1 = none ∧ (noPages.Save fullPack).2.writes = fullPack.writes ∧
      (noPages.Save fullPack).2.roots = fullPack.roots) :=
  ⟨(Save_skips_absent diffOnlyPages freshPack).2.1 rfl,
    (Save_skips_absent diffOnlyPages freshPack).2.2.2.1 rfl,
    (Save_skips_absent noPages fullPack).2.2.2.2.2 rfl rfl rfl⟩

theorem RefByIndex_of_slot (p : Pack) (i : Nat) (v : RootVal)
    (h : p.roots.get? i = some (some v)) : p.RefByIndex i = .ok v := by
  unfold Pack.RefByIndex
  rw [h]

theorem Save_written (pg : Pages) (pack : Pack) (hs : (pg.Save pack).1 = none) :
    (∀ bp, pg.BoardPage = some bp → (pg.Save pack).2.RefByIndex 0 = .ok (.boardPage bp)) ∧
    (∀ dp, pg.DiffPage = some dp → (pg.Save pack).2.RefByIndex 1 = .ok (.diffPage dp)) ∧
    (∀ up, pg.UsersPage = some up → (pg.Save pack).2.RefByIndex 2 = .ok (.usersPage up)) := by
  rw [Save_eq_saveInOrder] at hs ⊢
  have hw := saveInOrder_roots_written _ pack (children_nodup pg) hs
  refine ⟨fun bp h => RefByIndex_of_slot _ _ _ (hw (0, .boardPage bp) ?_),
    fun dp h => RefByIndex_of_slot _ _ _ (hw (1, .diffPage dp) ?_),
    fun up h => RefByIndex_of_slot _ _ _ (hw (2, .usersPage up) ?_)⟩
  · simp [Pages.children, h, IndexBoardPage]
  · simp [Pages.children, h, IndexDiffPage]
  · simp [Pages.children, h, IndexUsersPage]

theorem GetPages_of_children (pg : Pages) (q : Pack) (w : List Bool)
    (hb : pg.BoardPage.isSome = true ↔ w.get? 0 = some true)
    (hd : pg.DiffPage.isSome = true ↔ w.get? 1 = some true)
    (hu : pg.UsersPage.isSome = true ↔ w.get? 2 = some true)
    (hq : ∀ c ∈ pg.children, q.RefByIndex c.1 = .ok c.2) :
    GetPages q w =
      { loads := [0, 1, 2].filter (fun i => decide (w.get? i = some true)), out := pg,
        e := none } := by
  have hf : (fun i => decide (w.get? i = some true)) = wanted w :=
    (funext (wanted_eq_decide w)).symm
  rw [hf]
  rw [← wanted_iff] at hb hd hu
  rcases pg with ⟨b, d, u⟩
  refine GetPages_of_resolved _ w b d u ?_ ?_ ?_
  · cases b with
    | none =>
      have : ¬ wanted w 0 = true := fun c => by simpa using hb.2 c
      simp [this]
    | some bp =>
      have : wanted w 0 = true := hb.1 rfl
      simp only [this, if_true]
      exact ⟨bp, rfl, hq (0, .boardPage bp) (by simp [Pages.children, IndexBoardPage])⟩
  · cases d with
    | none =>
      have : ¬ wanted w 1 = true := fun c => by simpa using hd.2 c
      simp [this]
    | some dp =>
      have : wanted w 1 = true := hd.1 rfl
      simp only [this, if_true]
      exact ⟨dp, rfl, hq (1, .diffPage dp) (by simp [Pages.children, IndexDiffPage])⟩
  · cases u with
    | none =>
      have : ¬ wanted w 2 = true := fun c => by simpa using hu.2 c
      simp [this]
    | some up =>
      have : wanted w 2 = true := hu.1 rfl
      simp only [this, if_true]
      exact ⟨up, rfl, hq (2, .usersPage up) (by simp [Pages.children, IndexUsersPage])⟩

/-- C14: for every container `pg` and flag list `w` such that the children
present in `pg` are exactly the children `w` requests (child `i` is requested
when flag `i` is present in `w` and true), if `pg.Save` succeeds then `GetPages`
with `w` on the saved root asks for exactly those children, returns no error and
returns a container equal to `pg`.  The two halves are stated too: the save has
written each present child into the slot of its index and nothing else, and each
is what that slot resolves to afterwards; and `GetPages` with `w` returns `pg`
from every root in which each present child is what the slot of its index
resolves to. -/
theorem Save_then_GetPages (pg : Pages) (pack : Pack) (w : List Bool)
    (hb : pg.BoardPage.isSome = true ↔ w.get? 0 = some true)
    (hd : pg.DiffPage.isSome = true ↔ w.get? 1 = some true)
    (hu : pg.UsersPage.isSome = true ↔ w.get? 2 = some true)
    (hs : (pg.Save pack).1 = none) :
    GetPages (pg.Save pack).2 w =
      { loads := [0, 1, 2].filter (fun i => decide (w.get? i = some true)), out := pg,
        e := none } ∧
    ((pg.Save pack).2.writes = pack.writes ++ pg.children.map Prod.fst ∧
      ∀ c ∈ pg.children, (pg.Save pack).2.RefByIndex c.1 = .ok c.2) ∧
    (∀ q : Pack, (∀ c ∈ pg.children, q.RefByIndex c.1 = .ok c.2) →
      GetPages q w =
        { loads := [0, 1, 2].filter (fun i => decide (w.get? i = some true)), out := pg,
          e := none }) := by
  have hw : ∀ c ∈ pg.children, (pg.Save pack).2.RefByIndex c.1 = .ok c.2 := by
    intro c hc
    rw [Save_eq_saveInOrder] at hs ⊢
    exact RefByIndex_of_slot _ _ _
      (saveInOrder_roots_written _ pack (children_nodup pg) hs c hc)
  have hlog : (pg.Save pack).2.writes = pack.writes ++ pg.children.map Prod.fst := by
    rw [Save_eq_saveInOrder] at hs ⊢
    rw [saveInOrder_writes, attempted_all pack _ ((saveInOrder_ok_iff _ pack).1 hs)]
  exact ⟨GetPages_of_children pg _ w hb hd hu hw, ⟨hlog, hw⟩,
    fun q hq => GetPages_of_children pg q w hb hd hu hq⟩

/-- Witness for C14: the diff page alone, saved into a fresh root and loaded
again with the flags `false, true`; the board page alone, loaded again with the
one flag `true`; and all three children saved over a full root and loaded again
with four flags. -/
theorem Save_then_GetPages_witness :
    GetPages (diffOnlyPages.Save freshPack).2 [false, true] =
      { loads := [1], out := diffOnlyPages, e := none } ∧
    GetPages (boardOnlyPages.Save freshPack).2 [true] =
      { loads := [0], out := boardOnlyPages, e := none } ∧
    GetPages (fullPages.Save fullPack).2 [true, true, true, false] =
      { loads := [0, 1, 2], out := fullPages, e := none } :=
  ⟨(Save_then_GetPages diffOnlyPages freshPack [false, true] (by decide) (by decide)
      (by decide) (by decide)).1,
    (Save_then_GetPages boardOnlyPages freshPack [true] (by decide) (by decide) (by decide)
      (by decide)).1,
    (Save_then_GetPages fullPages fullPack [true, true, true, false] (by decide) (by decide)
      (by decide) (by decide)).1⟩

/-! ## GetChanges: repeated calls -/

theorem storeLoop_fill {α : Type} (sl : Slice α) (getter : DiffPage → Int → Except boo.Error α)
    (mk : Int → Probe) (hra : ∀ c a, sl.read (sl.assign c a) = a)
    (haa : ∀ c a b, sl.assign (sl.assign c a) b = sl.assign c b)
    (har : ∀ c, sl.assign c (sl.read c) = c) :
    ∀ (n : Nat) (i : Int) (f : Frame) (log : List Probe),
      (storeLoop sl getter n i f).1.dp = f.dp ∧ (storeLoop sl getter n i f).1.oldC = f.oldC ∧
      match (fillLoop (getter f.dp) mk n i (sl.read f.newC) log).2 with
      | .done arr =>
        (storeLoop sl getter n i f).2 = none ∧
          (storeLoop sl getter n i f).1.newC = sl.assign f.newC arr
      | .failed e => (storeLoop sl getter n i f).2 = some (.returned (.error e))
      | .panicked p => (storeLoop sl getter n i f).2 = some (.panicked p) := by
  intro n
  induction n with
  | zero =>
    intro i f log
    simp [storeLoop, fillLoop, har]
  | succ n ih =>
    intro i f log
    unfold storeLoop fillLoop
    by_cases hb : 0 ≤ i ∧ i < ((sl.read f.newC).length : Int)
    · cases hg : getter f.dp i with
      | error e => simp [hb]
      | ok a =>
        simp only [hb, and_self, if_true]
        have := ih (i + 1)
          { f with newC := sl.assign f.newC ((sl.read f.newC).set i.toNat (ptrOf (Except.ok a))) }
          (log ++ [mk i])
        simp only [hra, haa] at this
        exact this
    · simp [hb]

theorem storeBlock_items {α : Type} (sl : Slice α) (getter : DiffPage → Int → Except boo.Error α)
    (mk : Int → Probe) (count : Changes → Int) (hra : ∀ c a, sl.read (sl.assign c a) = a)
    (haa : ∀ c a b, sl.assign (sl.assign c a) b = sl.assign c b)
    (har : ∀ c, sl.assign c (sl.read c) = c) (f : Frame) (o : Changes) (ho : f.oldC = some o) (hnil : sl.read f.newC = []) :
    (storeBlock sl getter count f).1.dp = f.dp ∧ (storeBlock sl getter count f).1.oldC = f.oldC ∧
    match (newItems (getter f.dp) mk (count o) (count f.newC)).2 with
    | .done arr =>
      (storeBlock sl getter count f).2 = none ∧
        (storeBlock sl getter count f).1.newC = sl.assign f.newC arr
    | .failed e => (storeBlock sl getter count f).2 = some (.returned (.error e))
    | .panicked p => (storeBlock sl getter count f).2 = some (.panicked p) := by
  unfold storeBlock newItems
  rw [ho]
  by_cases hlt : count o < count f.newC
  · by_cases hm : makeFails (wrapInt (count f.newC - count o))
    · simp [hlt, hm, ho]
    · simp only [hlt, hm, if_true, if_false]
      have := storeLoop_fill sl getter mk hra haa har (count f.newC - count o).toNat (count o)
        { f with
          newC := (sl.assign f.newC (List.replicate (wrapInt (count f.newC - count o)).toNat none)) }
        []
      simp only [hra, haa, ho] at this
      exact this
  · have : sl.assign f.newC [] = f.newC := by rw [← hnil]; exact har _
    simp [hlt, ho, this]

theorem storeBlock_done {α : Type} (sl : Slice α) (getter : DiffPage → Int → Except boo.Error α)
    (mk : Int → Probe) (count : Changes → Int) (hra : ∀ c a, sl.read (sl.assign c a) = a)
    (haa : ∀ c a b, sl.assign (sl.assign c a) b = sl.assign c b)
    (har : ∀ c, sl.assign c (sl.read c) = c) (f : Frame) (o : Changes) (ho : f.oldC = some o)
    (hnil : sl.read f.newC = []) (arr : List (Option α))
    (hN : (newItems (getter f.dp) mk (count o) (count f.newC)).2 = .done arr) :
    storeBlock sl getter count f = ({ f with newC := sl.assign f.newC arr }, none) := by
  obtain ⟨h1, h2, h3⟩ := storeBlock_items sl getter mk count hra haa har f o ho hnil
  rw [hN] at h3
  rcases hb : storeBlock sl getter count f with ⟨g, r⟩
  rw [hb] at h1 h2 h3
  rcases g with ⟨gd, go, gn⟩
  simp only at h1 h2 h3
  obtain ⟨h3, h4⟩ := h3
  subst h1 h2 h3 h4
  rfl

theorem storeBlock_ended {α : Type} (sl : Slice α) (getter : DiffPage → Int → Except boo.Error α)
    (mk : Int → Probe) (count : Changes → Int) (hra : ∀ c a, sl.read (sl.assign c a) = a)
    (haa : ∀ c a b, sl.assign (sl.assign c a) b = sl.assign c b)
    (har : ∀ c, sl.assign c (sl.read c) = c) (f : Frame) (o : Changes) (ho : f.oldC = some o)
    (hnil : sl.read f.newC = []) :
    (∀ e, (newItems (getter f.dp) mk (count o) (count f.newC)).2 = .failed e →
      ∃ g, storeBlock sl getter count f = (g, some (.returned (.error e))) ∧ g.dp = f.dp ∧
        g.oldC = f.oldC) ∧
    (∀ p, (newItems (getter f.dp) mk (count o) (count f.newC)).2 = .panicked p →
      ∃ g, storeBlock sl getter count f = (g, some (.panicked p)) ∧ g.dp = f.dp ∧
        g.oldC = f.oldC) := by
  obtain ⟨h1, h2, h3⟩ := storeBlock_items sl getter mk count hra haa har f o ho hnil
  constructor
  · intro e hN
    rw [hN] at h3
    exact ⟨(storeBlock sl getter count f).1, Prod.ext rfl h3, h1, h2⟩
  · intro p hN
    rw [hN] at h3
    exact ⟨(storeBlock sl getter count f).1, Prod.ext rfl h3, h1, h2⟩

/-- The run of `GetChanges` on the frame leaves the page and the `Changes` passed
as they were and ends as `DiffPage.GetChanges` does. -/
theorem GetChangesRun_eq (dp : DiffPage) (c : Option Changes) :
    (dp.GetChangesRun c).1.dp = dp ∧ (dp.GetChangesRun c).1.oldC = c ∧
      (dp.GetChangesRun c).2 = (dp.GetChanges c).result := by
  cases c with
  | none => exact ⟨rfl, rfl, rfl⟩
  | some o =>
    rw [GetChanges_some]
    unfold DiffPage.GetChangesRun
    simp only
    rcases hN1 : newItems dp.GetThreadOfIndex Probe.thread o.ThreadCount dp.Threads.Len
      with ⟨l1, fill1⟩
    have hN1b : (newItems dp.GetThreadOfIndex Probe.thread o.ThreadCount dp.Threads.Len).2 =
      fill1 := by rw [hN1]
    have e1 := storeBlock_ended Slice.NewThreads DiffPage.GetThreadOfIndex Probe.thread
      Changes.ThreadCount (fun _ _ => rfl) (fun _ _ _ => rfl) (fun _ => rfl)
      { dp := dp, oldC := some o,
        newC := { ThreadCount := dp.Threads.Len, PostCount := dp.Posts.Len,
                  VoteCount := dp.Votes.Len, NewThreads := [], NewPosts := [], NewVotes := [] } }
      o rfl rfl
    cases fill1 with
    | panicked p =>
      obtain ⟨g, hb, hd, ho⟩ := e1.2 p hN1b
      rw [hb]
      exact ⟨hd, ho, rfl⟩
    | failed e =>
      obtain ⟨g, hb, hd, ho⟩ := e1.1 e hN1b
      rw [hb]
      exact ⟨hd, ho, rfl⟩
    | done ts =>
      rw [storeBlock_done Slice.NewThreads DiffPage.GetThreadOfIndex Probe.thread
        Changes.ThreadCount (fun _ _ => rfl) (fun _ _ _ => rfl) (fun _ => rfl)
        (⟨dp, some o, ⟨dp.Threads.Len, dp.Posts.Len, dp.Votes.Len, [], [], []⟩⟩ : Frame)
        o rfl rfl ts hN1b]
      simp only [Slice.NewThreads]
      rcases hN2 : newItems dp.GetPostOfIndex Probe.post o.PostCount dp.Posts.Len
        with ⟨l2, fill2⟩
      have hN2b : (newItems dp.GetPostOfIndex Probe.post o.PostCount dp.Posts.Len).2 =
        fill2 := by rw [hN2]
      have e2 := storeBlock_ended Slice.NewPosts DiffPage.GetPostOfIndex Probe.post
        Changes.PostCount (fun _ _ => rfl) (fun _ _ _ => rfl) (fun _ => rfl)
        (⟨dp, some o, ⟨dp.Threads.Len, dp.Posts.Len, dp.Votes.Len, ts, [], []⟩⟩ : Frame)
        o rfl rfl
      cases fill2 with
      | panicked p =>
        obtain ⟨g, hb, hd, ho⟩ := e2.2 p hN2b
        rw [hb]
        exact ⟨hd, ho, rfl⟩
      | failed e =>
        obtain ⟨g, hb, hd, ho⟩ := e2.1 e hN2b
        rw [hb]
        exact ⟨hd, ho, rfl⟩
      | done ps =>
        rw [storeBlock_done Slice.NewPosts DiffPage.GetPostOfIndex Probe.post
          Changes.PostCount (fun _ _ => rfl) (fun _ _ _ => rfl) (fun _ => rfl)
          (⟨dp, some o, ⟨dp.Threads.Len, dp.Posts.Len, dp.Votes.Len, ts, [], []⟩⟩ : Frame)
          o rfl rfl ps hN2b]
        simp only [Slice.NewPosts]
        rcases hN3 : newItems dp.GetVoteOfIndex Probe.vote o.VoteCount dp.Votes.Len
          with ⟨l3, fill3⟩
        have hN3b : (newItems dp.GetVoteOfIndex Probe.vote o.VoteCount dp.Votes.Len).2 =
          fill3 := by rw [hN3]
        have e3 := storeBlock_ended Slice.NewVotes DiffPage.GetVoteOfIndex Probe.vote
          Changes.VoteCount (fun _ _ => rfl) (fun _ _ _ => rfl) (fun _ => rfl)
          (⟨dp, some o, ⟨dp.Threads.Len, dp.Posts.Len, dp.Votes.Len, ts, ps, []⟩⟩ : Frame)
          o rfl rfl
        cases fill3 with
        | panicked p =>
          obtain ⟨g, hb, hd, ho⟩ := e3.2 p hN3b
          rw [hb]
          exact ⟨hd, ho, rfl⟩
        | failed e =>
          obtain ⟨g, hb, hd, ho⟩ := e3.1 e hN3b
          rw [hb]
          exact ⟨hd, ho, rfl⟩
        | done vs =>
          rw [storeBlock_done Slice.NewVotes DiffPage.GetVoteOfIndex Probe.vote
            Changes.VoteCount (fun _ _ => rfl) (fun _ _ _ => rfl) (fun _ => rfl)
            (⟨dp, some o, ⟨dp.Threads.Len, dp.Posts.Len, dp.Votes.Len, ts, ps, []⟩⟩ : Frame)
            o rfl rfl vs hN3b]
          exact ⟨rfl, rfl, rfl⟩

theorem GetChanges_by_counts (dp : DiffPage) (c c2 : Option Changes)
    (h : countsOf c2 = countsOf c) : dp.GetChanges c2 = dp.GetChanges c := by
  cases c with
  | none =>
    cases c2 with
    | none => rfl
    | some y => simp [countsOf] at h
  | some x =>
    cases c2 with
    | none => simp [countsOf] at h
    | some y =>
      simp only [countsOf, Option.map_some', Option.some.injEq, Prod.mk.injEq] at h
      obtain ⟨h1, h2, h3⟩ := h
      rw [GetChanges_some, GetChanges_some, h1, h2, h3]

/-- C17: run statement by statement, `GetChanges` leaves the page behind `dp`
and the `Changes` behind its argument as they were (it stores only into the
fresh `newC`), so a second call on what the first call left behind ends as the
first did: the same error, the same counts and item slices, or the same panic.
The way it ends is the result of `DiffPage.GetChanges`, a function of the page
and of the `Changes` passed only, and of the latter through its three counts
only. -/
theorem GetChanges_repeatable (dp : DiffPage) (c : Option Changes) :
    (dp.GetChangesRun c).1.dp = dp ∧ (dp.GetChangesRun c).1.oldC = c ∧
    ((dp.GetChangesRun c).1.dp.GetChangesRun (dp.GetChangesRun c).1.oldC).2 =
      (dp.GetChangesRun c).2 ∧
    (dp.GetChangesRun c).2 = (dp.GetChanges c).result ∧
    (∀ c2, countsOf c2 = countsOf c → (dp.GetChangesRun c2).2 = (dp.GetChangesRun c).2) := by
  obtain ⟨h1, h2, h3⟩ := GetChangesRun_eq dp c
  refine ⟨h1, h2, by rw [h1, h2], h3, fun c2 h => ?_⟩
  rw [h3, (GetChangesRun_eq dp c2).2.2, GetChanges_by_counts dp c c2 h]

/-- Witness for C17: the three-thread page with counts 0, 0, 0, where three
entries are resolved and stored: the second run ends as the first, with the
three threads, and item slices left in the `Changes` passed change nothing. -/
theorem GetChanges_repeatable_witness :
    ((scenarioPage3.GetChangesRun (some zeroCounts)).1.dp.GetChangesRun
        (scenarioPage3.GetChangesRun (some zeroCounts)).1.oldC).2 =
      (scenarioPage3.GetChangesRun (some zeroCounts)).2 ∧
    (scenarioPage3.GetChangesRun (some zeroCounts)).2 =
      .returned (.ok { ThreadCount := 3, PostCount := 0, VoteCount := 0,
                       NewThreads := [some ⟨1⟩, some ⟨2⟩, some ⟨3⟩], NewPosts := [],
                       NewVotes := [] }) ∧
    (scenarioPage3.GetChangesRun (some zeroCountsWithItems)).2 =
      (scenarioPage3.GetChangesRun (some zeroCounts)).2 :=
  ⟨(GetChanges_repeatable scenarioPage3 (some zeroCounts)).2.2.1, by decide,
    (GetChanges_repeatable scenarioPage3 (some zeroCounts)).2.2.2.2 (some zeroCountsWithItems)
      rfl⟩

/-! ## GetChanges: the stores into the slices -/

/-- C19 (evaluated on the code): on a page with two posts and remembered counts
0, 1, 0 (none negative) `NewPosts` is allocated with one slot and the first store
goes to index 1, so the call ends with an index-out-of-range panic. -/
theorem GetChanges_store_out_of_range :
    0 ≤ onePostSeen.ThreadCount ∧ 0 ≤ onePostSeen.PostCount ∧ 0 ≤ onePostSeen.VoteCount ∧
    twoPostsPage.Posts.Len - onePostSeen.PostCount = 1 ∧
    twoPostsPage.GetChanges (some onePostSeen) =
      { probes := [.post 1], result := .panicked (.indexOutOfRange 1 1) } := by
  decide

/-! ## The mutex of the entry points -/

theorem withDynamicLock_some {α : Type} (m : Mutex) (body : Traced α) :
    (withDynamicLock (some m) body).1 =
      Ev.lock (.Lock m) :: body.1 ++ [Ev.lock (.Unlock m)] := by
  simp [withDynamicLock, dynamicLock]

theorem withDynamicLock_none {α : Type} (body : Traced α) :
    (withDynamicLock none body).1 = body.1 := by
  simp [withDynamicLock, dynamicLock]

theorem noLock_flatten {β : Type} (f : β → List Ev) (xs : List β)
    (h : ∀ x ∈ xs, ∀ e ∈ f x, e.isLock = false) :
    ∀ e ∈ (xs.map f).flatten, e.isLock = false := by
  intro e he
  rw [List.mem_flatten] at he
  obtain ⟨l, hl, hel⟩ := he
  obtain ⟨x, hx, rfl⟩ := List.mem_map.1 hl
  exact h x hx e hel

theorem noLock_indexEvents {α : Type} (l : Refs α) (i : Int) :
    ∀ e ∈ traced.indexEvents l i, e.isLock = false := by
  intro e he
  unfold traced.indexEvents at he
  cases h : l.RefBiIndex i with
  | error x => rw [h] at he; simp at he; subst he; rfl
  | ok x => rw [h] at he; simp at he; rcases he with rfl | rfl <;> rfl

theorem noLock_findEvents {α : Type} (l : Refs α) (h : SHA256) :
    ∀ e ∈ traced.findEvents l h, e.isLock = false := by
  intro e he
  unfold traced.findEvents at he
  cases hr : l.RefByHash h with
  | error x => rw [hr] at he; simp at he; subst he; rfl
  | ok x => rw [hr] at he; simp at he; rcases he with rfl | rfl <;> rfl

theorem noLock_loadEvents (p : Pack) (i : Nat) :
    ∀ e ∈ traced.loadEvents p i, e.isLock = false := by
  intro e he
  unfold traced.loadEvents at he
  split at he
  · simp [traced.GetBoardPage, withDynamicLock_none] at he; subst he; rfl
  · split at he
    · simp [traced.GetDiffPage, withDynamicLock_none] at he; subst he; rfl
    · simp [traced.GetUsersPage, withDynamicLock_none] at he; subst he; rfl

theorem noLock_saveEvents (pack : Pack) (c : Nat × RootVal) :
    ∀ e ∈ traced.saveEvents pack c, e.isLock = false := by
  intro e he
  unfold traced.saveEvents at he
  rcases c with ⟨i, v⟩
  cases v <;>
    simp [traced.BoardPage.Save, traced.DiffPage.Save, traced.UsersPage.Save,
      withDynamicLock_none] at he <;> subst he <;> rfl

theorem noLock_probeEvents (dp : DiffPage) (pr : Probe) :
    ∀ e ∈ traced.probeEvents dp pr, e.isLock = false := by
  cases pr <;>
    simp only [traced.probeEvents, traced.DiffPage.GetThreadOfIndex,
      traced.DiffPage.GetPostOfIndex, traced.DiffPage.GetVoteOfIndex, withDynamicLock_none] <;>
    exact noLock_indexEvents _ _

theorem noLock_AddUserActivity (st : Store) (up : UsersPage) (h : SHA256) (v : Val) :
    ∀ e ∈ (traced.UsersPage.AddUserActivity st up h v).1, e.isLock = false := by
  intro e he
  unfold traced.UsersPage.AddUserActivity at he
  simp only at he
  cases hr : up.Users.RefByHash h with
  | error x => rw [hr] at he; simp at he; subst he; rfl
  | ok x =>
    rcases x with ⟨k, uapRef⟩
    rw [hr] at he
    simp only [traced.GetUserActivityPage, withDynamicLock_none, List.mem_append,
      List.mem_singleton] at he
    rcases he with (rfl | rfl) | he
    · rfl
    · rfl
    · cases hu : object.GetUserActivityPage uapRef with
      | error x => rw [hu] at he; simp at he
      | ok uap =>
        rw [hu] at he
        cases v with
        | vote w =>
          simp only at he
          cases ha : Refs.Append st uap.VoteActions (Val.vote w) with
          | error x => rw [ha] at he; simp at he; subst he; rfl
          | ok x => rw [ha] at he; simp at he; rcases he with rfl | rfl <;> rfl
        | _ => simp at he

theorem noLock_singleton (p : Prim) : ∀ e ∈ [Ev.store p], e.isLock = false := by
  intro e he
  rw [List.mem_singleton] at he
  subst he
  rfl

/-- Whatever mutex is passed, `BoardPage.GetBoard` and `ThreadPage.AddPost`, which
take a mutex and never use it, perform no lock operation. -/
theorem events_of_unused_mutex (bp : BoardPage) (st : Store) (tp : ThreadPage)
    (postHash : SHA256) (post : Post) (mux : Option Mutex) :
    (∀ e ∈ (Call.GetBoard bp).events mux, e.isLock = false) ∧
    (∀ e ∈ (Call.AddPost st tp postHash post).events mux, e.isLock = false) := by
  constructor
  · exact noLock_singleton _
  · intro e he
    simp only [Call.events, traced.ThreadPage.AddPost] at he
    cases hr : tp.Posts.RefByHash postHash with
    | error x => rw [hr] at he; simp at he; rcases he with rfl | rfl <;> rfl
    | ok x => rw [hr] at he; simp at he; subst he; rfl

/-- C18 (counterexample): with mutex 7 at hand, calls of `ThreadPage.Save`,
`DiffPage.Add`, `NewUserActivityPage` and `AddUserActivity`, whose signatures
have no mutex parameter, perform Store calls and no lock operation. -/
theorem entry_points_without_mutex :
    (Call.ThreadPageSave emptyThreadPage ⟨3, none⟩ (.error .setRejected)).events (some 7) =
      [.store .RefSetValue] ∧
    (Call.DiffPageAdd openStore emptyDiffPage (.thread ⟨1⟩)).events (some 7) =
      [.store .RefsAppend] ∧
    (Call.NewUserActivityPage openStore emptyUsersPage 6 (.error .appendRejected)).events
      (some 7) = [.store .RefsAppend] ∧
    (Call.AddUserActivity openStore oneUserPage 12 (.vote ⟨1⟩)).events (some 7) =
      [.store .RefsRefByHash, .store .RefValue, .store .RefsAppend, .store .RefSetValue] := by
  decide

/-- C18 (amended): a call of `GetPages`, `Pages.Save`, `GetBoardPage`,
`BoardPage.Save`, `BoardPage.GetThreadPage`, `AddThread`, `GetThreadPage`,
`GetThread`, `GetDiffPage`, `DiffPage.Save`, one of the three `Get*OfIndex`,
`GetChanges`, `GetUsersPage`, `UsersPage.Save` or `GetUserActivityPage` with a
mutex locks it once, before every event of its body, and unlocks it once, after
every event of its body; the body, which is what the call does with no mutex,
performs no lock operation (its inner calls pass a nil mutex).  A call of
`ThreadPage.Save`, `DiffPage.Add`, `NewUserActivityPage` or `AddUserActivity`,
which take no mutex, performs no lock operation. -/
theorem dynamicLock_discipline (c : Call) (m : Mutex) :
    (c.entry ∈ lockingEntryPoints →
      c.events (some m) = Ev.lock (.Lock m) :: c.events none ++ [Ev.lock (.Unlock m)] ∧
      ∀ e ∈ c.events none, e.isLock = false) ∧
    (c.entry ∈ muxlessEntryPoints →
      ∀ mux, c.events mux = c.events none ∧ ∀ e ∈ c.events mux, e.isLock = false) := by
  cases c with
  | GetPages p get =>
    refine ⟨fun _ => ⟨?_, ?_⟩, fun h => absurd h (by simp [Call.entry, lockingEntryPoints, muxlessEntryPoints])⟩
    · simp only [Call.events, traced.GetPages, withDynamicLock_some, withDynamicLock_none]
    · simp only [Call.events, traced.GetPages, withDynamicLock_none]
      exact noLock_flatten _ _ (fun i _ => noLock_loadEvents p i)
  | PagesSave pg pack =>
    refine ⟨fun _ => ⟨?_, ?_⟩, fun h => absurd h (by simp [Call.entry, lockingEntryPoints, muxlessEntryPoints])⟩
    · simp only [Call.events, traced.Pages.Save, withDynamicLock_some, withDynamicLock_none]
    · simp only [Call.events, traced.Pages.Save, withDynamicLock_none]
      exact noLock_flatten _ _ (fun x _ => noLock_saveEvents pack x)
  | GetBoardPage p =>
    refine ⟨fun _ => ⟨?_, ?_⟩, fun h => absurd h (by simp [Call.entry, lockingEntryPoints, muxlessEntryPoints])⟩
    · simp only [Call.events, traced.GetBoardPage, withDynamicLock_some, withDynamicLock_none]
    · simp only [Call.events, traced.GetBoardPage, withDynamicLock_none]
      exact noLock_singleton _
  | BoardPageSave bp p =>
    refine ⟨fun _ => ⟨?_, ?_⟩, fun h => absurd h (by simp [Call.entry, lockingEntryPoints, muxlessEntryPoints])⟩
    · simp only [Call.events, traced.BoardPage.Save, withDynamicLock_some, withDynamicLock_none]
    · simp only [Call.events, traced.BoardPage.Save, withDynamicLock_none]
      exact noLock_singleton _
  | GetBoard bp =>
    exact ⟨fun h => absurd h (by simp [Call.entry, lockingEntryPoints, muxlessEntryPoints]), fun h => absurd h (by simp [Call.entry, lockingEntryPoints, muxlessEntryPoints])⟩
  | BoardPageGetThreadPage bp h =>
    refine ⟨fun _ => ⟨?_, ?_⟩, fun h => absurd h (by simp [Call.entry, lockingEntryPoints, muxlessEntryPoints])⟩
    · simp only [Call.events, traced.BoardPage.GetThreadPage, withDynamicLock_some,
        withDynamicLock_none]
    · simp only [Call.events, traced.BoardPage.GetThreadPage, withDynamicLock_none]
      exact noLock_findEvents _ _
  | AddThread bp tRef appended =>
    refine ⟨fun _ => ⟨?_, ?_⟩, fun h => absurd h (by simp [Call.entry, lockingEntryPoints, muxlessEntryPoints])⟩
    · simp only [Call.events, traced.BoardPage.AddThread, withDynamicLock_some,
        withDynamicLock_none]
    · simp only [Call.events, traced.BoardPage.AddThread, withDynamicLock_none]
      exact noLock_singleton _
  | GetThreadPage tpRef =>
    refine ⟨fun _ => ⟨?_, ?_⟩, fun h => absurd h (by simp [Call.entry, lockingEntryPoints, muxlessEntryPoints])⟩
    · simp only [Call.events, traced.GetThreadPage, withDynamicLock_some, withDynamicLock_none]
    · simp only [Call.events, traced.GetThreadPage, withDynamicLock_none]
      exact noLock_singleton _
  | GetThread tp =>
    refine ⟨fun _ => ⟨?_, ?_⟩, fun h => absurd h (by simp [Call.entry, lockingEntryPoints, muxlessEntryPoints])⟩
    · simp only [Call.events, traced.ThreadPage.GetThread, withDynamicLock_some,
        withDynamicLock_none]
    · simp only [Call.events, traced.ThreadPage.GetThread, withDynamicLock_none]
      exact noLock_singleton _
  | AddPost st tp h post =>
    exact ⟨fun h => absurd h (by simp [Call.entry, lockingEntryPoints, muxlessEntryPoints]), fun h => absurd h (by simp [Call.entry, lockingEntryPoints, muxlessEntryPoints])⟩
  | ThreadPageSave tp tpRef set =>
    refine ⟨fun h => absurd h (by simp [Call.entry, lockingEntryPoints, muxlessEntryPoints]), fun _ mux => ⟨rfl, ?_⟩⟩
    simp only [Call.events, traced.ThreadPage.Save]
    exact noLock_singleton _
  | GetDiffPage p =>
    refine ⟨fun _ => ⟨?_, ?_⟩, fun h => absurd h (by simp [Call.entry, lockingEntryPoints, muxlessEntryPoints])⟩
    · simp only [Call.events, traced.GetDiffPage, withDynamicLock_some, withDynamicLock_none]
    · simp only [Call.events, traced.GetDiffPage, withDynamicLock_none]
      exact noLock_singleton _
  | DiffPageSave dp p =>
    refine ⟨fun _ => ⟨?_, ?_⟩, fun h => absurd h (by simp [Call.entry, lockingEntryPoints, muxlessEntryPoints])⟩
    · simp only [Call.events, traced.DiffPage.Save, withDynamicLock_some, withDynamicLock_none]
    · simp only [Call.events, traced.DiffPage.Save, withDynamicLock_none]
      exact noLock_singleton _
  | DiffPageAdd st dp v =>
    refine ⟨fun h => absurd h (by simp [Call.entry, lockingEntryPoints, muxlessEntryPoints]), fun _ mux => ⟨rfl, ?_⟩⟩
    simp only [Call.events, traced.DiffPage.Add]
    cases v <;> first | exact noLock_singleton _ | (intro e he; cases he)
  | GetThreadOfIndex dp i =>
    refine ⟨fun _ => ⟨?_, ?_⟩, fun h => absurd h (by simp [Call.entry, lockingEntryPoints, muxlessEntryPoints])⟩
    · simp only [Call.events, traced.DiffPage.GetThreadOfIndex, withDynamicLock_some,
        withDynamicLock_none]
    · simp only [Call.events, traced.DiffPage.GetThreadOfIndex, withDynamicLock_none]
      exact noLock_indexEvents _ _
  | GetPostOfIndex dp i =>
    refine ⟨fun _ => ⟨?_, ?_⟩, fun h => absurd h (by simp [Call.entry, lockingEntryPoints, muxlessEntryPoints])⟩
    · simp only [Call.events, traced.DiffPage.GetPostOfIndex, withDynamicLock_some,
        withDynamicLock_none]
    · simp only [Call.events, traced.DiffPage.GetPostOfIndex, withDynamicLock_none]
      exact noLock_indexEvents _ _
  | GetVoteOfIndex dp i =>
    refine ⟨fun _ => ⟨?_, ?_⟩, fun h => absurd h (by simp [Call.entry, lockingEntryPoints, muxlessEntryPoints])⟩
    · simp only [Call.events, traced.DiffPage.GetVoteOfIndex, withDynamicLock_some,
        withDynamicLock_none]
    · simp only [Call.events, traced.DiffPage.GetVoteOfIndex, withDynamicLock_none]
      exact noLock_indexEvents _ _
  | GetChanges dp oldC =>
    refine ⟨fun _ => ⟨?_, ?_⟩, fun h => absurd h (by simp [Call.entry, lockingEntryPoints, muxlessEntryPoints])⟩
    · simp only [Call.events, traced.DiffPage.GetChanges, withDynamicLock_some,
        withDynamicLock_none]
    · simp only [Call.events, traced.DiffPage.GetChanges, withDynamicLock_none]
      intro e he
      rw [List.mem_append] at he
      rcases he with he | he
      · simp only [List.mem_cons, List.mem_singleton, List.not_mem_nil, or_false] at he
        rcases he with rfl | rfl | rfl <;> rfl
      · exact noLock_flatten _ _ (fun pr _ => noLock_probeEvents dp pr) e he
  | GetUsersPage p =>
    refine ⟨fun _ => ⟨?_, ?_⟩, fun h => absurd h (by simp [Call.entry, lockingEntryPoints, muxlessEntryPoints])⟩
    · simp only [Call.events, traced.GetUsersPage, withDynamicLock_some, withDynamicLock_none]
    · simp only [Call.events, traced.GetUsersPage, withDynamicLock_none]
      exact noLock_singleton _
  | UsersPageSave up p =>
    refine ⟨fun _ => ⟨?_, ?_⟩, fun h => absurd h (by simp [Call.entry, lockingEntryPoints, muxlessEntryPoints])⟩
    · simp only [Call.events, traced.UsersPage.Save, withDynamicLock_some, withDynamicLock_none]
    · simp only [Call.events, traced.UsersPage.Save, withDynamicLock_none]
      exact noLock_singleton _
  | NewUserActivityPage st up upk appended =>
    refine ⟨fun h => absurd h (by simp [Call.entry, lockingEntryPoints, muxlessEntryPoints]), fun _ mux => ⟨rfl, ?_⟩⟩
    simp only [Call.events, traced.UsersPage.NewUserActivityPage]
    exact noLock_singleton _
  | AddUserActivity st up h v =>
    refine ⟨fun h => absurd h (by simp [Call.entry, lockingEntryPoints, muxlessEntryPoints]), fun _ mux => ⟨rfl, ?_⟩⟩
    simp only [Call.events]
    exact noLock_AddUserActivity st up h v
  | GetUserActivityPage uapRef =>
    refine ⟨fun _ => ⟨?_, ?_⟩, fun h => absurd h (by simp [Call.entry, lockingEntryPoints, muxlessEntryPoints])⟩
    · simp only [Call.events, traced.GetUserActivityPage, withDynamicLock_some,
        withDynamicLock_none]
    · simp only [Call.events, traced.GetUserActivityPage, withDynamicLock_none]
      exact noLock_singleton _

/-- Witness for C18 (amended): `GetChanges` on the three-thread page with counts
0, 0, 0 and mutex 7: the lock, the three lengths, three entries looked up and
resolved by inner calls, the unlock; and `GetPages` of children 0 and 2. -/
theorem dynamicLock_discipline_witness :
    (Call.GetChanges scenarioPage3 (some zeroCounts)).events (some 7) =
      [.lock (.Lock 7), .store .RefsLen, .store .RefsLen, .store .RefsLen,
        .store .RefsRefBiIndex, .store .RefValue, .store .RefsRefBiIndex, .store .RefValue,
        .store .RefsRefBiIndex, .store .RefValue, .lock (.Unlock 7)] ∧
    ((Call.GetChanges scenarioPage3 (some zeroCounts)).events (some 7) =
        Ev.lock (.Lock 7) :: (Call.GetChanges scenarioPage3 (some zeroCounts)).events none ++
          [Ev.lock (.Unlock 7)] ∧
      ∀ e ∈ (Call.GetChanges scenarioPage3 (some zeroCounts)).events none, e.isLock = false) ∧
    ((Call.GetPages fullPack [true, false, true]).events (some 7) =
        Ev.lock (.Lock 7) :: (Call.GetPages fullPack [true, false, true]).events none ++
          [Ev.lock (.Unlock 7)] ∧
      ∀ e ∈ (Call.GetPages fullPack [true, false, true]).events none, e.isLock = false) :=
  ⟨by decide,
    (dynamicLock_discipline (.GetChanges scenarioPage3 (some zeroCounts)) 7).1 (by decide),
    (dynamicLock_discipline (.GetPages fullPack [true, false, true]) 7).1 (by decide)⟩

end object

namespace tag

/-! ## CheckAddress and CheckMode -/

theorem afterLastColon_of_not_mem (s : List Nat) (h : 58 ∉ s) : afterLastColon s = s := by
  unfold afterLastColon
  have : s.reverse.takeWhile (fun c => decide (c ≠ 58)) = s.reverse := by
    rw [List.takeWhile_eq_self_iff]
    intro x hx
    have hx2 : x ∈ s := List.mem_reverse.1 hx
    have : x ≠ 58 := fun e => h (e ▸ hx2)
    simpa using this
  rw [this, List.reverse_reverse]

theorem afterLastColon_cons (c : Nat) (cs : List Nat) :
    afterLastColon (c :: cs) =
      if 58 ∈ cs then afterLastColon cs else if c = 58 then cs else c :: cs := by
  by_cases h : 58 ∈ cs
  · simp only [h, if_true]
    unfold afterLastColon
    rw [List.reverse_cons, List.takeWhile_append]
    have hne : (cs.reverse.takeWhile (fun c => decide (c ≠ 58))).length ≠ cs.reverse.length := by
      intro hlen
      have heq : cs.reverse.takeWhile (fun c => decide (c ≠ 58)) = cs.reverse :=
        (List.takeWhile_sublist _).eq_of_length hlen
      rw [List.takeWhile_eq_self_iff] at heq
      have := heq 58 (List.mem_reverse.2 h)
      simp at this
    rw [if_neg hne]
  · simp only [h, if_false]
    unfold afterLastColon
    rw [List.reverse_cons, List.takeWhile_append]
    have heq : cs.reverse.takeWhile (fun c => decide (c ≠ 58)) = cs.reverse := by
      rw [List.takeWhile_eq_self_iff]
      intro x hx
      have hx2 : x ∈ cs := List.mem_reverse.1 hx
      have : x ≠ 58 := fun e => h (e ▸ hx2)
      simpa using this
    rw [if_pos (by rw [heq])]
    by_cases hc : c = 58
    · simp [hc]
    · simp [hc, List.takeWhile]

theorem Split_facts (s : List Nat) :
    (Split s).getLast? = some (afterLastColon s) ∧ (58 ∉ s → Split s = [s]) ∧
      (58 ∈ s → 2 ≤ (Split s).length) := by
  induction s with
  | nil => simp [Split, afterLastColon]
  | cons c cs ih =>
    obtain ⟨ih1, ih2, ih3⟩ := ih
    rw [afterLastColon_cons]
    unfold Split
    by_cases hc : c = 58
    · subst hc
      simp only [if_true]
      cases hs : Split cs with
      | nil => simp [hs] at ih1
      | cons seg rest =>
        rw [hs] at ih1
        refine ⟨?_, by simp, by simp⟩
        rw [List.getLast?_cons_cons, ih1]
        by_cases hm : 58 ∈ cs
        · simp [hm]
        · simp [hm, afterLastColon_of_not_mem cs hm]
    · simp only [hc, if_false]
      by_cases hm : 58 ∈ cs
      · have hlen := ih3 hm
        cases hs : Split cs with
        | nil => simp [hs] at hlen
        | cons seg rest =>
          cases rest with
          | nil => simp [hs] at hlen
          | cons x rest =>
            rw [hs] at ih1
            simp only [hm, if_true]
            refine ⟨?_, by simp [hm], by simp⟩
            rw [List.getLast?_cons_cons, ← ih1, List.getLast?_cons_cons]
      · rw [ih2 hm]
        simp only [hm, if_false]
        refine ⟨by simp, by simp, fun h => ?_⟩
        simp only [List.mem_cons] at h
        rcases h with h | h
        · exact absurd h.symm hc
        · exact absurd h hm

theorem decimal_le (cs : List Nat) : ∀ n : Nat,
    n ≤ cs.foldl (fun n c => 10 * n + (c - 48)) n := by
  induction cs with
  | nil => intro n; exact Nat.le_refl n
  | cons c cs ih =>
    intro n
    simp only [List.foldl_cons]
    exact Nat.le_trans (by omega) (ih _)

theorem digitOf_digit (c : Nat) (h : 48 ≤ c ∧ c ≤ 57) : digitOf c = some (c - 48) := by
  simp [digitOf, h]

theorem digitOf_other (c : Nat) (h : ¬ (48 ≤ c ∧ c ≤ 57)) :
    digitOf c = none ∨ ∃ d, digitOf c = some d ∧ 10 ≤ d := by
  unfold digitOf
  rw [if_neg h]
  by_cases hl : 97 ≤ lower c ∧ lower c ≤ 122
  · right
    exact ⟨_, by rw [if_pos hl], by omega⟩
  · left
    rw [if_neg hl]

theorem parseLoop_ok_iff (s : List Nat) : ∀ (n m : Nat), n ≤ 65535 →
    (parseLoop 10 ((2 ^ 64 - 1) / 10 + 1) (2 ^ 16 - 1) s n = .ok m ↔
      (∀ c ∈ s, 48 ≤ c ∧ c ≤ 57) ∧ s.foldl (fun n c => 10 * n + (c - 48)) n ≤ 65535 ∧
        m = s.foldl (fun n c => 10 * n + (c - 48)) n) := by
  induction s with
  | nil =>
    intro n m hn
    simp only [parseLoop, List.foldl_nil, List.not_mem_nil, false_implies, implies_true,
      true_and, Except.ok.injEq]
    constructor
    · intro h; exact ⟨hn, h.symm⟩
    · intro h; exact h.2.symm
  | cons c cs ih =>
    intro n m hn
    by_cases hd : 48 ≤ c ∧ c ≤ 57
    · have hlow := decimal_le cs (10 * n + (c - 48))
      unfold parseLoop
      rw [digitOf_digit c hd]
      simp only [List.foldl_cons, List.mem_cons, forall_eq_or_imp]
      have h1 : ¬ (c - 48 ≥ 10) := by omega
      have h2 : ¬ (n ≥ (2 ^ 64 - 1) / 10 + 1) := by norm_num; omega
      have h3 : (n * 10) % 2 ^ 64 = 10 * n := by norm_num; omega
      have h4 : (10 * n + (c - 48)) % 2 ^ 64 = 10 * n + (c - 48) := by norm_num; omega
      simp only [h1, h2, if_false, h3, h4]
      by_cases h5 : 10 * n + (c - 48) ≤ 65535
      · have h6 : ¬ (10 * n + (c - 48) < 10 * n ∨ 10 * n + (c - 48) > 2 ^ 16 - 1) := by
          norm_num; omega
        rw [if_neg h6, ih _ m h5]
        constructor
        · intro h; exact ⟨⟨hd, h.1⟩, h.2⟩
        · intro h; exact ⟨h.1.2, h.2⟩
      · have h6 : 10 * n + (c - 48) < 10 * n ∨ 10 * n + (c - 48) > 2 ^ 16 - 1 := by
          right; norm_num; omega
        rw [if_pos h6]
        constructor
        · intro h; cases h
        · intro h; omega
    · unfold parseLoop
      have hno : ¬ ∀ a ∈ c :: cs, 48 ≤ a ∧ a ≤ 57 := fun h => hd (h c (by simp))
      rcases digitOf_other c hd with h | ⟨d, h, hge⟩
      · rw [h]
        constructor
        · intro h; cases h
        · intro h; exact absurd h.1 hno
      · rw [h]
        simp only [ge_iff_le, hge, if_true]
        constructor
        · intro h; cases h
        · intro h; exact absurd h.1 hno

theorem ParseUint_ok_iff (s : List Nat) (m : Nat) :
    ParseUint s = .ok m ↔
      s ≠ [] ∧ (∀ c ∈ s, 48 ≤ c ∧ c ≤ 57) ∧ decimalValue s ≤ 65535 ∧ m = decimalValue s := by
  unfold ParseUint decimalValue
  by_cases h : s = []
  · simp [h]
  · rw [if_neg h, parseLoop_ok_iff s 0 m (by omega)]
    simp [h]

theorem CheckAddress_eq (address : List Nat) :
    CheckAddress address =
      match ParseUint (afterLastColon address) with
      | .error _ =>
        .returned (some (boo.Newf boo.Kind.InvalidInput (boo.Msg.addressInvalid address)))
      | .ok port =>
        if port < 0 ∨ port > 65535 then
          .returned (some (boo.Newf boo.Kind.InvalidInput (boo.Msg.portInvalid address)))
        else .returned none := by
  have hl := (Split_facts address).1
  rw [List.getLast?_eq_getElem?] at hl
  have hne : Split address ≠ [] := fun h => by rw [h] at hl; simp at hl
  have hpos : 0 < (Split address).length := List.length_pos.2 hne
  unfold CheckAddress
  have hi : (0 : Int) ≤ ((Split address).length : Int) - 1 := by omega
  have ht : (((Split address).length : Int) - 1).toNat = (Split address).length - 1 := by omega
  simp only [hi, if_true, ht, List.get?_eq_getElem?, hl]

theorem CheckAddress_returns (address : List Nat) :
    CheckAddress address = .returned none ∨
      ∃ e, CheckAddress address = .returned (some e) ∧ e.kind = boo.Kind.InvalidInput := by
  rw [CheckAddress_eq]
  cases hp : ParseUint (afterLastColon address) with
  | error e => exact Or.inr ⟨_, rfl, rfl⟩
  | ok port =>
    by_cases h : port < 0 ∨ port > 65535
    · right
      exact ⟨boo.Newf boo.Kind.InvalidInput (boo.Msg.portInvalid address),
        by simp only [h, if_true], rfl⟩
    · left
      simp only [h, if_false]

/-- C15: `CheckAddress` returns no error exactly when the text after the last
`':'` of the address (the whole address when it has no `':'`) is a non-empty
sequence of decimal digits whose value is at most 65535; in every other case it
returns an InvalidInput error. -/
theorem CheckAddress_iff (address : List Nat) :
    (CheckAddress address = .returned none ↔
      afterLastColon address ≠ [] ∧ (∀ c ∈ afterLastColon address, 48 ≤ c ∧ c ≤ 57) ∧
        decimalValue (afterLastColon address) ≤ 65535) ∧
    (CheckAddress address ≠ .returned none →
      ∃ e, CheckAddress address = .returned (some e) ∧ e.kind = boo.Kind.InvalidInput) := by
  refine ⟨?_, fun h => (CheckAddress_returns address).resolve_left h⟩
  rw [CheckAddress_eq]
  cases hp : ParseUint (afterLastColon address) with
  | error e =>
    constructor
    · intro h; cases h
    · intro h
      have := (ParseUint_ok_iff (afterLastColon address) _).2 ⟨h.1, h.2.1, h.2.2, rfl⟩
      rw [hp] at this; cases this
  | ok port =>
    obtain ⟨h1, h2, h3, h4⟩ := (ParseUint_ok_iff _ _).1 hp
    have hno : ¬ (port < 0 ∨ port > 65535) := by omega
    simp only [hno, if_false, true_iff]
    exact ⟨h1, h2, h3⟩

/-- Witness for C15, the scenario of the spec: `10.0.0.1:8080` passes and
`10.0.0.1:70000` fails as InvalidInput. -/
theorem CheckAddress_iff_witness :
    CheckAddress (bytes "10.0.0.1:8080") = .returned none ∧
    ∃ e, CheckAddress (bytes "10.0.0.1:70000") = .returned (some e) ∧
      e.kind = boo.Kind.InvalidInput :=
  ⟨(CheckAddress_iff (bytes "10.0.0.1:8080")).1.2 (by decide),
    (CheckAddress_iff (bytes "10.0.0.1:70000")).2 (by decide)⟩

/-- C16: `CheckMode(mode)` returns no error exactly when `mode` is -1, 0 or +1,
and an InvalidInput error for every other value; of the 256 values of an `int8`
these are 253. -/
theorem CheckMode_iff (mode : Int) :
    (CheckMode mode = none ↔ mode = -1 ∨ mode = 0 ∨ mode = 1) ∧
    (¬ (mode = -1 ∨ mode = 0 ∨ mode = 1) →
      CheckMode mode = some (boo.Newf boo.Kind.InvalidInput (boo.Msg.invalidMode mode)) ∧
      (boo.Newf boo.Kind.InvalidInput (boo.Msg.invalidMode mode)).kind =
        boo.Kind.InvalidInput) ∧
    (int8Values.filter (fun m => decide (CheckMode m ≠ none))).length = 253 := by
  refine ⟨?_, fun h => ⟨?_, rfl⟩, ?_⟩
  · unfold CheckMode
    by_cases h : mode = -1 ∨ mode = 0 ∨ mode = 1
    · simp only [h, if_true]
    · simp only [h, if_false]
      constructor
      · intro c; cases c
      · intro c; exact absurd c (fun x => x.elim)
  · unfold CheckMode
    rw [if_neg h]
  · set_option maxRecDepth 100000 in decide

/-- Witness for C16, the scenario of the spec: mode 2 fails as InvalidInput;
modes -1, 0 and 1 pass. -/
theorem CheckMode_iff_witness :
    (CheckMode 2 = some (boo.Newf boo.Kind.InvalidInput (boo.Msg.invalidMode 2)) ∧
      (boo.Newf boo.Kind.InvalidInput (boo.Msg.invalidMode 2)).kind = boo.Kind.InvalidInput) ∧
    CheckMode (-1) = none ∧ CheckMode 0 = none ∧ CheckMode 1 = none :=
  ⟨(CheckMode_iff 2).2.1 (by decide), (CheckMode_iff (-1)).1.2 (Or.inl rfl),
    (CheckMode_iff 0).1.2 (Or.inr (Or.inl rfl)), (CheckMode_iff 1).1.2 (Or.inr (Or.inr rfl))⟩

/-- C20: `CheckAddress` is total: for every address, the empty one and those
without `':'` included, the split on `':'` has at least one piece, so the index
`len(pts)-1` of its last piece is in range, and `CheckAddress` returns either no
error or an InvalidInput error; it never panics. -/
theorem CheckAddress_total (address : List Nat) :
    1 ≤ (Split address).length ∧
    (∃ last, (Split address).get? ((Split address).length - 1) = some last) ∧
    (∀ p, CheckAddress address ≠ .panicked p) ∧
    (CheckAddress address = .returned none ∨
      ∃ e, CheckAddress address = .returned (some e) ∧ e.kind = boo.Kind.InvalidInput) := by
  have hl := (Split_facts address).1
  have hne : Split address ≠ [] := fun h => by rw [h] at hl; simp at hl
  refine ⟨List.length_pos.2 hne, ⟨afterLastColon address, ?_⟩, fun p hp => ?_,
    CheckAddress_returns address⟩
  · rw [List.get?_eq_getElem?, ← List.getLast?_eq_getElem?]
    exact hl
  · rcases CheckAddress_returns address with h | ⟨e, h, -⟩ <;> rw [h] at hp <;> cases hp

end tag
